import Mathlib

/-!
# CodeRoast — verification of the Static Signal Engine and Evidence-Locked Patch Pipeline

Shallow embedding of the core of the CodeRoast repository
(`src/agents/fix-it-agent.ts`, `src/agents/code-analysis-agent.ts`,
`src/agents/evidence-guard-agent.ts`, `src/types.ts`) in Lean 4, together
with theorems settling the frozen claims about it.

JavaScript conventions are modelled explicitly:
* `string.split(/\r?\n/)` and `replace(/\r$/, "")` become `jsSplitLines` / `stripCR`;
* `Array.prototype.slice` with out-of-range indices becomes `jsSlice`;
* thrown exceptions become `Except String`;
* `Map` / plain-object records (insertion-ordered) become association lists
  with in-place value update (`alistSet`).
Numbers are modelled as `Int` (line numbers, counts) and `ℚ` (averages);
all values appearing here are far below 2^53, so JS float arithmetic is exact
on them.
-/

namespace CodeRoast

/-! ### Kernel-reducible string operations

The corresponding `String` library functions are compiled code whose Lean
models do not reduce definitionally, so the string operations the embedding
needs are defined here over `List Char` (identical semantics on the inputs
involved). -/

/-- `List Char` prefix test. -/
def listPrefix : List Char → List Char → Bool
  | [], _ => true
  | _ :: _, [] => false
  | a :: as, b :: bs => a == b && listPrefix as bs

/-- `strStartsWith s p`. -/
def strStartsWith (s p : String) : Bool :=
  listPrefix p.toList s.toList

/-- `strEndsWith s p`. -/
def strEndsWith (s p : String) : Bool :=
  listPrefix p.toList.reverse s.toList.reverse

/-- `s.drop n`. -/
def strDrop (s : String) (n : Nat) : String :=
  String.mk (s.toList.drop n)

/-- `s.dropRight n`. -/
def strDropRight (s : String) (n : Nat) : String :=
  String.mk (s.toList.take (s.toList.length - n))

/-- `s.trim` (whitespace removed from both ends). -/
def strTrim (s : String) : String :=
  String.mk (((s.toList.dropWhile Char.isWhitespace).reverse.dropWhile
    Char.isWhitespace).reverse)

/-- Splitting on a non-empty separator, leftmost, non-overlapping
(`String.splitOn` / JS `split`).  Structural on the fuel argument (every call
site passes at least the list's length, and each step consumes at least one
character, so the fuel never runs out). -/
def splitOnCharsAux (s0 : Char) (srest : List Char) : Nat → List Char → List (List Char)
  | _, [] => [[]]
  | 0, cs => [cs]
  | fuel + 1, c :: rest =>
    if listPrefix (s0 :: srest) (c :: rest) then
      [] :: splitOnCharsAux s0 srest fuel (rest.drop srest.length)
    else
      match splitOnCharsAux s0 srest fuel rest with
      | [] => [[c]]
      | g :: gs => (c :: g) :: gs

/-- `s.splitOn sep` (`sep` empty returns `[s]`, as never used here). -/
def strSplitOn (s sep : String) : List String :=
  match sep.toList with
  | [] => [s]
  | s0 :: srest => (splitOnCharsAux s0 srest s.toList.length s.toList).map String.mk

/-- `strIntercalate`. -/
def strIntercalate (sep : String) (parts : List String) : String :=
  String.mk (((parts.map String.toList).intersperse sep.toList).flatten)

/-- Lexicographic strict comparison on char lists (UTF-16 code order for the
ASCII inputs involved). -/
def listCharLt : List Char → List Char → Bool
  | _, [] => false
  | [], _ :: _ => true
  | a :: as, b :: bs => a < b || (a == b && listCharLt as bs)

/-- `a <= b` on strings (JS default sort order). -/
def strLe (a b : String) : Bool :=
  a == b || listCharLt a.toList b.toList

/-- `s.split p` on a character predicate. -/
def splitPredChars (p : Char → Bool) : List Char → List (List Char)
  | [] => [[]]
  | c :: rest =>
    if p c then [] :: splitPredChars p rest
    else
      match splitPredChars p rest with
      | [] => [[c]]
      | g :: gs => (c :: g) :: gs

/-- One trailing carriage return removed: JS `line.replace(/\r$/, "")`. -/
def stripCR (s : String) : String :=
  if strEndsWith s "\r" then strDropRight s 1 else s

/-- Helper for `jsSplitLines`: every piece but the last loses one trailing CR
(the CR belonged to the `\r?\n` separator). -/
def stripCRButLast : List String → List String
  | [] => []
  | [x] => [x]
  | x :: xs => stripCR x :: stripCRButLast xs

/-- JS `content.split(/\r?\n/)`. -/
def jsSplitLines (s : String) : List String :=
  stripCRButLast (strSplitOn s "\n")

/-- JS `Array.prototype.slice(b, e)` index clamping. -/
def jsClamp (len : Nat) (i : Int) : Nat :=
  if i < 0 then (len - (-i).toNat) else min i.toNat len

/-- JS `arr.slice(b, e)`. -/
def jsSlice (l : List α) (b e : Int) : List α :=
  let b' := jsClamp l.length b
  let e' := jsClamp l.length e
  (l.drop b').take (e' - b')

/-- JS `arr.slice(b)`. -/
def jsSliceFrom (l : List α) (b : Int) : List α :=
  l.drop (jsClamp l.length b)

/-- First binding of `k` in an insertion-ordered association list
(JS record / `Map` lookup). -/
def alistGet (m : List (String × β)) (k : String) : Option β :=
  (m.find? (fun p => p.fst == k)).map (·.snd)

/-- JS `map.set(k, v)` / `obj[k] = v`: update in place if present
(position preserved), else append. -/
def alistSet (m : List (String × β)) (k : String) (v : β) : List (String × β) :=
  match m with
  | [] => [(k, v)]
  | (k', v') :: rest =>
    if k' == k then (k', v) :: rest else (k', v') :: alistSet rest k v

/-- JS `Object.keys` (insertion order). -/
def alistKeys (m : List (String × β)) : List String :=
  m.map (·.fst)

/-! ## Data model (`src/types.ts`, `src/agents/fix-it-agent.ts`) -/

/-- `fix-it-agent.ts`: `type LineRange = { startLine: number; endLine: number }`. -/
structure LineRange where
  startLine : Int
  endLine : Int
deriving Repr, DecidableEq

/-- `fix-it-agent.ts`: one hunk of a unified diff. -/
structure Hunk where
  oldStart : Int
  oldLines : Int
  newStart : Int
  newLines : Int
  lines : List String
deriving Repr, DecidableEq

/-- `fix-it-agent.ts`: `type FilePatch = { filePath: string; hunks: Hunk[] }`. -/
structure FilePatch where
  filePath : String
  hunks : List Hunk
deriving Repr, DecidableEq

/-! ## Diff parsing (`fix-it-agent.ts`, `normalizeDiffPath` / `parseHunkHeader` /
`parseUnifiedDiff`) -/

/-- `normalizeDiffPath`: trim, keep `/dev/null`, then strip a leading `a/`
and then a leading `b/`. -/
def normalizeDiffPath (value : String) : String :=
  let cleaned := strTrim value
  if cleaned == "/dev/null" then cleaned
  else
    let s1 := if strStartsWith cleaned "a/" then strDrop cleaned 2 else cleaned
    if strStartsWith s1 "b/" then strDrop s1 2 else s1

/-- Greedy `(\d+)`: at least one digit, maximal run. -/
def takeDigits : List Char → Option (Nat × List Char)
  | [] => none
  | c :: cs =>
    if c.isDigit then
      match takeDigits cs with
      | some (n, rest) => some ((c.toNat - 48) * 10 ^ (cs.length - rest.length) + n, rest)
      | none => some (c.toNat - 48, cs)
    else none

/-- `(?:,(\d+))?`: if a comma follows it must be followed by digits
(the skip alternative would then demand a space at the comma and fail). -/
def takeOptCommaDigits (cs : List Char) : Option (Option Nat × List Char) :=
  match cs with
  | ',' :: rest =>
    match takeDigits rest with
    | some (n, rest') => some (some n, rest')
    | none => none
  | _ => some (none, cs)

/-- Expect a literal character list prefix. -/
def takeLit : List Char → List Char → Option (List Char)
  | [], cs => some cs
  | l :: ls, c :: cs => if c == l then takeLit ls cs else none
  | _ :: _, [] => none

/-- Attempt the hunk-header regex `@@ -(\d+)(?:,(\d+))? \+(\d+)(?:,(\d+))? @@(?: .*)?$`
anchored at the head of `cs` and reaching the end of the line.  The optional
trailer is a space followed by `.*$`: JS `.` matches no line terminator, so a
trailer containing `\r`, U+2028 or U+2029 cannot reach the end anchor and the
match fails. -/
def matchHunkAt (cs : List Char) : Option (Nat × Option Nat × Nat × Option Nat) := do
  let cs ← takeLit ['@', '@', ' ', '-'] cs
  let (o, cs) ← takeDigits cs
  let (ol, cs) ← takeOptCommaDigits cs
  let cs ← takeLit [' ', '+'] cs
  let (n, cs) ← takeDigits cs
  let (nl, cs) ← takeOptCommaDigits cs
  let cs ← takeLit [' ', '@', '@'] cs
  match cs with
  | [] => some (o, ol, n, nl)
  | ' ' :: rest =>
    if rest.all (fun c => !(c == '\n' || c == '\r' || c == '\u2028' || c == '\u2029')) then
      some (o, ol, n, nl)
    else none
  | _ => none

/-- JS `RegExp.exec`: leftmost position at which the (end-anchored) pattern matches. -/
def findHunkMatch : List Char → Option (Nat × Option Nat × Nat × Option Nat)
  | [] => none
  | c :: cs =>
    match matchHunkAt (c :: cs) with
    | some r => some r
    | none => findHunkMatch cs

/-- `parseHunkHeader`: regex match anywhere in the line; absent lengths default to 1. -/
def parseHunkHeader (line : String) : Option Hunk :=
  match findHunkMatch line.toList with
  | none => none
  | some (o, ol, n, nl) =>
    some { oldStart := o, oldLines := ol.getD 1, newStart := n, newLines := nl.getD 1,
           lines := [] }

/-- Parser state: `rev` holds the patches pushed so far (most recent first);
`curOpen` mirrors `current !== null` (the current patch is `rev.head`);
`hunkOpen` mirrors `currentHunk !== null` (the current hunk is the last hunk of
`rev.head`). A `diff --git` line nulls both without removing the pushed patch. -/
structure DiffState where
  rev : List FilePatch
  curOpen : Bool
  hunkOpen : Bool
deriving Repr

/-- Append a hunk to the current patch (`current.hunks.push(hunk)`). -/
def pushHunk (st : DiffState) (h : Hunk) : DiffState :=
  match st.rev with
  | [] => st
  | p :: rest => { st with rev := { p with hunks := p.hunks ++ [h] } :: rest }

/-- Append a body line to the current hunk (`currentHunk.lines.push(line)`). -/
def pushHunkLine (st : DiffState) (l : String) : DiffState :=
  match st.rev with
  | [] => st
  | p :: rest =>
    match p.hunks.getLast? with
    | none => st
    | some h =>
      { st with rev := { p with hunks := p.hunks.dropLast ++ [{ h with lines := h.lines ++ [l] }] } :: rest }

/-- The forward scan after a `--- <path>` line: skip any line until one starting
with `+++ ` (returned raw, with the remainder after it), failing on `--- `,
`@@ `, `diff --git` or end of input.  Every line that is none of those —
blank, `index `, or arbitrary text — is skipped. -/
def scanForPlusPlus : List String → Option (String × List String)
  | [] => none
  | raw :: rest =>
    if strStartsWith (stripCR raw) "+++ " then some (raw, rest)
    else if strStartsWith (stripCR raw) "--- " || strStartsWith (stripCR raw) "@@ " ||
        strStartsWith (stripCR raw) "diff --git" then none
    else scanForPlusPlus rest

/-- The body of `parseUnifiedDiff`'s `for` loop, one source line at a time.
Structural on the fuel argument (each step consumes at least one line, and
`parseUnifiedDiff` passes the line count, so the fuel never runs out). -/
def parseDiffGo : Nat → List String → DiffState → Except String (List FilePatch)
  | _, [], st => Except.ok st.rev.reverse
  | 0, _ :: _, st => Except.ok st.rev.reverse
  | fuel + 1, rawLine :: rest, st =>
    let line := stripCR rawLine
    if strStartsWith line "```" then parseDiffGo fuel rest st
    else if strStartsWith line "diff --git" then
      parseDiffGo fuel rest { st with curOpen := false, hunkOpen := false }
    else if strStartsWith line "index " then parseDiffGo fuel rest st
    else if strStartsWith line "--- " then
      let oldPath := normalizeDiffPath (strDrop line 4)
      match scanForPlusPlus rest with
      | none => Except.error "Malformed diff header."
      | some (next, rest2) =>
        let newPath := normalizeDiffPath (strDrop next 4)
        let filePath := if newPath != "/dev/null" then newPath else oldPath
        parseDiffGo fuel rest2
          { rev := { filePath := filePath, hunks := [] } :: st.rev,
            curOpen := true, hunkOpen := false }
    else if strStartsWith line "@@ " then
      if !st.curOpen then Except.error "Hunk found before file header."
      else
        match parseHunkHeader line with
        | none => Except.error "Malformed hunk header."
        | some hk => parseDiffGo fuel rest (pushHunk { st with hunkOpen := true } hk)
    else if !st.hunkOpen then parseDiffGo fuel rest st
    else if strStartsWith line "\\ No newline at end of file" then parseDiffGo fuel rest st
    else parseDiffGo fuel rest (pushHunkLine st line)

/-- `parseUnifiedDiff`: split the blob and run the loop, starting with no
current file and no current hunk. -/
def parseUnifiedDiff (diff : String) : Except String (List FilePatch) :=
  parseDiffGo (jsSplitLines diff).length (jsSplitLines diff)
    { rev := [], curOpen := false, hunkOpen := false }

/-- `hasPatchChanges`'s per-line test: an add/remove line that is not a
`+++ ` / `--- ` file header. -/
def lineIsChange (l : String) : Bool :=
  (strStartsWith l "+" || strStartsWith l "-") && !(strStartsWith l "+++ " || strStartsWith l "--- ")

/-- `hasPatchChanges`: some hunk contains a genuine add or remove line. -/
def hasPatchChanges (patches : List FilePatch) : Bool :=
  patches.any fun p => p.hunks.any fun h => h.lines.any lineIsChange

/-! ## Patch application (`applyPatchToContent`) -/

/-- The inner loop over a hunk's body lines: context copies and advances,
remove advances only the input cursor, add emits without advancing; any other
tag throws.  Returns the extended output and the new cursor. -/
def applyHunkLines (lines : List String) (cursor : Int) (output : List String) :
    List String → Except String (List String × Int)
  | [] => Except.ok (output, cursor)
  | l :: rest =>
    if strStartsWith l " " then applyHunkLines lines (cursor + 1) (output ++ [strDrop l 1]) rest
    else if strStartsWith l "-" then applyHunkLines lines (cursor + 1) output rest
    else if strStartsWith l "+" then applyHunkLines lines cursor (output ++ [strDrop l 1]) rest
    else Except.error "Unexpected diff line."

/-- The loop over a patch's hunks. -/
def applyHunks (lines : List String) (cursor : Int) (output : List String) :
    List Hunk → Except String (List String × Int)
  | [] => Except.ok (output, cursor)
  | hk :: rest => do
    let startIndex := hk.oldStart - 1
    if startIndex < 0 || startIndex > (lines.length : Int) then
      Except.error "Hunk start out of range."
    else do
      let out := output ++ jsSlice lines cursor startIndex
      let (out, cur) ← applyHunkLines lines startIndex out hk.lines
      applyHunks lines cur out rest

/-- `applyPatchToContent`: purely positional hunk replay over the split
content; throws only on an out-of-range hunk start or an untagged body line. -/
def applyPatchToContent (content : String) (patch : FilePatch) : Except String String := do
  let (out, cur) ← applyHunks (jsSplitLines content) 0 [] patch.hunks
  Except.ok (strIntercalate "\n" (out ++ jsSliceFrom (jsSplitLines content) cur))

/-! ## Evidence-scope validation (`lineInRanges` / `patchWithinEvidence`) -/

/-- `lineInRanges`. -/
def lineInRanges (line : Int) (ranges : List LineRange) : Bool :=
  ranges.any fun r => decide (line ≥ r.startLine) && decide (line ≤ r.endLine)

/-- `fix-it-agent.ts` guard result `{ ok: boolean; reason?: string }`. -/
structure GuardResult where
  ok : Bool
  reason : Option String
deriving Repr, DecidableEq

/-- The per-hunk cursor replay of `patchWithinEvidence`: first violation wins. -/
def guardHunkLines (filePath : String) (ranges : List LineRange) (oldLine : Int) :
    List String → Option String
  | [] => none
  | l :: rest =>
    if strStartsWith l "-" then
      if !lineInRanges oldLine ranges then
        some ("Patch removes line " ++ toString oldLine ++ " outside evidence in " ++ filePath)
      else guardHunkLines filePath ranges (oldLine + 1) rest
    else if strStartsWith l "+" then
      if !lineInRanges oldLine ranges then
        some ("Patch adds line outside evidence near " ++ toString oldLine ++ " in " ++ filePath)
      else guardHunkLines filePath ranges oldLine rest
    else if strStartsWith l " " then guardHunkLines filePath ranges (oldLine + 1) rest
    else guardHunkLines filePath ranges oldLine rest

/-- All hunks of one `FilePatch`, each replayed from its own `oldStart`. -/
def guardHunks (filePath : String) (ranges : List LineRange) : List Hunk → Option String
  | [] => none
  | hk :: rest =>
    match guardHunkLines filePath ranges hk.oldStart hk.lines with
    | some r => some r
    | none => guardHunks filePath ranges rest

/-- `patchWithinEvidence`: a file with no allowed ranges, or any hunk line whose
cursor position escapes the ranges, rejects the entire patch. -/
def patchWithinEvidence (patches : List FilePatch) (allowed : List (String × List LineRange)) :
    GuardResult :=
  match patches with
  | [] => { ok := true, reason := none }
  | fp :: rest =>
    match alistGet allowed fp.filePath with
    | none => { ok := false, reason := some ("Patch touches non-evidence file: " ++ fp.filePath) }
    | some ranges =>
      if ranges.length == 0 then
        { ok := false, reason := some ("Patch touches non-evidence file: " ++ fp.filePath) }
      else
        match guardHunks fp.filePath ranges fp.hunks with
        | some r => { ok := false, reason := some r }
        | none => patchWithinEvidence rest allowed

/-! ## Evidence model (`src/types.ts`) and Evidence Guard
(`src/agents/evidence-guard-agent.ts`)

JS numbers are modelled as `ℚ` for metric values (every float is finite here;
`NaN`/`Infinity` are not representable, which only removes some invalid
inputs) and as `Int` for line numbers (the guard's `Number.isInteger` check is
thereby built into the type). -/

/-- A metric value is a JS number or a string (`value: number | string`). -/
inductive MetricValue where
  | num (q : ℚ)
  | str (s : String)
deriving Repr, DecidableEq

/-- `EvidenceMetric`. -/
structure EvidenceMetric where
  type : String
  value : MetricValue
deriving Repr, DecidableEq

/-- `EvidenceItem`. -/
structure EvidenceItem where
  file : String
  startLine : Int
  endLine : Int
  metrics : List EvidenceMetric
deriving Repr, DecidableEq

/-- `Issue`. -/
structure Issue where
  type : String
  signal : String
  confidence : String
  evidence : List EvidenceItem
deriving Repr, DecidableEq

/-- `GuardedIssue`. -/
structure GuardedIssue where
  type : String
  signal : String
  confidence : String
  evidence : List EvidenceItem
  evidenceComplete : Bool
  missingEvidenceReason : Option String
deriving Repr, DecidableEq

/-- `GuardedInsights`. -/
structure GuardedInsights where
  issues : List GuardedIssue
deriving Repr, DecidableEq

/-- `isNonEmptyString` (the `typeof` check is carried by the type). -/
def isNonEmptyString (s : String) : Bool :=
  !(strTrim s == "")

/-- `isValidLine`: positive integer (integrality is carried by `Int`). -/
def isValidLine (v : Int) : Bool :=
  decide (v > 0)

/-- `isValidMetricValue`: finite non-negative number or non-empty string
(every `ℚ` is finite). -/
def isValidMetricValue : MetricValue → Bool
  | .num q => decide (q ≥ 0)
  | .str s => !(strTrim s == "")

/-- The in-order checks of `validateEvidence`'s `for` body for one item;
`none` means the item passes. -/
def itemFailure (item : EvidenceItem) : Option String :=
  if !isNonEmptyString item.file then some "Evidence item missing file path."
  else if !(isValidLine item.startLine && isValidLine item.endLine) then
    some "Evidence item missing line range."
  else if item.endLine < item.startLine then some "Evidence item line range is invalid."
  else if item.metrics.length == 0 then some "Evidence item missing metrics."
  else if item.metrics.any (fun m => m.type == "" || !isValidMetricValue m.value) then
    some "Evidence item has invalid metric."
  else none

/-- First failing item's reason, scanning evidence in order. -/
def firstItemFailure : List EvidenceItem → Option String
  | [] => none
  | it :: rest =>
    match itemFailure it with
    | some r => some r
    | none => firstItemFailure rest

/-- `validateEvidence`: first failure wins; success keeps the input's
`missingEvidenceReason` (the spread `{ ...issue, evidenceComplete: true }`). -/
def validateEvidence (issue : GuardedIssue) : GuardedIssue :=
  if issue.evidence.length == 0 then
    { issue with evidenceComplete := false,
                 missingEvidenceReason := some "No evidence items provided." }
  else
    match firstItemFailure issue.evidence with
    | some r => { issue with evidenceComplete := false, missingEvidenceReason := some r }
    | none => { issue with evidenceComplete := true }

/-- `runEvidenceGuardAgent`: each `Issue` is spread into a `GuardedIssue`
(`evidenceComplete: true`, no reason yet) and validated. -/
def runEvidenceGuardAgent (insights : List Issue) : GuardedInsights :=
  { issues := insights.map fun issue =>
      validateEvidence
        { type := issue.type, signal := issue.signal, confidence := issue.confidence,
          evidence := issue.evidence, evidenceComplete := true,
          missingEvidenceReason := none } }

/-! ## Analysis result shape consumed by the fix pipeline (`src/types.ts`).

Only `metrics` and `signals.longFunctions` are ever read by the patch
pipeline; the other signal lists are irrelevant to it and omitted from this
record (they appear in the Signal Engine embedding below). -/

/-- `types.ts` `LongFunction` (the shape declared there and consumed by
`findMaxLongFunctionInRange`). -/
structure LongFunction where
  file : String
  name : String
  length : Int
  startLine : Int
  endLine : Int
deriving Repr, DecidableEq

/-- `AnalysisMetrics`. -/
structure AnalysisMetrics where
  maxFunctionLength : Int
  avgFunctionLength : ℚ
  duplicateBlocks : Int
  totalFunctions : Int
deriving Repr, DecidableEq

/-- The part of `AnalysisResult` read by the fix pipeline. -/
structure AnalysisResult where
  metrics : AnalysisMetrics
  longFunctions : List LongFunction
deriving Repr, DecidableEq

/-- `code-analysis-agent.ts`: `LONG_FUNCTION_LOC = 50`. -/
def LONG_FUNCTION_LOC : Int := 50

/-- `fix-it-agent.ts`: `MAX_FIXES = 2`. -/
def MAX_FIXES : Nat := 2

/-- JS `Math.round`: half-up, toward positive infinity. -/
def jsRound (q : ℚ) : Int :=
  ⌊q + 1 / 2⌋

/-- `MetricDelta`. -/
structure MetricDelta where
  maxFunctionLength : Int
  avgFunctionLength : ℚ
  duplicateBlocks : Int
  totalFunctions : Int
deriving Repr, DecidableEq

/-- `buildMetricDelta` (average delta rounded to 2 decimals, JS style). -/
def buildMetricDelta (before after : AnalysisResult) : MetricDelta :=
  { maxFunctionLength := after.metrics.maxFunctionLength - before.metrics.maxFunctionLength,
    avgFunctionLength :=
      (jsRound ((after.metrics.avgFunctionLength - before.metrics.avgFunctionLength) * 100) : ℚ) / 100,
    duplicateBlocks := after.metrics.duplicateBlocks - before.metrics.duplicateBlocks,
    totalFunctions := after.metrics.totalFunctions - before.metrics.totalFunctions }

/-! ## Verification rules (`findMaxLongFunctionInRange`, `verifyLongFunctionFix`,
`verifyDuplicateFix`) -/

/-- `VerificationResult`. -/
structure VerificationResult where
  ok : Bool
  message : String
  details : Option String
deriving Repr, DecidableEq

/-- The filter of `findMaxLongFunctionInRange`. -/
def fnMatchesRange (file : String) (range : LineRange) (fn : LongFunction) : Bool :=
  fn.file == file && decide (fn.startLine ≤ range.endLine) &&
    decide (fn.endLine ≥ range.startLine) && decide (fn.length ≥ LONG_FUNCTION_LOC)

/-- `findMaxLongFunctionInRange`: 0 when nothing matches, else
`Math.max` of the matching lengths. -/
def findMaxLongFunctionInRange (longFunctions : List LongFunction) (file : String)
    (range : LineRange) : Int :=
  match longFunctions.filter (fnMatchesRange file range) with
  | [] => 0
  | fn :: rest => rest.foldl (fun acc f => max acc f.length) fn.length

/-- `verifyLongFunctionFix`. -/
def verifyLongFunctionFix (before after : AnalysisResult) (evidence : EvidenceItem) :
    VerificationResult :=
  let range : LineRange := { startLine := evidence.startLine, endLine := evidence.endLine }
  let beforeMax := findMaxLongFunctionInRange before.longFunctions evidence.file range
  let afterMax := findMaxLongFunctionInRange after.longFunctions evidence.file range
  if beforeMax == 0 then
    { ok := false, message := "No long function found in evidence range.", details := none }
  else
    let afterLabel :=
      if afterMax == 0 then "< " ++ toString LONG_FUNCTION_LOC else toString afterMax
    let details := "longFunctionLength: " ++ toString beforeMax ++ " -> " ++ afterLabel
    if afterMax == 0 || afterMax < beforeMax then
      { ok := true, message := "Long function length reduced.", details := some details }
    else
      { ok := false, message := "Long function length did not improve.", details := some details }

/-- `verifyDuplicateFix`. -/
def verifyDuplicateFix (before after : AnalysisResult) : VerificationResult :=
  let details := "duplicateBlocks: " ++ toString before.metrics.duplicateBlocks ++ " -> " ++
    toString after.metrics.duplicateBlocks
  if after.metrics.duplicateBlocks < before.metrics.duplicateBlocks then
    { ok := true, message := "Duplicate blocks reduced.", details := some details }
  else
    { ok := false, message := "Duplicate blocks did not improve.", details := some details }

/-! ## Fix pipeline (`attemptFix` / `runFixItAgent` and helpers)

Effects are made explicit: the filesystem is a read-only association list
from posix-relative path to content (`toAbsolutePath` only re-roots the same
relative path, so the relative path itself is the key); a thrown JS error is
`Except.error` carrying the error message; the Gemini call is a parameter
`gen : String → Except String String` from prompt to response text (or thrown
network error).  `runCodeAnalysisAgent` as invoked for verification is the
parameter `runAnalysis` from the overrides map to an analysis result (it is
total: the real agent catches its own per-file read failures). -/

/-- A pure filesystem: relative path to content. -/
def FileSys : Type := List (String × String)

/-- `fs.readFile` (a missing file throws). -/
def readFileE (fs : FileSys) (p : String) : Except String String :=
  match alistGet fs p with
  | some c => Except.ok c
  | none => Except.error ("ENOENT: no such file or directory, open " ++ p)

/-- `FixSuggestion` (`src/types.ts`). -/
structure FixSuggestion where
  issueId : Int
  issueType : String
  signal : String
  files : List String
  patch : String
  verified : Bool
  verificationMessage : String
  verificationDetails : Option String
deriving Repr, DecidableEq

/-- `FixPreviewSummary`. -/
structure FixPreviewSummary where
  before : AnalysisMetrics
  after : Option AnalysisMetrics
  delta : Option MetricDelta
  note : Option String
deriving Repr, DecidableEq

/-- `FixResult` (the `applyResult` field belongs to the excluded apply step). -/
structure FixResult where
  suggestions : List FixSuggestion
  previewSummary : Option FixPreviewSummary
deriving Repr, DecidableEq

/-- `buildAllowedRanges`: evidence items grouped into `file → ranges`,
insertion-ordered. -/
def buildAllowedRanges (issue : GuardedIssue) : List (String × List LineRange) :=
  issue.evidence.foldl
    (fun acc item =>
      alistSet acc item.file
        ((alistGet acc item.file).getD [] ++ [{ startLine := item.startLine, endLine := item.endLine }]))
    []

/-- `summarizeEvidence`. -/
def summarizeEvidence (issue : GuardedIssue) : String :=
  strIntercalate "; "
    (issue.evidence.map fun item =>
      item.file ++ ":" ++ toString item.startLine ++ "-" ++ toString item.endLine)

/-- JS `lineNo.toString().padStart(4, " ")`. -/
def padStart4 (s : String) : String :=
  if s.length ≥ 4 then s else String.mk (List.replicate (4 - s.length) ' ') ++ s

/-- `buildNumberedSnippet`: 1-based slice with 4-column line numbers. -/
def buildNumberedSnippet (content : String) (startLine endLine : Int) : String :=
  let lines := jsSplitLines content
  let slice := jsSlice lines (startLine - 1) endLine
  strIntercalate "\n"
    ((slice.enum.map fun p =>
      padStart4 (toString (startLine + (p.1 : Int))) ++ " | " ++ p.2))

/-- The record returned by `readSnippet`. -/
structure Snippet where
  file : String
  startLine : Int
  endLine : Int
  text : String
deriving Repr, DecidableEq

/-- `readSnippet` (the file read may throw). -/
def readSnippet (fs : FileSys) (item : EvidenceItem) : Except String Snippet := do
  let content ← readFileE fs item.file
  Except.ok { file := item.file, startLine := item.startLine, endLine := item.endLine,
              text := buildNumberedSnippet content item.startLine item.endLine }

/-- `selectDuplicateEvidence`: first file (insertion order) with at least two
evidence items contributes its first two; otherwise none. -/
def selectDuplicateEvidence (issue : GuardedIssue) : List EvidenceItem :=
  let byFile := issue.evidence.foldl
    (fun m it => alistSet m it.file ((alistGet m it.file).getD [] ++ [it])) []
  match byFile.find? (fun p => p.snd.length ≥ 2) with
  | some p => p.snd.take 2
  | none => []

/-- The per-snippet strict diff template shared by both prompts. -/
def snippetTemplate (snippet : Snippet) : String :=
  let length := max 1 (snippet.endLine - snippet.startLine + 1)
  strIntercalate "\n"
    [ "--- a/" ++ snippet.file,
      "+++ b/" ++ snippet.file,
      "@@ -" ++ toString snippet.startLine ++ "," ++ toString length ++ " +" ++
        toString snippet.startLine ++ "," ++ toString length ++ " @@",
      " <unchanged line>",
      "-<line to remove>",
      "+<line to add>",
      " <unchanged line>" ]

/-- The evidence-snippet paragraph shared by both prompts. -/
def snippetParagraph (snippet : Snippet) : String :=
  "File: " ++ snippet.file ++ " (" ++ toString snippet.startLine ++ "-" ++
    toString snippet.endLine ++ ")\n" ++ snippet.text

/-- `buildLongFunctionPrompt`. -/
def buildLongFunctionPrompt (issue : GuardedIssue) (snippets : List Snippet) : String :=
  strIntercalate "\n"
    ([ "You are a code fixer. Output ONLY a unified diff.",
       "Return a complete unified diff with ---/+++ headers and @@ hunk headers.",
       "Do not wrap the diff in markdown fences or add commentary.",
       "Use the strict template below. Replace placeholders with real code.",
       "Choose one template and output only the filled diff.",
       "If you change line counts, adjust the @@ header lengths accordingly.",
       "You must only modify lines within the evidence line ranges provided.",
       "Do not add new files. Do not edit outside the ranges.",
       "Goal: reduce function length below " ++ toString LONG_FUNCTION_LOC ++ " lines.",
       "Ensure the diff includes at least one added or removed line.",
       "",
       "Issue type: " ++ issue.type,
       "Signal: " ++ issue.signal,
       "Evidence: " ++ summarizeEvidence issue,
       "",
       "Evidence snippets (with line numbers):" ]
      ++ snippets.map snippetParagraph
      ++ [ "", "Strict diff template (fill in one of these):" ]
      ++ snippets.map snippetTemplate)

/-- `buildDuplicatePrompt`. -/
def buildDuplicatePrompt (issue : GuardedIssue) (snippets : List Snippet) : String :=
  strIntercalate "\n"
    ([ "You are a code fixer. Output ONLY a unified diff.",
       "Return a complete unified diff with ---/+++ headers and @@ hunk headers.",
       "Do not wrap the diff in markdown fences or add commentary.",
       "Use the strict template below. Replace placeholders with real code.",
       "Choose one template and output only the filled diff.",
       "If you change line counts, adjust the @@ header lengths accordingly.",
       "You must only modify lines within the evidence line ranges provided.",
       "Do not add new files. Do not edit outside the ranges.",
       "Goal: eliminate duplication by changing one occurrence.",
       "Ensure the diff includes at least one added or removed line.",
       "",
       "Issue type: " ++ issue.type,
       "Signal: " ++ issue.signal,
       "Evidence: " ++ summarizeEvidence issue,
       "",
       "Evidence snippets (with line numbers):" ]
      ++ snippets.map snippetParagraph
      ++ [ "", "Strict diff template (fill in one of these):" ]
      ++ snippets.map snippetTemplate)

/-- `buildRetryPrompt`. -/
def buildRetryPrompt (basePrompt reason : String) : String :=
  strIntercalate "\n"
    [ "Previous output was invalid: " ++ reason,
      "You MUST return ONLY a valid unified diff.",
      "Do not include diff --git or index lines.",
      "Do not include markdown or commentary.",
      "Use the strict template exactly.",
      "",
      basePrompt ]

/-- Parse a generated response and apply the two emptiness checks, exactly as
in the inner `try` of `attemptFix`. -/
def parseAndCheck (patchText : String) : Except String (List FilePatch) := do
  let patches ← parseUnifiedDiff patchText
  if patches.length == 0 then Except.error "Empty patch response."
  else if !hasPatchChanges patches then Except.error "Patch contains no changes."
  else Except.ok patches

/-- The generate/parse phase of `attemptFix` (outer `try` body): one
generation, and on an invalid diff exactly one retry with a stricter
re-prompt.  A generation (network) failure of the first call is not retried. -/
def generateAndParse (gen : String → Except String String) (prompt : String) :
    Except String (String × List FilePatch) := do
  let patchText ← gen prompt
  match parseAndCheck patchText with
  | Except.ok patches => Except.ok (patchText, patches)
  | Except.error reason => do
    let retryPrompt := buildRetryPrompt prompt reason
    let patchText2 ← gen retryPrompt
    let patches ← parseAndCheck patchText2
    Except.ok (patchText2, patches)

/-- The rejected `FixSuggestion` constructor used by both failure returns of
`attemptFix`. -/
def rejectedSuggestion (issueId : Int) (issue : GuardedIssue)
    (files : List String) (message : String) : FixSuggestion :=
  { issueId := issueId, issueType := issue.type, signal := issue.signal,
    files := files, patch := "", verified := false,
    verificationMessage := message, verificationDetails := none }

/-- The phase of `attemptFix` from the built prompt on: the caught
generate/parse call, the scope guard, and the uncaught apply/verify tail.
`Except.error` is an exception escaping the function. -/
def attemptFixOnPrompt (gen : String → Except String String) (fs : FileSys)
    (runAnalysis : List (String × String) → AnalysisResult)
    (issueId : Int) (issue : GuardedIssue) (analysis : AnalysisResult)
    (prompt : String) (evidenceItems : List EvidenceItem) :
    Except String (Option FixSuggestion) := do
  let allowedRanges := buildAllowedRanges issue
  match generateAndParse gen prompt with
  | Except.error e =>
    Except.ok (some (rejectedSuggestion issueId issue (alistKeys allowedRanges) e))
  | Except.ok (patchText, patches) => do
    let guard := patchWithinEvidence patches allowedRanges
    if !guard.ok then
      Except.ok (some (rejectedSuggestion issueId issue (alistKeys allowedRanges)
        (guard.reason.getD "Patch rejected by evidence guard.")))
    else do
      let overrides ← patches.foldlM
        (fun acc filePatch => do
          let content ← readFileE fs filePatch.filePath
          let applied ← applyPatchToContent content filePatch
          Except.ok (alistSet acc filePatch.filePath applied))
        ([] : List (String × String))
      let updatedAnalysis := runAnalysis overrides
      let verification :=
        if issue.signal == "longFunctions" then
          match evidenceItems.head? with
          | some e0 => verifyLongFunctionFix analysis updatedAnalysis e0
          | none => { ok := false, message := "No verification available.", details := none }
        else if issue.signal == "duplicateBlocks" then
          verifyDuplicateFix analysis updatedAnalysis
        else { ok := false, message := "No verification available.", details := none }
      Except.ok (some
        { issueId := issueId, issueType := issue.type, signal := issue.signal,
          files := alistKeys allowedRanges, patch := strTrim patchText,
          verified := verification.ok,
          verificationMessage := verification.message,
          verificationDetails := verification.details })

/-- `attemptFix`.  `Except.error` is an exception escaping the function
(aborting its caller); `Except.ok none` is the `return null` path;
`Except.ok (some s)` is a produced suggestion. -/
def attemptFix (gen : String → Except String String) (fs : FileSys)
    (apiKey : Option String) (runAnalysis : List (String × String) → AnalysisResult)
    (issueId : Int) (issue : GuardedIssue) (analysis : AnalysisResult) :
    Except String (Option FixSuggestion) := do
  if !issue.evidenceComplete then Except.ok none
  else match apiKey with
  | none => Except.ok none
  | some _ => do
    let promptAndItems ←
      if issue.signal == "longFunctions" then do
        let evidenceItems := issue.evidence.take 1
        if evidenceItems.length == 0 then Except.ok none
        else do
          let snippets ← evidenceItems.mapM (readSnippet fs)
          Except.ok (some (buildLongFunctionPrompt issue snippets, evidenceItems))
      else if issue.signal == "duplicateBlocks" then do
        let evidenceItems := selectDuplicateEvidence issue
        if evidenceItems.length < 2 then Except.ok none
        else do
          let snippets ← evidenceItems.mapM (readSnippet fs)
          Except.ok (some (buildDuplicatePrompt issue snippets, evidenceItems))
      else Except.ok none
    match promptAndItems with
    | none => Except.ok none
    | some (prompt, evidenceItems) =>
      attemptFixOnPrompt gen fs runAnalysis issueId issue analysis prompt evidenceItems

/-- `applyPatchesToOverrides`: group patches by file, then apply each file's
patches in sequence against the evolving buffer read once from disk. -/
def applyPatchesToOverrides (fs : FileSys) (patches : List FilePatch) :
    Except String (List (String × String)) := do
  let byFile := patches.foldl
    (fun m p => alistSet m p.filePath ((alistGet m p.filePath).getD [] ++ [p])) []
  byFile.foldlM
    (fun overrides entry => do
      let original ← readFileE fs entry.fst
      let start := (alistGet overrides entry.fst).getD original
      let content ← entry.snd.foldlM (fun c p => applyPatchToContent c p) start
      Except.ok (alistSet overrides entry.fst content))
    ([] : List (String × String))

/-- `buildPreviewSummary` (its `parseUnifiedDiff` and file reads may throw,
uncaught). -/
def buildPreviewSummary (fs : FileSys)
    (runAnalysis : List (String × String) → AnalysisResult)
    (analysis : AnalysisResult) (suggestions : List FixSuggestion) :
    Except String FixPreviewSummary := do
  let verifiedOnes := suggestions.filter fun s => s.verified && s.patch != ""
  let parsed ← verifiedOnes.mapM (fun s => parseUnifiedDiff s.patch)
  let verifiedPatches := parsed.flatten
  if verifiedPatches.length == 0 then
    Except.ok { before := analysis.metrics, after := none, delta := none,
                note := some "No verified patches to compare yet." }
  else do
    let overrides ← applyPatchesToOverrides fs verifiedPatches
    let after := runAnalysis overrides
    Except.ok { before := analysis.metrics, after := some after.metrics,
                delta := some (buildMetricDelta analysis after),
                note := some "Preview metrics are based on verified patch candidates." }

/-- `FIXABLE_SIGNALS.has(issue.signal)`. -/
def isFixableSignal (signal : String) : Bool :=
  signal == "longFunctions" || signal == "duplicateBlocks"

/-- The indexed loop of `runFixItAgent` over the first `MAX_FIXES` candidates;
an exception escaping `attemptFix` aborts the whole loop. -/
def runFixLoop (gen : String → Except String String) (fs : FileSys)
    (apiKey : Option String) (runAnalysis : List (String × String) → AnalysisResult)
    (analysis : AnalysisResult) (index : Nat) :
    List GuardedIssue → Except String (List FixSuggestion)
  | [] => Except.ok []
  | issue :: rest => do
    let suggestion ← attemptFix gen fs apiKey runAnalysis (index + 1 : Nat) issue analysis
    let tail ← runFixLoop gen fs apiKey runAnalysis analysis (index + 1) rest
    match suggestion with
    | none => Except.ok tail
    | some s => Except.ok (s :: tail)

/-- `runFixItAgent`. -/
def runFixItAgent (gen : String → Except String String) (fs : FileSys)
    (apiKey : Option String) (runAnalysis : List (String × String) → AnalysisResult)
    (analysis : AnalysisResult) (insights : GuardedInsights) :
    Except String FixResult := do
  let candidates := insights.issues.filter fun issue => isFixableSignal issue.signal
  let suggestions ← runFixLoop gen fs apiKey runAnalysis analysis 0 (candidates.take MAX_FIXES)
  let previewSummary ← buildPreviewSummary fs runAnalysis analysis suggestions
  Except.ok { suggestions := suggestions, previewSummary := some previewSummary }

/-! ## Source Indexer & Normalizer (`code-analysis-agent.ts`, `normalizeContent`) -/

/-- Split at the first `*/`, returning the chars before and after it. -/
def findBlockClose : List Char → Option (List Char × List Char)
  | [] => none
  | c :: rest =>
    if c == '*' && rest.head? == some '/' then some ([], rest.tail)
    else (findBlockClose rest).map fun p => (c :: p.1, p.2)

/-- `content.replace(/\/\*[\s\S]*?\*\//g, m => m.replace(/[^\n]/g, ""))`:
every (lazily matched, left to right) block comment keeps only its newlines;
an unterminated `/*` is left untouched.  Structural on the fuel argument
(each step consumes at least one character). -/
def stripBlockCommentChars : Nat → List Char → List Char
  | _, [] => []
  | 0, cs => cs
  | fuel + 1, c :: rest =>
    if c == '/' && listPrefix ['*'] rest then
      match findBlockClose rest.tail with
      | some (inside, after) =>
        inside.filter (· == '\n') ++ stripBlockCommentChars fuel after
      | none => c :: rest
    else c :: stripBlockCommentChars fuel rest

/-- `replace(/\/\/.*$/gm, "")` applied per split line: cut at the first `//`. -/
def cutLineComment (s : String) : String :=
  (strSplitOn s "//").headD s

/-- `line.replace(/\s+/g, " ").trim()`. -/
def collapseAndTrim (s : String) : String :=
  strIntercalate " "
    (((splitPredChars Char.isWhitespace s.toList).map String.mk).filter
      (fun t => !(t == "")))

/-- `normalizeContent`: comment-stripped, whitespace-collapsed surviving lines
paired with their 1-based original line numbers. -/
def normalizeContent (content : String) : List String × List Nat :=
  let noBlock := String.mk (stripBlockCommentChars content.toList.length content.toList)
  let rawLines := (jsSplitLines noBlock).map cutLineComment
  let pairs := rawLines.enum.foldl
    (fun acc p =>
      let normalized := collapseAndTrim p.2
      if normalized == "" then acc else acc ++ [(normalized, p.1 + 1)])
    ([] : List (String × Nat))
  (pairs.map (·.1), pairs.map (·.2))

/-- `hashString` (djb2 xor variant over 32-bit patterns, rendered as the
unsigned hex string). -/
def hashString (value : String) : String :=
  let h := value.toList.foldl (fun h c => ((h * 33) % 4294967296) ^^^ c.toNat) 5381
  (Nat.toDigits 16 (h % 4294967296)).asString

/-- `NormalizedFile` (`code-analysis-agent.ts`). -/
structure NormalizedFile where
  path : String
  extension : String
  normalizedLines : List String
  lineNumbers : List Nat
  imports : List String
deriving Repr, DecidableEq

/-! ## Duplicate-Block Detector (`collectDuplicateBlocks`) -/

def DUPLICATE_MIN_LINES : Nat := 10
def DUPLICATE_MAX_LINES : Nat := 50
def DUPLICATE_MIN_OCCURRENCES : Nat := 2

/-- An occurrence in a reported block (1-based original line numbers). -/
structure DuplicateOccurrence where
  file : String
  startLine : Nat
  endLine : Nat
deriving Repr, DecidableEq

/-- `DuplicateBlock`. -/
structure DuplicateBlock where
  hash : String
  length : Nat
  occurrences : List DuplicateOccurrence
deriving Repr, DecidableEq

/-- `DuplicateCandidate` (file plus normalized-line start index). -/
structure DuplicateCandidate where
  file : String
  startIndex : Nat
deriving Repr, DecidableEq

/-- The `fileIndex` map. -/
def buildFileIndex (files : List NormalizedFile) : List (String × NormalizedFile) :=
  files.foldl (fun m f => alistSet m f.path f) []

/-- The fixed-window candidate map: each `DUPLICATE_MIN_LINES`-line window,
keyed by its joined text, grouped across all files (insertion order). -/
def buildCandidates (files : List NormalizedFile) : List (String × List DuplicateCandidate) :=
  files.foldl
    (fun m f =>
      if f.normalizedLines.length < DUPLICATE_MIN_LINES then m
      else
        (List.range (f.normalizedLines.length - DUPLICATE_MIN_LINES + 1)).foldl
          (fun m' start =>
            let blockKey := strIntercalate "\n"
              ((f.normalizedLines.drop start).take DUPLICATE_MIN_LINES)
            alistSet m' blockKey
              ((alistGet m' blockKey).getD [] ++ [{ file := f.path, startIndex := start }]))
          m)
    []

/-- The greedy extension loop: starting from the minimum window, extend while
every occurrence's line at the next offset equals the baseline's, stopping at
the first mismatch, end of file, or the `DUPLICATE_MAX_LINES` cap.  The first
argument counts the remaining iterations (`DUPLICATE_MAX_LINES - offset`),
exactly the `for` loop's bound. -/
def extendLoop (fileIndex : List (String × NormalizedFile))
    (occurrences : List DuplicateCandidate) (baselineFile : NormalizedFile)
    (baselineStart : Nat) : Nat → Nat → Nat → Nat
  | 0, _offset, len => len
  | rem + 1, offset, len =>
    match baselineFile.normalizedLines.get? (baselineStart + offset) with
    | none => len
    | some expected =>
      let allMatch := occurrences.all fun occ =>
        match alistGet fileIndex occ.file with
        | none => false
        | some f =>
          match f.normalizedLines.get? (occ.startIndex + offset) with
          | none => false
          | some l => l == expected
      if allMatch then
        extendLoop fileIndex occurrences baselineFile baselineStart rem (offset + 1) (offset + 1)
      else len

/-- An entry of the `duplicatesMap`: the block under construction plus the
dedup key set of its occurrences. -/
structure DupEntry where
  block : DuplicateBlock
  occurrenceKeys : List String
deriving Repr, DecidableEq

/-- The dedup key `` `${file}:${startLine}:${endLine}` ``. -/
def occurrenceKey (file : String) (startLine endLine : Nat) : String :=
  file ++ ":" ++ toString startLine ++ ":" ++ toString endLine

/-- Add one candidate occurrence to an entry (skipping out-of-bounds line
decodes and already-present keys). -/
def addOccurrence (fileIndex : List (String × NormalizedFile)) (len : Nat)
    (entry : DupEntry) (occ : DuplicateCandidate) : DupEntry :=
  match alistGet fileIndex occ.file with
  | none => entry
  | some f =>
    match f.lineNumbers.get? occ.startIndex with
    | none => entry
    | some startLine =>
      let endIndex := occ.startIndex + len - 1
      if h : endIndex < f.lineNumbers.length then
        let endLine := f.lineNumbers.get ⟨endIndex, h⟩
        let key := occurrenceKey occ.file startLine endLine
        if entry.occurrenceKeys.contains key then entry
        else
          { block := { entry.block with
              occurrences := entry.block.occurrences ++
                [{ file := occ.file, startLine := startLine, endLine := endLine }] },
            occurrenceKeys := entry.occurrenceKeys ++ [key] }
      else entry

/-- Process one candidate group into the duplicates map. -/
def processGroup (fileIndex : List (String × NormalizedFile))
    (dmap : List (String × DupEntry)) (blockKey : String)
    (occurrences : List DuplicateCandidate) : List (String × DupEntry) :=
  if occurrences.length < DUPLICATE_MIN_OCCURRENCES then dmap
  else
    match occurrences with
    | [] => dmap
    | baseline :: _ =>
      match alistGet fileIndex baseline.file with
      | none => dmap
      | some baselineFile =>
        let len := extendLoop fileIndex occurrences baselineFile baseline.startIndex
          (DUPLICATE_MAX_LINES - DUPLICATE_MIN_LINES) DUPLICATE_MIN_LINES DUPLICATE_MIN_LINES
        let extendedKey := strIntercalate "\n"
          ((baselineFile.normalizedLines.drop baseline.startIndex).take len)
        let entry := (alistGet dmap extendedKey).getD
          { block := { hash := hashString extendedKey, length := len, occurrences := [] },
            occurrenceKeys := [] }
        let entry := occurrences.foldl (addOccurrence fileIndex len) entry
        alistSet dmap extendedKey entry

/-- `collectDuplicateBlocks`. -/
def collectDuplicateBlocks (files : List NormalizedFile) : List DuplicateBlock :=
  let fileIndex := buildFileIndex files
  let candidates := buildCandidates files
  let dmap := candidates.foldl (fun m p => processGroup fileIndex m p.1 p.2) []
  (dmap.map (·.2.block)).filter fun b =>
    decide (b.occurrences.length ≥ DUPLICATE_MIN_OCCURRENCES)

/-! ## Dependency-Cycle Detector (`resolveImportPath`,
`collectCircularDependencies`)

`path.posix` helpers are modelled for relative posix paths (Node semantics on
the fragment of inputs reachable here: no scheme, `/`-separated). -/

/-- `path.posix.normalize` on a relative or absolute posix path. -/
def posixNormalize (p : String) : String :=
  if p == "" then "."
  else
    let isAbs := strStartsWith p "/"
    let segs := (strSplitOn p "/").filter fun s => !(s == "") && s != "."
    let out := segs.foldl
      (fun acc s =>
        if s == ".." then
          match acc.getLast? with
          | some last => if last == ".." then acc ++ [s] else acc.dropLast
          | none => if isAbs then acc else acc ++ [s]
        else acc ++ [s])
      ([] : List String)
    let body := strIntercalate "/" out
    if isAbs then "/" ++ body
    else if body == "" then "." else body

/-- `path.posix.join` of two parts. -/
def posixJoin2 (a b : String) : String :=
  if a == "" && b == "" then "."
  else if a == "" then posixNormalize b
  else if b == "" then posixNormalize a
  else posixNormalize (a ++ "/" ++ b)

/-- `path.posix.dirname`. -/
def posixDirname (p : String) : String :=
  let chars := p.toList
  let isAbs := strStartsWith p "/"
  let trimmed := (chars.reverse.dropWhile (· == '/')).reverse
  match (trimmed.reverse.dropWhile (· != '/')).reverse.dropLast with
  | [] => if isAbs then "/" else "."
  | dir =>
    match (dir.reverse.dropWhile (· == '/')).reverse with
    | [] => if isAbs then "/" else "."
    | d => String.mk d

/-- `path.posix.extname`: the suffix of the basename from its last dot,
empty for dotfiles and extension-less names. -/
def posixExtname (p : String) : String :=
  let base := ((p.toList.reverse.takeWhile (· != '/')).reverse)
  let afterDot := base.reverse.takeWhile (· != '.')
  if afterDot.length == base.length then ""
  else if afterDot.length + 1 == base.length then ""
  else String.mk ('.' :: afterDot.reverse)

/-- `JS_TS_EXTENSIONS` in insertion order. -/
def JS_TS_EXTENSIONS : List String := [".ts", ".tsx", ".js", ".jsx", ".mjs", ".cjs"]

/-- `resolveImportPath`: only relative specifiers, matched literally, then
with each known extension, then as `index.<ext>`, against the indexed paths. -/
def resolveImportPath (importerPath specifier : String) (filePaths : List String) :
    Option String :=
  if !strStartsWith specifier "." then none
  else
    let baseDir := posixDirname importerPath
    let combined := posixNormalize (posixJoin2 baseDir specifier)
    let hasExtension := posixExtname combined != ""
    let candidates :=
      if hasExtension then [combined]
      else JS_TS_EXTENSIONS.flatMap fun ext =>
        [combined ++ ext, posixJoin2 combined ("index" ++ ext)]
    candidates.find? fun c => filePaths.contains c

/-- The `CircularDependency` record as the analyzer in `src` builds it
(`cycles.push({ from, to })`; `from` is a Lean keyword, hence `fromFile`). -/
structure CircularDependency where
  fromFile : String
  toFile : String
deriving Repr, DecidableEq

/-- The import adjacency map: per file, the resolved targets as a JS `Set`
(insertion-ordered, deduplicated). -/
def buildImportGraph (files : List NormalizedFile) (filePaths : List String) :
    List (String × List String) :=
  files.foldl
    (fun graph f =>
      let edges := f.imports.foldl
        (fun es spec =>
          match resolveImportPath f.path spec filePaths with
          | some r => if es.contains r then es else es ++ [r]
          | none => es)
        ((alistGet graph f.path).getD [])
      alistSet graph f.path edges)
    []

/-- The unordered-pair dedup key `[from, to].sort().join("::")`. -/
def cycleKey (a b : String) : String :=
  if strLe a b then a ++ "::" ++ b else b ++ "::" ++ a

/-- One step of the cycle-reporting loop: report `from → tgt` once per
unordered pair when the reciprocal edge exists. -/
def cycleStep (graph : List (String × List String)) (fromFile : String)
    (acc2 : List String × List CircularDependency) (tgt : String) :
    List String × List CircularDependency :=
  let (seen, cycles) := acc2
  if ((alistGet graph tgt).getD []).contains fromFile then
    let key := cycleKey fromFile tgt
    if seen.contains key then (seen, cycles)
    else (seen ++ [key], cycles ++ [{ fromFile := fromFile, toFile := tgt }])
  else (seen, cycles)

/-- The nested reporting loop of `collectCircularDependencies`. -/
def collectCyclesFromGraph (graph : List (String × List String)) :
    List CircularDependency :=
  (graph.foldl
    (fun acc entry => entry.2.foldl (cycleStep graph entry.1) acc)
    (([], []) : List String × List CircularDependency)).2

/-- `collectCircularDependencies`. -/
def collectCircularDependencies (files : List NormalizedFile)
    (filePaths : List String) : List CircularDependency :=
  collectCyclesFromGraph (buildImportGraph files filePaths)

/-! ## Function-Length Analyzer (`getFunctionName`, `collectFunctionLengths`)

The TypeScript AST is abstracted to a tree whose nodes carry the data the
analyzer reads: the syntactic kind (with the name information the kind
guarantees), whether a body is present, and the 0-based line numbers that
`getLineAndCharacterOfPosition` returns for `getStart`/`getEnd`. -/

/-- The node kinds distinguished by `getFunctionName` / `ts.isFunctionLike`. -/
inductive TsNodeKind where
  | functionDeclaration (name : Option String)
  | methodDeclaration (name : String)
  | methodSignature (name : String)
  | getAccessor (name : String)
  | setAccessor (name : String)
  | constructorDecl
  | arrowFunction
  | functionExpr
  | variableDeclaration (identName : Option String)
  | propertyAssignment (nameText : String)
  | propertyDeclaration (nameText : String)
  | sourceFile
  | other
deriving Repr, DecidableEq

/-- `ts.isFunctionLike`. -/
def isFunctionLikeKind : TsNodeKind → Bool
  | .functionDeclaration _ => true
  | .methodDeclaration _ => true
  | .methodSignature _ => true
  | .getAccessor _ => true
  | .setAccessor _ => true
  | .constructorDecl => true
  | .arrowFunction => true
  | .functionExpr => true
  | _ => false

/-- An abstracted `ts.Node`. -/
inductive TsNode where
  | mk (kind : TsNodeKind) (hasBody : Bool) (startLine endLine : Int)
      (children : List TsNode)
deriving Repr

def TsNode.kind : TsNode → TsNodeKind
  | .mk k _ _ _ _ => k

def TsNode.hasBody : TsNode → Bool
  | .mk _ b _ _ _ => b

def TsNode.startLine : TsNode → Int
  | .mk _ _ s _ _ => s

def TsNode.endLine : TsNode → Int
  | .mk _ _ _ e _ => e

def TsNode.children : TsNode → List TsNode
  | .mk _ _ _ _ cs => cs

/-- `getFunctionName`: declared name, accessor/method name, constructor,
enclosing variable/property binding, else `"<anonymous>"` (the source reads
only the node's and its parent's syntactic kind and name, carried here by
`TsNodeKind`). -/
def getFunctionName (kind : TsNodeKind) (parentKind : Option TsNodeKind) : String :=
  match kind with
  | .functionDeclaration (some n) => n
  | .methodDeclaration n => n
  | .methodSignature n => n
  | .getAccessor n => n
  | .setAccessor n => n
  | .constructorDecl => "constructor"
  | _ =>
    match parentKind with
    | some pk =>
      match pk with
      | .variableDeclaration (some n) => n
      | .propertyAssignment t => t
      | .propertyDeclaration t => t
      | _ => "<anonymous>"
    | none => "<anonymous>"

/-- The record `collectFunctionLengths` actually pushes in `src`:
`{ file, name, length }` — without the `startLine`/`endLine` fields that
`types.ts` declares on `LongFunction`. -/
structure AnalyzedFunction where
  file : String
  name : String
  length : Int
deriving Repr, DecidableEq

mutual

/-- The `visit` traversal of `collectFunctionLengths`: a node that is
function-like and has a body contributes `end.line - start.line + 1`. -/
def visitFunctions (filePath : String) (parentKind : Option TsNodeKind) :
    TsNode → List AnalyzedFunction
  | .mk kind hasBody startLine endLine children =>
    (if isFunctionLikeKind kind && hasBody then
      [{ file := filePath, name := getFunctionName kind parentKind,
         length := endLine - startLine + 1 }]
    else []) ++ visitChildren filePath kind children

/-- `ts.forEachChild(node, visit)`. -/
def visitChildren (filePath : String) (parentKind : TsNodeKind) :
    List TsNode → List AnalyzedFunction
  | [] => []
  | c :: cs =>
    visitFunctions filePath (some parentKind) c ++ visitChildren filePath parentKind cs

end

/-- `collectFunctionLengths` (the traversal starts at the source file). -/
def collectFunctionLengths (sourceFile : TsNode) (filePath : String) :
    List AnalyzedFunction :=
  visitFunctions filePath none sourceFile

/-! ## `runCodeAnalysisAgent` as present in `src` (second analysis pass)

The version of `code-analysis-agent.ts` in the repository accepts exactly
`(config, scan)` and reads every analyzed file from disk with
`fs.readFile(absolutePath)`; it has no overlay/overrides parameter, although
`attemptFix` invokes it as `runCodeAnalysisAgent(config, scan, overrides)`
(the extra argument is silently dropped by JS).  `ts.createSourceFile` and
`collectImports` are abstracted into the `parse` parameter from path and
content to the syntax tree and the import specifier list. -/

/-- A `scan.files` entry (the fields the analyzer reads). -/
structure FileEntry where
  path : String
  extension : String
deriving Repr, DecidableEq

/-- What the analyzer extracts from one parsed source file. -/
structure TsParseResult where
  root : TsNode
  imports : List String
deriving Repr

/-- Stable insertion of one string into a sorted list. -/
def insertSorted (a : String) : List String → List String
  | [] => [a]
  | b :: rest => if strLe a b then a :: b :: rest else b :: insertSorted a rest

/-- `testFiles.sort()` (JS default lexicographic comparator). -/
def sortStrings (l : List String) : List String :=
  l.foldr insertSorted []

/-- `TEST_DIR_NAMES` and the `\.(spec|test)\.[jt]sx?$` basename test. -/
def isTestPath (relativePath : String) : Bool :=
  (strSplitOn relativePath "/").any
    (fun seg => seg == "__tests__" || seg == "test" || seg == "tests") ||
  [".spec.ts", ".spec.tsx", ".spec.js", ".spec.jsx",
   ".test.ts", ".test.tsx", ".test.js", ".test.jsx"].any
    (fun suf => strEndsWith relativePath suf)

/-- `testPresence` as the analyzer reports it. -/
structure TestPresence where
  hasTests : Bool
  testFiles : List String
deriving Repr, DecidableEq

/-- The full result of the `src` analyzer (its `signals.longFunctions` carry
`AnalyzedFunction` records, without declared span fields). -/
structure SrcAnalysisResult where
  metrics : AnalysisMetrics
  longFunctions : List AnalyzedFunction
  duplicateBlocks : List DuplicateBlock
  circularDependencies : List CircularDependency
  testPresence : TestPresence
deriving Repr, DecidableEq

/-- The per-file indexing loop: skip unreadable files, collect test paths,
function spans and the normalized corpus. -/
def indexFiles (parse : String → String → TsParseResult) (fs : FileSys)
    (files : List FileEntry) :
    List NormalizedFile × List AnalyzedFunction × List String :=
  files.foldl
    (fun acc file =>
      let (normalizedFiles, allFunctions, testFiles) := acc
      let testFiles :=
        if isTestPath file.path then testFiles ++ [file.path] else testFiles
      match alistGet fs file.path with
      | none => (normalizedFiles, allFunctions, testFiles)
      | some content =>
        let parsed := parse file.path content
        let norm := normalizeContent content
        (normalizedFiles ++
          [{ path := file.path, extension := file.extension,
             normalizedLines := norm.1, lineNumbers := norm.2,
             imports := parsed.imports }],
         allFunctions ++ collectFunctionLengths parsed.root file.path,
         testFiles))
    (([], [], []) : List NormalizedFile × List AnalyzedFunction × List String)

/-- `runCodeAnalysisAgent` (the `src` version: no third parameter, disk
content only). -/
def runCodeAnalysisAgent (parse : String → String → TsParseResult) (fs : FileSys)
    (scanFiles : List FileEntry) : SrcAnalysisResult :=
  let files := scanFiles.filter fun f => JS_TS_EXTENSIONS.contains f.extension
  let (normalizedFiles, allFunctions, testFiles) := indexFiles parse fs files
  let totalFunctions := allFunctions.length
  let maxFunctionLength :=
    match allFunctions with
    | [] => 0
    | fn :: rest => rest.foldl (fun acc f => max acc f.length) fn.length
  let avgFunctionLength : ℚ :=
    if totalFunctions == 0 then 0
    else
      (jsRound (((allFunctions.foldl (fun s f => s + f.length) 0 : Int) : ℚ) /
        (totalFunctions : ℚ) * 100) : ℚ) / 100
  let longFunctions := allFunctions.filter fun f => decide (f.length ≥ LONG_FUNCTION_LOC)
  let duplicateBlocks := collectDuplicateBlocks normalizedFiles
  let filePathSet := normalizedFiles.map (·.path)
  let circularDependencies := collectCircularDependencies normalizedFiles filePathSet
  { metrics :=
      { maxFunctionLength := maxFunctionLength,
        avgFunctionLength := avgFunctionLength,
        duplicateBlocks := duplicateBlocks.length,
        totalFunctions := totalFunctions },
    longFunctions := longFunctions,
    duplicateBlocks := duplicateBlocks,
    circularDependencies := circularDependencies,
    testPresence :=
      { hasTests := testFiles.length > 0,
        testFiles := sortStrings testFiles } }

/-- The verification-pass invocation `runCodeAnalysisAgent(config, scan,
overrides)` in `attemptFix`: the `src` analyzer declares only two parameters,
so JS silently drops the `overrides` argument — the second pass analyzes disk
content only. -/
def verificationPassAnalysis (parse : String → String → TsParseResult)
    (fs : FileSys) (scanFiles : List FileEntry)
    (_overrides : List (String × String)) : SrcAnalysisResult :=
  runCodeAnalysisAgent parse fs scanFiles

/-! ## Spec-side predicates

Independent restatements of the specified behaviours, written from the spec's
wording; the claim theorems relate the embedded source functions to these. -/

/-- A hunk body line carrying none of the three recognized tags. -/
def untaggedLine (l : String) : Bool :=
  !(strStartsWith l " " || strStartsWith l "-" || strStartsWith l "+")

/-- A hunk start index outside the bounds of the split buffer. -/
def hunkStartOutOfRange (lineCount : Nat) (hk : Hunk) : Prop :=
  hk.oldStart - 1 < 0 ∨ (lineCount : Int) < hk.oldStart - 1

/-- Lines that advance the old-file cursor during scope validation:
removed and context lines (added lines do not advance it; the classification
is by first matching tag, as in the source). -/
def advancesOldCursor (l : String) : Bool :=
  strStartsWith l "-" || (!strStartsWith l "+" && strStartsWith l " ")

/-- The old-file cursor position at body-line index `i` of a hunk replayed
from `oldStart`. -/
def cursorAt (oldStart : Int) (lines : List String) (i : Nat) : Int :=
  oldStart + (((lines.take i).filter advancesOldCursor).length : Int)

/-- Spec-side: the line lies inside one of the allowed ranges. -/
def inRangeProp (line : Int) (ranges : List LineRange) : Prop :=
  ∃ r ∈ ranges, r.startLine ≤ line ∧ line ≤ r.endLine

/-- Spec-side statement of evidence-scope validity: every touched file has
allowed ranges, every removed/added line's current cursor position falls
inside one of them. -/
def scopeWithinEvidence (patches : List FilePatch)
    (allowed : List (String × List LineRange)) : Prop :=
  ∀ fp ∈ patches,
    match alistGet allowed fp.filePath with
    | none => False
    | some ranges =>
      ranges ≠ [] ∧
      ∀ hk ∈ fp.hunks, ∀ (i : Nat) (l : String), hk.lines[i]? = some l →
        (strStartsWith l "-" || strStartsWith l "+") = true →
        inRangeProp (cursorAt hk.oldStart hk.lines i) ranges

/-- Spec-side validity of one metric value. -/
def metricValueOk : MetricValue → Prop
  | .num q => 0 ≤ q
  | .str s => strTrim s ≠ ""

/-- Spec-side statement of the Evidence Guard's checks all passing. -/
def guardChecksPass (evidence : List EvidenceItem) : Prop :=
  evidence ≠ [] ∧ ∀ item ∈ evidence,
    strTrim item.file ≠ "" ∧ 0 < item.startLine ∧ 0 < item.endLine ∧
    item.startLine ≤ item.endLine ∧ item.metrics ≠ [] ∧
    ∀ m ∈ item.metrics, m.type ≠ "" ∧ metricValueOk m.value

/-- Spec-side: `fn` is a long function overlapping `range` in `file`. -/
def overlapsLong (file : String) (range : LineRange) (fn : LongFunction) : Prop :=
  fn.file = file ∧ fn.startLine ≤ range.endLine ∧ range.startLine ≤ fn.endLine ∧
    LONG_FUNCTION_LOC ≤ fn.length

/-- Spec-side: `m` is the maximum overlapping long-function length
(0 when none exists). -/
def isMaxOverlapLen (fns : List LongFunction) (file : String) (range : LineRange)
    (m : Int) : Prop :=
  (m = 0 ∧ ∀ fn ∈ fns, ¬ overlapsLong file range fn) ∨
  ((∃ fn ∈ fns, overlapsLong file range fn ∧ fn.length = m) ∧
   ∀ fn ∈ fns, overlapsLong file range fn → fn.length ≤ m)

/-- Spec-side: the Diff Parser's error behaviour alone, as a state machine
over the split lines tracking only whether a file header is open.  Written
from the (amended) spec wording; `parseUnifiedDiff`'s errors are proved to
coincide with it. -/
def specDiffGo : Nat → List String → Bool → Option String
  | _, [], _ => none
  | 0, _ :: _, _ => none
  | fuel + 1, raw :: rest, openFile =>
    let line := stripCR raw
    if strStartsWith line "```" then specDiffGo fuel rest openFile
    else if strStartsWith line "diff --git" then specDiffGo fuel rest false
    else if strStartsWith line "index " then specDiffGo fuel rest openFile
    else if strStartsWith line "--- " then
      match scanForPlusPlus rest with
      | none => some "Malformed diff header."
      | some (_, rest2) => specDiffGo fuel rest2 true
    else if strStartsWith line "@@ " then
      if !openFile then some "Hunk found before file header."
      else
        match parseHunkHeader line with
        | none => some "Malformed hunk header."
        | some _ => specDiffGo fuel rest openFile
    else specDiffGo fuel rest openFile

/-- Spec-side diff-error predicate over a whole blob. -/
def specDiffError (diff : String) : Option String :=
  specDiffGo (jsSplitLines diff).length (jsSplitLines diff) false

/-! ## Concrete example data used by witnesses and counterexamples -/

/-- A 72-line long function overlapping lines 10–81 of `src/big.ts`. -/
def exLongFn72 : LongFunction :=
  { file := "src/big.ts", name := "big", length := 72, startLine := 10, endLine := 81 }

/-- The same region shortened to a 50-line function. -/
def exLongFn50 : LongFunction :=
  { file := "src/big.ts", name := "big", length := 50, startLine := 10, endLine := 59 }

/-- A before-analysis for the verification examples. -/
def exAnalysisBefore : AnalysisResult :=
  { metrics := { maxFunctionLength := 72, avgFunctionLength := 20,
                 duplicateBlocks := 0, totalFunctions := 3 },
    longFunctions := [exLongFn72] }

/-- An after-analysis where the long function shrank to 50 lines. -/
def exAnalysisAfter : AnalysisResult :=
  { metrics := { maxFunctionLength := 50, avgFunctionLength := 16,
                 duplicateBlocks := 0, totalFunctions := 3 },
    longFunctions := [exLongFn50] }

/-- The evidence item citing the long function's span. -/
def exEvidence : EvidenceItem :=
  { file := "src/big.ts", startLine := 10, endLine := 81,
    metrics := [{ type := "loc", value := .num 72 }] }

/-- A patch staying inside the evidence range of `exEvidence`. -/
def exScopePatch : FilePatch :=
  { filePath := "src/big.ts",
    hunks := [{ oldStart := 12, oldLines := 2, newStart := 12, newLines := 2,
                lines := [" ctx", "-old", "+new"] }] }

/-- The allowed ranges derived from `exEvidence`. -/
def exAllowedRanges : List (String × List LineRange) :=
  [("src/big.ts", [{ startLine := 10, endLine := 81 }])]

/-- Two files importing each other by relative path. -/
def cyc2Files : List NormalizedFile :=
  [{ path := "src/a.ts", extension := ".ts", normalizedLines := [], lineNumbers := [],
     imports := ["./b"] },
   { path := "src/b.ts", extension := ".ts", normalizedLines := [], lineNumbers := [],
     imports := ["./a"] }]

/-- Three files forming a transitive cycle with no reciprocal pair. -/
def cyc3Files : List NormalizedFile :=
  [{ path := "src/a.ts", extension := ".ts", normalizedLines := [], lineNumbers := [],
     imports := ["./b"] },
   { path := "src/b.ts", extension := ".ts", normalizedLines := [], lineNumbers := [],
     imports := ["./c"] },
   { path := "src/c.ts", extension := ".ts", normalizedLines := [], lineNumbers := [],
     imports := ["./a"] }]

/-- A parse stub for sources containing no functions and no imports
(faithful for the constant-declaration files below). -/
def parseNone : String → String → TsParseResult :=
  fun _ _ => { root := TsNode.mk .sourceFile false 0 0 [], imports := [] }

/-- Eleven identical constant declarations (a duplicated block). -/
def exDupContent : String :=
  strIntercalate "\n"
    ((List.range 11).map fun i => "const dup" ++ toString i ++ " = " ++ toString i ++ ";")

/-- `exDupContent` with its third line rewritten. -/
def exDupPatched : String :=
  strIntercalate "\n"
    ((List.range 11).map fun i =>
      if i == 2 then "const changed = 2;"
      else "const dup" ++ toString i ++ " = " ++ toString i ++ ";")

/-- A filesystem holding two identical duplicate-bearing files. -/
def exDupFs : FileSys :=
  [("src/dup-a.ts", exDupContent), ("src/dup-b.ts", exDupContent)]

/-- The scan entries for `exDupFs`. -/
def exDupScan : List FileEntry :=
  [{ path := "src/dup-a.ts", extension := ".ts" },
   { path := "src/dup-b.ts", extension := ".ts" }]

/-- An in-evidence patch rewriting line 3 of `src/dup-a.ts`. -/
def exDupPatch : FilePatch :=
  { filePath := "src/dup-a.ts",
    hunks := [{ oldStart := 3, oldLines := 1, newStart := 3, newLines := 1,
                lines := ["-const dup2 = 2;", "+const changed = 2;"] }] }

/-- A before-analysis for the fix-pipeline error-policy examples. -/
def c2Analysis : AnalysisResult :=
  { metrics := { maxFunctionLength := 60, avgFunctionLength := 30,
                 duplicateBlocks := 0, totalFunctions := 2 },
    longFunctions := [{ file := "src/big.ts", name := "f", length := 60,
                        startLine := 1, endLine := 60 }] }

/-- A filesystem holding one five-line file. -/
def c2Fs : FileSys := [("src/big.ts", "a\nb\nc\nd\ne")]

/-- A complete-evidence `longFunctions` issue over lines 1–5 of `src/big.ts`. -/
def c2Issue : GuardedIssue :=
  { type := "maintainability", signal := "longFunctions", confidence := "high",
    evidence := [{ file := "src/big.ts", startLine := 1, endLine := 5,
                   metrics := [{ type := "loc", value := .num 5 }] }],
    evidenceComplete := true, missingEvidenceReason := none }

/-- A generated diff ending in a trailing newline: the final hunk carries a
trailing empty body line, which parses and passes the scope guard (an empty
line is a context line there) but is untagged for `applyPatchToContent`. -/
def c2BadDiff : String :=
  "--- a/src/big.ts\n+++ b/src/big.ts\n@@ -1,2 +1,2 @@\n-a\n+A\n b\n"

/-- A generator returning `c2BadDiff` for every prompt. -/
def c2GenBad : String → Except String String := fun _ => Except.ok c2BadDiff

/-- The same issue with incomplete evidence (skipped by `attemptFix`). -/
def c2IssueIncomplete : GuardedIssue :=
  { c2Issue with
    evidenceComplete := false,
    missingEvidenceReason := some "Issue has no evidence." }

/-- A complete-evidence `duplicateBlocks` issue with two evidence items in
`src/big.ts`. -/
def c2DupIssue : GuardedIssue :=
  { type := "duplication", signal := "duplicateBlocks", confidence := "high",
    evidence := [{ file := "src/big.ts", startLine := 1, endLine := 2,
                   metrics := [{ type := "count", value := .num 2 }] },
                 { file := "src/big.ts", startLine := 4, endLine := 5,
                   metrics := [{ type := "count", value := .num 2 }] }],
    evidenceComplete := true, missingEvidenceReason := none }

/-- A diff whose `---` header is followed by a line that is neither blank nor
an `index` line nor a `+++` line. -/
def c5badDiffA : String :=
  "--- a/f.ts\ngarbage\n+++ b/f.ts\n@@ -1 +1 @@\n-x\n+y"

/-- A diff whose hunk header line does not start with the `@@ -...` shape
(the shape only appears as a suffix of the line). -/
def c5badDiffB : String :=
  "--- a/f.ts\n+++ b/f.ts\n@@ junk @@ -1,1 +1,1 @@\n-x\n+y"

def idxOfLine : List Nat → Nat → Option Nat
  | [], _ => none
  | x :: xs, v => if x = v then some 0 else (idxOfLine xs v).map (· + 1)

def nextNormLine (files : List NormalizedFile) (o : DuplicateOccurrence) (len : Nat) :
    Option String :=
  match alistGet (buildFileIndex files) o.file with
  | none => none
  | some f =>
    match idxOfLine f.lineNumbers o.startLine with
    | none => none
    | some si => f.normalizedLines.get? (si + len)

def extendableBlock (files : List NormalizedFile) (b : DuplicateBlock) : Prop :=
  ∃ s, ∀ o ∈ b.occurrences, nextNormLine files o b.length = some s

def c6Line (i : Nat) : String := "l" ++ toString i

def c6File (p : String) : NormalizedFile :=
  { path := p, extension := ".ts",
    normalizedLines := (List.range 51).map c6Line,
    lineNumbers := (List.range 51).map (· + 1),
    imports := [] }

def c6Files : List NormalizedFile := [c6File "src/a.ts", c6File "src/b.ts"]

def joinNL (L : List (List Char)) : List Char :=
  (L.intersperse ['\n']).flatten

def natDigits (n : Nat) : List Char :=
  if h : n < 10 then [Nat.digitChar n]
  else natDigits (n / 10) ++ [Nat.digitChar (n % 10)]
decreasing_by exact Nat.div_lt_self (by omega) (by omega)

def digitVal (c : Char) : Nat := c.toNat - 48

/-- `Good` fact for one candidate under one group key. -/
def goodCand (files : List NormalizedFile) (k : String) (x : DuplicateCandidate) : Prop :=
  ∃ f ∈ files, x.file = f.path ∧
    x.startIndex + DUPLICATE_MIN_LINES ≤ f.normalizedLines.length ∧
    strIntercalate "\n" ((f.normalizedLines.drop x.startIndex).take DUPLICATE_MIN_LINES) = k

/-- The per-occurrence line read used by the extension loop. -/
def occAt (fi : List (String × NormalizedFile)) (occ : DuplicateCandidate) (j : Nat) :
    Option String :=
  match alistGet fi occ.file with
  | none => none
  | some f => f.normalizedLines.get? (occ.startIndex + j)

/-- The dedup key of a stored occurrence. -/
def occKeyOf (o : DuplicateOccurrence) : String :=
  occurrenceKey o.file o.startLine o.endLine

/-- A stored occurrence decodes to a position whose window is the key block. -/
def occPos (files : List NormalizedFile) (len : Nat) (KL : List String)
    (o : DuplicateOccurrence) : Prop :=
  ∃ f ∈ files, ∃ si : Nat, o.file = f.path ∧
    f.lineNumbers.get? si = some o.startLine ∧
    si + len ≤ f.normalizedLines.length ∧
    (f.normalizedLines.drop si).take len = KL

/-- A candidate whose window of `len` lines is the key block. -/
def goodOccL (files : List NormalizedFile) (len : Nat) (KL : List String)
    (occ : DuplicateCandidate) : Prop :=
  ∃ f ∈ files, occ.file = f.path ∧ occ.startIndex + len ≤ f.normalizedLines.length ∧
    (f.normalizedLines.drop occ.startIndex).take len = KL

/-- Structural facts about a `duplicatesMap` entry. -/
def entryOk (files : List NormalizedFile) (len : Nat) (KL : List String)
    (e : DupEntry) : Prop :=
  e.block.length = len ∧
  (∀ o ∈ e.block.occurrences, occPos files len KL o) ∧
  e.occurrenceKeys = e.block.occurrences.map occKeyOf

/-- The entry's occurrence set cannot share one more common line. -/
def entryBlocked (files : List NormalizedFile) (e : DupEntry) : Prop :=
  e.block.length < DUPLICATE_MAX_LINES →
  (∃ o ∈ e.block.occurrences, nextNormLine files o e.block.length = none) ∨
  (∃ o1 ∈ e.block.occurrences, ∃ o2 ∈ e.block.occurrences,
    nextNormLine files o1 e.block.length ≠ nextNormLine files o2 e.block.length)

/-- Full invariant of one `duplicatesMap` binding. -/
def entryInv (files : List NormalizedFile) (key : String) (e : DupEntry) : Prop :=
  ∃ KL : List String, key = strIntercalate "\n" KL ∧
    (∀ l ∈ KL, l.toList ≠ [] ∧ '\n' ∉ l.toList) ∧
    DUPLICATE_MIN_LINES ≤ e.block.length ∧ e.block.length ≤ DUPLICATE_MAX_LINES ∧
    entryOk files KL.length KL e ∧
    entryBlocked files e

def c6wFile (p : String) : NormalizedFile :=
  { path := p, extension := ".ts",
    normalizedLines := (List.range 12).map c6Line,
    lineNumbers := (List.range 12).map (· + 1),
    imports := [] }

def c6wFiles : List NormalizedFile := [c6wFile "src/a.ts", c6wFile "src/b.ts"]

def c6wBlock : DuplicateBlock :=
  { hash := "8bb76e2f", length := 12,
    occurrences := [{ file := "src/a.ts", startLine := 1, endLine := 12 },
                    { file := "src/b.ts", startLine := 1, endLine := 12 }] }

/-! ## Theorems -/

theorem applyHunkLines_error_iff (body : List String) :
    ∀ (ls : List String) (cur : Int) (out : List String),
      (∃ e, applyHunkLines ls cur out body = Except.error e) ↔
        ∃ l ∈ body, untaggedLine l = true := by
  induction body with
  | nil => intro ls cur out; simp [applyHunkLines]
  | cons l rest ih =>
    intro ls cur out
    simp only [applyHunkLines]
    by_cases h1 : strStartsWith l " " = true
    · rw [if_pos h1, ih]
      simp [untaggedLine, h1]
    · rw [if_neg h1]
      by_cases h2 : strStartsWith l "-" = true
      · rw [if_pos h2, ih]
        simp [untaggedLine, h1, h2]
      · rw [if_neg h2]
        by_cases h3 : strStartsWith l "+" = true
        · rw [if_pos h3, ih]
          simp [untaggedLine, h1, h2, h3]
        · rw [if_neg h3]
          simp [untaggedLine, h1, h2, h3]

theorem applyHunks_error_iff (hunks : List Hunk) :
    ∀ (ls : List String) (cur : Int) (out : List String),
      (∃ e, applyHunks ls cur out hunks = Except.error e) ↔
        ∃ hk ∈ hunks,
          hunkStartOutOfRange ls.length hk ∨ ∃ l ∈ hk.lines, untaggedLine l = true := by
  induction hunks with
  | nil => intro ls cur out; simp [applyHunks]
  | cons hk rest ih =>
    intro ls cur out
    simp only [applyHunks]
    by_cases hb : hunkStartOutOfRange ls.length hk
    · have hcond : (decide (hk.oldStart - 1 < 0) ||
          decide (hk.oldStart - 1 > (ls.length : Int))) = true := by
        unfold hunkStartOutOfRange at hb
        rcases hb with hb | hb <;> simp [hb]
      rw [if_pos hcond]
      constructor
      · intro _
        exact ⟨hk, List.mem_cons_self .., Or.inl hb⟩
      · intro _
        exact ⟨"Hunk start out of range.", rfl⟩
    · have hcond : ¬ ((decide (hk.oldStart - 1 < 0) ||
          decide (hk.oldStart - 1 > (ls.length : Int))) = true) := by
        unfold hunkStartOutOfRange at hb
        push_neg at hb
        simp only [Bool.or_eq_true, decide_eq_true_eq, not_or]
        exact ⟨by omega, by omega⟩
      rw [if_neg hcond]
      cases hline : applyHunkLines ls (hk.oldStart - 1)
          (out ++ jsSlice ls cur (hk.oldStart - 1)) hk.lines with
      | error e =>
        have huntag : ∃ l ∈ hk.lines, untaggedLine l = true := by
          rw [← applyHunkLines_error_iff hk.lines ls (hk.oldStart - 1)
            (out ++ jsSlice ls cur (hk.oldStart - 1))]
          exact ⟨e, hline⟩
        constructor
        · intro _
          exact ⟨hk, List.mem_cons_self .., Or.inr huntag⟩
        · intro _
          exact ⟨e, rfl⟩
      | ok res =>
        have hnountag : ¬ ∃ l ∈ hk.lines, untaggedLine l = true := by
          intro hcon
          obtain ⟨e, he⟩ := (applyHunkLines_error_iff hk.lines ls (hk.oldStart - 1)
            (out ++ jsSlice ls cur (hk.oldStart - 1))).mpr hcon
          rw [hline] at he
          exact Except.noConfusion he
        obtain ⟨resOut, resCur⟩ := res
        change (∃ e, applyHunks ls resCur resOut rest = Except.error e) ↔ _
        rw [ih ls resCur resOut]
        constructor
        · intro ⟨hk2, hmem, hrest⟩
          exact ⟨hk2, List.mem_cons_of_mem _ hmem, hrest⟩
        · intro ⟨hk2, hmem, hrest⟩
          rcases List.mem_cons.mp hmem with heq | hmem2
          · subst heq
            rcases hrest with hout | huntag
            · exact absurd hout hb
            · exact absurd huntag hnountag
          · exact ⟨hk2, hmem2, hrest⟩

/-- C10: `applyPatchToContent` is purely positional: it throws exactly when a
hunk's start index lies outside the bounds of the split buffer or a hunk body
line carries none of the space/`+`/`-` tags; the error condition never
inspects the buffer's text, so any well-tagged in-bounds patch applies
without conflict detection. -/
theorem c10_applyPatchToContent_positional (content : String) (patch : FilePatch) :
    (∃ e, applyPatchToContent content patch = Except.error e) ↔
      ∃ hk ∈ patch.hunks,
        hunkStartOutOfRange (jsSplitLines content).length hk ∨
          ∃ l ∈ hk.lines, untaggedLine l = true := by
  rw [← applyHunks_error_iff patch.hunks (jsSplitLines content) 0 []]
  unfold applyPatchToContent
  cases hap : applyHunks (jsSplitLines content) 0 [] patch.hunks with
  | error e2 =>
    constructor
    · intro _
      exact ⟨e2, rfl⟩
    · intro _
      exact ⟨e2, rfl⟩
  | ok res =>
    obtain ⟨resOut, resCur⟩ := res
    constructor
    · intro ⟨e, he⟩
      exact Except.noConfusion he
    · intro ⟨e, he⟩
      exact Except.noConfusion he

theorem foldl_max_length (rest : List LongFunction) :
    ∀ (seed : Int),
      seed ≤ rest.foldl (fun a f => max a f.length) seed ∧
      (∀ f ∈ rest, f.length ≤ rest.foldl (fun a f => max a f.length) seed) ∧
      (rest.foldl (fun a f => max a f.length) seed = seed ∨
        ∃ f ∈ rest, f.length = rest.foldl (fun a f => max a f.length) seed) := by
  induction rest with
  | nil => intro seed; exact ⟨le_refl _, by simp, Or.inl rfl⟩
  | cons f0 rest ih =>
    intro seed
    simp only [List.foldl_cons]
    obtain ⟨h1, h2, h3⟩ := ih (max seed f0.length)
    refine ⟨le_trans (le_max_left _ _) h1, ?_, ?_⟩
    · intro g hg
      rcases List.mem_cons.mp hg with heq | hmem
      · subst heq
        exact le_trans (le_max_right _ _) h1
      · exact h2 g hmem
    · rcases h3 with heq | ⟨g, hg, hlen⟩
      · rcases max_choice seed f0.length with hm | hm
        · exact Or.inl (heq.trans hm)
        · exact Or.inr ⟨f0, List.mem_cons_self .., (heq.trans hm).symm⟩
      · exact Or.inr ⟨g, List.mem_cons_of_mem _ hg, hlen⟩

theorem fnMatches_iff (file : String) (range : LineRange) (fn : LongFunction) :
    fnMatchesRange file range fn = true ↔ overlapsLong file range fn := by
  simp [fnMatchesRange, overlapsLong, Bool.and_eq_true, decide_eq_true_eq,
    beq_iff_eq, ge_iff_le, and_assoc]

theorem findMax_isMax (fns : List LongFunction) (file : String) (range : LineRange) :
    isMaxOverlapLen fns file range (findMaxLongFunctionInRange fns file range) := by
  unfold findMaxLongFunctionInRange
  cases hf : fns.filter (fnMatchesRange file range) with
  | nil =>
    left
    refine ⟨rfl, ?_⟩
    intro fn hfn hov
    have : fnMatchesRange file range fn = true := (fnMatches_iff file range fn).mpr hov
    have hmem : fn ∈ fns.filter (fnMatchesRange file range) := List.mem_filter.mpr ⟨hfn, this⟩
    rw [hf] at hmem
    exact absurd hmem (List.not_mem_nil fn)
  | cons fn0 restf =>
    right
    obtain ⟨h1, h2, h3⟩ := foldl_max_length restf fn0.length
    have hmemf : ∀ g, g ∈ fns.filter (fnMatchesRange file range) →
        g ∈ fns ∧ overlapsLong file range g := by
      intro g hg
      obtain ⟨hgm, hgp⟩ := List.mem_filter.mp hg
      exact ⟨hgm, (fnMatches_iff file range g).mp hgp⟩
    constructor
    · rcases h3 with heq | ⟨g, hg, hlen⟩
      · obtain ⟨hm, hov⟩ := hmemf fn0 (hf ▸ List.mem_cons_self ..)
        exact ⟨fn0, hm, hov, heq.symm⟩
      · obtain ⟨hm, hov⟩ := hmemf g (hf ▸ List.mem_cons_of_mem _ hg)
        exact ⟨g, hm, hov, hlen⟩
    · intro fn hfn hov
      have hmem : fn ∈ fns.filter (fnMatchesRange file range) :=
        List.mem_filter.mpr ⟨hfn, (fnMatches_iff file range fn).mpr hov⟩
      rw [hf] at hmem
      rcases List.mem_cons.mp hmem with heq | hmem2
      · subst heq
        exact h1
      · exact h2 fn hmem2

theorem isMax_pos (fns : List LongFunction) (file : String) (range : LineRange)
    (m : Int) (h : isMaxOverlapLen fns file range m) (hne : m ≠ 0) : 50 ≤ m := by
  rcases h with ⟨hz, -⟩ | ⟨⟨fn, -, hov, hlen⟩, -⟩
  · exact absurd hz hne
  · exact hlen ▸ hov.2.2.2

/-- C4: for a `longFunctions` issue the verifier computes the maximum
long-function length overlapping the evidence item's file and line range
before and after the patch, succeeds exactly when a long function existed in
range before and the after value is strictly smaller (no long function found
after counts as success since the before maximum is at least the threshold),
and reports the signal mismatch when none existed before. -/
theorem c4_verifyLongFunctionFix (before after : AnalysisResult) (evidence : EvidenceItem) :
    isMaxOverlapLen before.longFunctions evidence.file
      ⟨evidence.startLine, evidence.endLine⟩
      (findMaxLongFunctionInRange before.longFunctions evidence.file
        ⟨evidence.startLine, evidence.endLine⟩) ∧
    isMaxOverlapLen after.longFunctions evidence.file
      ⟨evidence.startLine, evidence.endLine⟩
      (findMaxLongFunctionInRange after.longFunctions evidence.file
        ⟨evidence.startLine, evidence.endLine⟩) ∧
    ((verifyLongFunctionFix before after evidence).ok = true ↔
      (findMaxLongFunctionInRange before.longFunctions evidence.file
          ⟨evidence.startLine, evidence.endLine⟩ ≠ 0 ∧
        findMaxLongFunctionInRange after.longFunctions evidence.file
            ⟨evidence.startLine, evidence.endLine⟩ <
          findMaxLongFunctionInRange before.longFunctions evidence.file
            ⟨evidence.startLine, evidence.endLine⟩)) ∧
    (findMaxLongFunctionInRange before.longFunctions evidence.file
        ⟨evidence.startLine, evidence.endLine⟩ = 0 →
      verifyLongFunctionFix before after evidence =
        { ok := false, message := "No long function found in evidence range.",
          details := none }) := by
  refine ⟨findMax_isMax .., findMax_isMax .., ?_, ?_⟩
  · unfold verifyLongFunctionFix
    by_cases hbz : findMaxLongFunctionInRange before.longFunctions evidence.file
        ⟨evidence.startLine, evidence.endLine⟩ = 0
    · rw [if_pos (by simpa using hbz)]
      simp [hbz]
    · rw [if_neg (by simpa using hbz)]
      have hbpos : (50 : Int) ≤ findMaxLongFunctionInRange before.longFunctions
          evidence.file ⟨evidence.startLine, evidence.endLine⟩ :=
        isMax_pos _ _ _ _ (findMax_isMax ..) hbz
      by_cases haz : findMaxLongFunctionInRange after.longFunctions evidence.file
          ⟨evidence.startLine, evidence.endLine⟩ = 0
      · rw [if_pos (by simp [haz])]
        exact ⟨fun _ => ⟨hbz, by omega⟩, fun _ => rfl⟩
      · by_cases hlt : findMaxLongFunctionInRange after.longFunctions evidence.file
            ⟨evidence.startLine, evidence.endLine⟩ <
            findMaxLongFunctionInRange before.longFunctions evidence.file
              ⟨evidence.startLine, evidence.endLine⟩
        · rw [if_pos (by simp [hlt])]
          exact ⟨fun _ => ⟨hbz, hlt⟩, fun _ => rfl⟩
        · rw [if_neg (by simp [haz, hlt])]
          exact ⟨fun hcon => absurd hcon Bool.false_ne_true, fun hc => absurd hc.2 hlt⟩
  · intro hbz
    unfold verifyLongFunctionFix
    rw [if_pos (by simpa using hbz)]

/-- Witness for C4: the concrete 72 → 50 line scenario verifies. -/
theorem c4_verifyLongFunctionFix_witness :
    (verifyLongFunctionFix exAnalysisBefore exAnalysisAfter exEvidence).ok = true :=
  ((c4_verifyLongFunctionFix exAnalysisBefore exAnalysisAfter exEvidence).2.2.1).mpr
    (by constructor <;> decide)

theorem isValidMetricValue_iff (v : MetricValue) :
    isValidMetricValue v = true ↔ metricValueOk v := by
  cases v with
  | num q => simp [isValidMetricValue, metricValueOk]
  | str s =>
    simp only [isValidMetricValue, metricValueOk, Bool.not_eq_true']
    simp [Bool.eq_false_iff, String.isEmpty_iff]

theorem itemFailure_none_iff (item : EvidenceItem) :
    itemFailure item = none ↔
      (strTrim item.file ≠ "" ∧ 0 < item.startLine ∧ 0 < item.endLine ∧
       item.startLine ≤ item.endLine ∧ item.metrics ≠ [] ∧
       ∀ m ∈ item.metrics, m.type ≠ "" ∧ metricValueOk m.value) := by
  unfold itemFailure
  split_ifs with h1 h2 h3 h4 h5 <;>
    simp_all only [isNonEmptyString, isValidLine, Bool.not_eq_true', Bool.not_eq_false',
      Bool.not_not, Bool.and_eq_true, decide_eq_true_eq, String.isEmpty_iff,
      beq_iff_eq, List.length_eq_zero, List.any_eq_true, List.any_eq_false,
      Bool.or_eq_true, Bool.not_eq_true, Bool.not_eq_false,
      Bool.not_and, Bool.or_eq_false_iff, beq_eq_false_iff_ne,
      isValidMetricValue_iff]
  · simp
  · simp only [decide_eq_false_iff_not, not_lt] at h2
    constructor
    · exact False.elim
    · intro hc
      obtain ⟨-, hs, he, -, -⟩ := hc
      rcases h2 with h | h <;> omega
  · constructor
    · exact False.elim
    · intro hc
      obtain ⟨-, -, -, hr, -⟩ := hc
      omega
  · simp
  · constructor
    · exact False.elim
    · intro hc
      obtain ⟨m, hm, hbad⟩ := h5
      obtain ⟨ht, hv⟩ := hc.2.2.2.2.2 m hm
      rcases hbad with hbad | hbad
      · exact ht hbad
      · rw [(isValidMetricValue_iff m.value).mpr hv] at hbad
        exact Bool.noConfusion hbad
  · simp only [true_iff]
    simp only [not_or, decide_eq_false_iff_not, not_not, gt_iff_lt] at h2
    push_neg at h5
    refine ⟨h1, h2.1, h2.2, by omega, h4, ?_⟩
    intro m hm
    obtain ⟨hta, hva⟩ := h5 m hm
    refine ⟨hta, (isValidMetricValue_iff m.value).mp ?_⟩
    revert hva
    cases isValidMetricValue m.value <;> simp

theorem firstItemFailure_none_iff (evidence : List EvidenceItem) :
    firstItemFailure evidence = none ↔ ∀ item ∈ evidence, itemFailure item = none := by
  induction evidence with
  | nil => simp [firstItemFailure]
  | cons it rest ih =>
    simp only [firstItemFailure]
    cases hit : itemFailure it with
    | some r =>
      constructor
      · intro h
        exact Option.noConfusion h
      · intro hall
        exact Option.noConfusion ((hall it (List.mem_cons_self ..)).symm.trans hit)
    | none =>
      rw [ih]
      constructor
      · intro hall item hm
        rcases List.mem_cons.mp hm with heq | hm2
        · exact heq ▸ hit
        · exact hall item hm2
      · intro hall item hm
        exact hall item (List.mem_cons_of_mem _ hm)

theorem itemFailure_some_nonempty (item : EvidenceItem) (r : String)
    (h : itemFailure item = some r) : r ≠ "" := by
  unfold itemFailure at h
  split_ifs at h
  all_goals first
    | exact Option.noConfusion h
    | (simp only [Option.some.injEq] at h; subst h; decide)

theorem firstItemFailure_some_nonempty (evidence : List EvidenceItem) :
    ∀ (r : String), firstItemFailure evidence = some r → r ≠ "" := by
  induction evidence with
  | nil => intro r h; exact Option.noConfusion h
  | cons it rest ih =>
    intro r h
    simp only [firstItemFailure] at h
    cases hit : itemFailure it with
    | some r2 =>
      rw [hit, Option.some.injEq] at h
      exact h ▸ itemFailure_some_nonempty it r2 hit
    | none =>
      rw [hit] at h
      exact ih r h

theorem validateEvidence_props (issue : GuardedIssue) :
    ((validateEvidence issue).evidenceComplete = true ↔ guardChecksPass issue.evidence) ∧
    ((validateEvidence issue).evidenceComplete = false →
      ∃ r, (validateEvidence issue).missingEvidenceReason = some r ∧ r ≠ "") ∧
    ((validateEvidence issue).evidenceComplete = true →
      (validateEvidence issue).missingEvidenceReason = issue.missingEvidenceReason) := by
  unfold validateEvidence guardChecksPass
  by_cases hz : issue.evidence.length == 0
  · rw [if_pos hz]
    rw [beq_iff_eq, List.length_eq_zero] at hz
    refine ⟨?_, ?_, ?_⟩
    · constructor
      · intro hc
        exact Bool.noConfusion hc
      · intro hc
        exact absurd hz hc.1
    · intro _
      exact ⟨"No evidence items provided.", rfl, by decide⟩
    · intro hc
      exact Bool.noConfusion hc
  · rw [if_neg hz]
    cases hf : firstItemFailure issue.evidence with
    | some r =>
      refine ⟨?_, ?_, ?_⟩
      · constructor
        · intro hc
          exact Bool.noConfusion hc
        · intro hc
          have hnone : firstItemFailure issue.evidence = none :=
            (firstItemFailure_none_iff _).mpr
              (fun item hm => (itemFailure_none_iff item).mpr (hc.2 item hm))
          exact Option.noConfusion (hnone.symm.trans hf)
      · intro _
        exact ⟨r, rfl, firstItemFailure_some_nonempty issue.evidence r hf⟩
      · intro hc
        exact Bool.noConfusion hc
    | none =>
      refine ⟨?_, ?_, ?_⟩
      · constructor
        · intro _
          refine ⟨?_, ?_⟩
          · intro hcon
            rw [hcon] at hz
            exact hz (by simp)
          · intro item hm
            exact (itemFailure_none_iff item).mp
              ((firstItemFailure_none_iff _).mp hf item hm)
        · intro _
          rfl
      · intro hc
        exact Bool.noConfusion hc
      · intro _
        rfl

/-- C9: the Evidence Guard is total — every input issue is returned (the
output is index-aligned with the input), a rejected issue always carries a
non-empty reason, and an issue passes with `evidenceComplete = true` and no
reason exactly when all the structural checks hold. -/
theorem c9_evidenceGuard_total (insights : List Issue) :
    (runEvidenceGuardAgent insights).issues.length = insights.length ∧
    ∀ (i : Nat) (issue : Issue), insights[i]? = some issue →
      ∃ g, (runEvidenceGuardAgent insights).issues[i]? = some g ∧
        (g.evidenceComplete = true ↔ guardChecksPass issue.evidence) ∧
        (g.evidenceComplete = false → ∃ r, g.missingEvidenceReason = some r ∧ r ≠ "") ∧
        (g.evidenceComplete = true → g.missingEvidenceReason = none) := by
  constructor
  · simp [runEvidenceGuardAgent]
  · intro i issue hget
    refine ⟨validateEvidence
      { type := issue.type, signal := issue.signal, confidence := issue.confidence,
        evidence := issue.evidence, evidenceComplete := true,
        missingEvidenceReason := none }, ?_, ?_⟩
    · simp [runEvidenceGuardAgent, List.getElem?_map, hget]
    · obtain ⟨h1, h2, h3⟩ := validateEvidence_props
        { type := issue.type, signal := issue.signal, confidence := issue.confidence,
          evidence := issue.evidence, evidenceComplete := true,
          missingEvidenceReason := none }
      exact ⟨h1, h2, h3⟩

/-- Witness for C9 at a concrete two-issue input (one valid, one without
evidence). -/
theorem c9_evidenceGuard_total_witness :
    ∃ g, (runEvidenceGuardAgent
        [{ type := "codeQuality", signal := "longFunctions", confidence := "high",
           evidence := [exEvidence] },
         { type := "codeQuality", signal := "duplicateBlocks", confidence := "low",
           evidence := [] }]).issues[0]? = some g ∧
      (g.evidenceComplete = true ↔ guardChecksPass [exEvidence]) ∧
      (g.evidenceComplete = false → ∃ r, g.missingEvidenceReason = some r ∧ r ≠ "") ∧
      (g.evidenceComplete = true → g.missingEvidenceReason = none) :=
  (c9_evidenceGuard_total
    [{ type := "codeQuality", signal := "longFunctions", confidence := "high",
       evidence := [exEvidence] },
     { type := "codeQuality", signal := "duplicateBlocks", confidence := "low",
       evidence := [] }]).2 0
    { type := "codeQuality", signal := "longFunctions", confidence := "high",
      evidence := [exEvidence] } rfl

theorem lineInRanges_iff (line : Int) (ranges : List LineRange) :
    lineInRanges line ranges = true ↔ inRangeProp line ranges := by
  simp [lineInRanges, inRangeProp, List.any_eq_true, Bool.and_eq_true,
    decide_eq_true_eq, ge_iff_le]

theorem cursorAt_zero (s : Int) (ls : List String) : cursorAt s ls 0 = s := by
  simp [cursorAt]

theorem cursorAt_succ_adv (s : Int) (l : String) (rest : List String) (i : Nat)
    (h : advancesOldCursor l = true) :
    cursorAt s (l :: rest) (i + 1) = cursorAt (s + 1) rest i := by
  simp only [cursorAt, List.take_succ_cons, List.filter_cons, h, if_true,
    List.length_cons]
  push_cast
  ring

theorem cursorAt_succ_noadv (s : Int) (l : String) (rest : List String) (i : Nat)
    (h : advancesOldCursor l = false) :
    cursorAt s (l :: rest) (i + 1) = cursorAt s rest i := by
  simp only [cursorAt, List.take_succ_cons, List.filter_cons, h]
  simp

theorem forall_getElem_cons (l : String) (rest : List String)
    (P : Nat → String → Prop) :
    (∀ (i : Nat) (l2 : String), (l :: rest)[i]? = some l2 → P i l2) ↔
      P 0 l ∧ ∀ (i : Nat) (l2 : String), rest[i]? = some l2 → P (i + 1) l2 := by
  constructor
  · intro h
    refine ⟨h 0 l (by simp), ?_⟩
    intro i l2 hg
    exact h (i + 1) l2 (by simpa using hg)
  · intro h i l2 hg
    cases i with
    | zero =>
      simp only [List.getElem?_cons_zero, Option.some.injEq] at hg
      exact hg ▸ h.1
    | succ i =>
      exact h.2 i l2 (by simpa using hg)

theorem guardHunkLines_none_iff (filePath : String) (ranges : List LineRange) :
    ∀ (lines : List String) (start : Int),
      guardHunkLines filePath ranges start lines = none ↔
        ∀ (i : Nat) (l : String), lines[i]? = some l →
          (strStartsWith l "-" || strStartsWith l "+") = true →
          lineInRanges (cursorAt start lines i) ranges = true := by
  intro lines
  induction lines with
  | nil => intro start; simp [guardHunkLines]
  | cons l rest ih =>
    intro start
    rw [forall_getElem_cons l rest
      (fun i l2 => (strStartsWith l2 "-" || strStartsWith l2 "+") = true →
        lineInRanges (cursorAt start (l :: rest) i) ranges = true)]
    simp only [guardHunkLines]
    by_cases h1 : strStartsWith l "-" = true
    · rw [if_pos h1]
      have hadv : advancesOldCursor l = true := by simp [advancesOldCursor, h1]
      by_cases hin : lineInRanges start ranges = true
      · rw [if_neg (by simp [hin]), ih (start + 1)]
        constructor
        · intro hrest
          refine ⟨fun _ => by rw [cursorAt_zero]; exact hin, ?_⟩
          intro i l2 hg ht
          rw [cursorAt_succ_adv _ _ _ _ hadv]
          exact hrest i l2 hg ht
        · rintro ⟨-, hrest⟩ i l2 hg ht
          have hx := hrest i l2 hg ht
          rw [cursorAt_succ_adv _ _ _ _ hadv] at hx
          exact hx
      · rw [if_pos (by simp [hin])]
        constructor
        · intro hc
          exact Option.noConfusion hc
        · rintro ⟨h0, -⟩
          rw [cursorAt_zero] at h0
          exact absurd (h0 (by simp [h1])) hin
    · rw [if_neg h1]
      by_cases h2 : strStartsWith l "+" = true
      · rw [if_pos h2]
        have hadv : advancesOldCursor l = false := by
          simp [advancesOldCursor, h1, h2]
        by_cases hin : lineInRanges start ranges = true
        · rw [if_neg (by simp [hin]), ih start]
          constructor
          · intro hrest
            refine ⟨fun _ => by rw [cursorAt_zero]; exact hin, ?_⟩
            intro i l2 hg ht
            rw [cursorAt_succ_noadv _ _ _ _ hadv]
            exact hrest i l2 hg ht
          · rintro ⟨-, hrest⟩ i l2 hg ht
            have hx := hrest i l2 hg ht
            rw [cursorAt_succ_noadv _ _ _ _ hadv] at hx
            exact hx
        · rw [if_pos (by simp [hin])]
          constructor
          · intro hc
            exact Option.noConfusion hc
          · rintro ⟨h0, -⟩
            rw [cursorAt_zero] at h0
            exact absurd (h0 (by simp [h2])) hin
      · rw [if_neg h2]
        have htag : (strStartsWith l "-" || strStartsWith l "+") = false := by
          simp [h1, h2]
        by_cases h3 : strStartsWith l " " = true
        · rw [if_pos h3]
          have hadv : advancesOldCursor l = true := by
            simp [advancesOldCursor, h1, h2, h3]
          rw [ih (start + 1)]
          constructor
          · intro hrest
            refine ⟨fun hcon => absurd hcon (by simp [htag]), ?_⟩
            intro i l2 hg ht
            rw [cursorAt_succ_adv _ _ _ _ hadv]
            exact hrest i l2 hg ht
          · rintro ⟨-, hrest⟩ i l2 hg ht
            have hx := hrest i l2 hg ht
            rw [cursorAt_succ_adv _ _ _ _ hadv] at hx
            exact hx
        · rw [if_neg h3]
          have hadv : advancesOldCursor l = false := by
            simp [advancesOldCursor, h1, h3]
          rw [ih start]
          constructor
          · intro hrest
            refine ⟨fun hcon => absurd hcon (by simp [htag]), ?_⟩
            intro i l2 hg ht
            rw [cursorAt_succ_noadv _ _ _ _ hadv]
            exact hrest i l2 hg ht
          · rintro ⟨-, hrest⟩ i l2 hg ht
            have hx := hrest i l2 hg ht
            rw [cursorAt_succ_noadv _ _ _ _ hadv] at hx
            exact hx

theorem guardHunkLines_some (filePath : String) (ranges : List LineRange) :
    ∀ (lines : List String) (start : Int) (r : String),
      guardHunkLines filePath ranges start lines = some r →
      ∃ (i : Nat) (l : String), lines[i]? = some l ∧
        ¬ inRangeProp (cursorAt start lines i) ranges ∧
        ((strStartsWith l "-" = true ∧
          r = "Patch removes line " ++ toString (cursorAt start lines i) ++
            " outside evidence in " ++ filePath) ∨
         (strStartsWith l "+" = true ∧
          r = "Patch adds line outside evidence near " ++
            toString (cursorAt start lines i) ++ " in " ++ filePath)) := by
  intro lines
  induction lines with
  | nil => intro start r h; exact Option.noConfusion h
  | cons l rest ih =>
    intro start r h
    simp only [guardHunkLines] at h
    by_cases h1 : strStartsWith l "-" = true
    · rw [if_pos h1] at h
      have hadv : advancesOldCursor l = true := by simp [advancesOldCursor, h1]
      by_cases hin : lineInRanges start ranges = true
      · rw [if_neg (by simp [hin])] at h
        obtain ⟨i, l2, hg, hnin, hshape⟩ := ih (start + 1) r h
        refine ⟨i + 1, l2, by simpa using hg, ?_, ?_⟩
        · rw [cursorAt_succ_adv _ _ _ _ hadv]
          exact hnin
        · rw [cursorAt_succ_adv _ _ _ _ hadv]
          exact hshape
      · rw [if_pos (by simp [hin])] at h
        rw [Option.some.injEq] at h
        refine ⟨0, l, by simp, ?_, Or.inl ⟨h1, ?_⟩⟩
        · rw [cursorAt_zero, ← lineInRanges_iff]
          exact hin
        · rw [cursorAt_zero]
          exact h.symm
    · rw [if_neg h1] at h
      by_cases h2 : strStartsWith l "+" = true
      · rw [if_pos h2] at h
        have hadv : advancesOldCursor l = false := by simp [advancesOldCursor, h1, h2]
        by_cases hin : lineInRanges start ranges = true
        · rw [if_neg (by simp [hin])] at h
          obtain ⟨i, l2, hg, hnin, hshape⟩ := ih start r h
          refine ⟨i + 1, l2, by simpa using hg, ?_, ?_⟩
          · rw [cursorAt_succ_noadv _ _ _ _ hadv]
            exact hnin
          · rw [cursorAt_succ_noadv _ _ _ _ hadv]
            exact hshape
        · rw [if_pos (by simp [hin])] at h
          rw [Option.some.injEq] at h
          refine ⟨0, l, by simp, ?_, Or.inr ⟨h2, ?_⟩⟩
          · rw [cursorAt_zero, ← lineInRanges_iff]
            exact hin
          · rw [cursorAt_zero]
            exact h.symm
      · rw [if_neg h2] at h
        by_cases h3 : strStartsWith l " " = true
        · rw [if_pos h3] at h
          have hadv : advancesOldCursor l = true := by
            simp [advancesOldCursor, h1, h2, h3]
          obtain ⟨i, l2, hg, hnin, hshape⟩ := ih (start + 1) r h
          refine ⟨i + 1, l2, by simpa using hg, ?_, ?_⟩
          · rw [cursorAt_succ_adv _ _ _ _ hadv]
            exact hnin
          · rw [cursorAt_succ_adv _ _ _ _ hadv]
            exact hshape
        · rw [if_neg h3] at h
          have hadv : advancesOldCursor l = false := by
            simp [advancesOldCursor, h1, h2, h3]
          obtain ⟨i, l2, hg, hnin, hshape⟩ := ih start r h
          refine ⟨i + 1, l2, by simpa using hg, ?_, ?_⟩
          · rw [cursorAt_succ_noadv _ _ _ _ hadv]
            exact hnin
          · rw [cursorAt_succ_noadv _ _ _ _ hadv]
            exact hshape

theorem guardHunks_none_iff (filePath : String) (ranges : List LineRange) :
    ∀ (hunks : List Hunk),
      guardHunks filePath ranges hunks = none ↔
        ∀ hk ∈ hunks, guardHunkLines filePath ranges hk.oldStart hk.lines = none := by
  intro hunks
  induction hunks with
  | nil => simp [guardHunks]
  | cons hk rest ih =>
    simp only [guardHunks]
    cases hl : guardHunkLines filePath ranges hk.oldStart hk.lines with
    | some r =>
      constructor
      · intro hc
        exact Option.noConfusion hc
      · intro hall
        exact Option.noConfusion ((hall hk (List.mem_cons_self ..)).symm.trans hl)
    | none =>
      rw [ih]
      constructor
      · intro hall hk2 hm
        rcases List.mem_cons.mp hm with heq | hm2
        · exact heq ▸ hl
        · exact hall hk2 hm2
      · intro hall hk2 hm
        exact hall hk2 (List.mem_cons_of_mem _ hm)

theorem guardHunks_some (filePath : String) (ranges : List LineRange) :
    ∀ (hunks : List Hunk) (r : String),
      guardHunks filePath ranges hunks = some r →
      ∃ hk ∈ hunks, guardHunkLines filePath ranges hk.oldStart hk.lines = some r := by
  intro hunks
  induction hunks with
  | nil => intro r h; exact Option.noConfusion h
  | cons hk rest ih =>
    intro r h
    simp only [guardHunks] at h
    cases hl : guardHunkLines filePath ranges hk.oldStart hk.lines with
    | some r2 =>
      rw [hl, Option.some.injEq] at h
      exact ⟨hk, List.mem_cons_self .., h ▸ hl⟩
    | none =>
      rw [hl] at h
      obtain ⟨hk2, hm, hsome⟩ := ih r h
      exact ⟨hk2, List.mem_cons_of_mem _ hm, hsome⟩

theorem patchWithinEvidence_ok_iff (allowed : List (String × List LineRange)) :
    ∀ (patches : List FilePatch),
      (patchWithinEvidence patches allowed).ok = true ↔
        scopeWithinEvidence patches allowed := by
  intro patches
  induction patches with
  | nil => simp [patchWithinEvidence, scopeWithinEvidence]
  | cons fp rest ih =>
    simp only [patchWithinEvidence, scopeWithinEvidence, List.forall_mem_cons]
    cases halist : alistGet allowed fp.filePath with
    | none =>
      constructor
      · intro hc
        exact Bool.noConfusion hc
      · intro hc
        exact hc.1.elim
    | some ranges =>
      dsimp only
      by_cases hlen : (ranges.length == 0) = true
      · rw [if_pos hlen]
        rw [beq_iff_eq, List.length_eq_zero] at hlen
        constructor
        · intro hc
          exact Bool.noConfusion hc
        · intro hc
          exact (hc.1.1 hlen).elim
      · rw [if_neg hlen]
        rw [beq_iff_eq, ← ne_eq] at hlen
        cases hg : guardHunks fp.filePath ranges fp.hunks with
        | some r =>
          constructor
          · intro hc
            exact Bool.noConfusion hc
          · intro hc
            have hnone : guardHunks fp.filePath ranges fp.hunks = none := by
              rw [guardHunks_none_iff]
              intro hk hm
              rw [guardHunkLines_none_iff]
              intro i l hgl ht
              rw [lineInRanges_iff]
              exact hc.1.2 hk hm i l hgl ht
            exact Option.noConfusion (hnone.symm.trans hg)
        | none =>
          rw [ih]
          constructor
          · intro hrest
            refine ⟨⟨fun hc => hlen (by rw [hc]; rfl), ?_⟩, hrest⟩
            intro hk hm i l hgl ht
            rw [← lineInRanges_iff]
            exact (guardHunkLines_none_iff fp.filePath ranges hk.lines hk.oldStart).mp
              ((guardHunks_none_iff fp.filePath ranges fp.hunks).mp hg hk hm) i l hgl ht
          · intro hc
            exact hc.2

theorem patchWithinEvidence_shape (allowed : List (String × List LineRange)) :
    ∀ (patches : List FilePatch),
      patchWithinEvidence patches allowed = { ok := true, reason := none } ∨
      ((patchWithinEvidence patches allowed).ok = false ∧
        ∃ fp ∈ patches,
          ((patchWithinEvidence patches allowed).reason =
              some ("Patch touches non-evidence file: " ++ fp.filePath)) ∨
          ∃ hk ∈ fp.hunks, ∃ (i : Nat) (l : String), hk.lines[i]? = some l ∧
            ¬ inRangeProp (cursorAt hk.oldStart hk.lines i)
                ((alistGet allowed fp.filePath).getD []) ∧
            ((strStartsWith l "-" = true ∧
              (patchWithinEvidence patches allowed).reason =
                some ("Patch removes line " ++
                  toString (cursorAt hk.oldStart hk.lines i) ++
                  " outside evidence in " ++ fp.filePath)) ∨
             (strStartsWith l "+" = true ∧
              (patchWithinEvidence patches allowed).reason =
                some ("Patch adds line outside evidence near " ++
                  toString (cursorAt hk.oldStart hk.lines i) ++ " in " ++
                  fp.filePath)))) := by
  intro patches
  induction patches with
  | nil => exact Or.inl rfl
  | cons fp rest ih =>
    simp only [patchWithinEvidence]
    cases halist : alistGet allowed fp.filePath with
    | none =>
      right
      exact ⟨rfl, fp, List.mem_cons_self .., Or.inl rfl⟩
    | some ranges =>
      dsimp only
      by_cases hlen : (ranges.length == 0) = true
      · rw [if_pos hlen]
        right
        exact ⟨rfl, fp, List.mem_cons_self .., Or.inl rfl⟩
      · rw [if_neg hlen]
        cases hg : guardHunks fp.filePath ranges fp.hunks with
        | some r =>
          right
          refine ⟨rfl, fp, List.mem_cons_self .., Or.inr ?_⟩
          obtain ⟨hk, hm, hsome⟩ := guardHunks_some fp.filePath ranges fp.hunks r hg
          obtain ⟨i, l, hgl, hnin, hshape⟩ :=
            guardHunkLines_some fp.filePath ranges hk.lines hk.oldStart r hsome
          refine ⟨hk, hm, i, l, hgl, ?_, ?_⟩
          · rw [halist]
            exact hnin
          · rcases hshape with ⟨hst, hr⟩ | ⟨hst, hr⟩
            · exact Or.inl ⟨hst, by rw [hr]⟩
            · exact Or.inr ⟨hst, by rw [hr]⟩
        | none =>
          rcases ih with hok | ⟨hfalse, fp2, hm, hshape⟩
          · exact Or.inl hok
          · right
            refine ⟨hfalse, fp2, List.mem_cons_of_mem _ hm, hshape⟩

/-- C1: the Evidence-Scope Validator accepts exactly the patches whose every
hunk, replayed with an old-file cursor from `oldStart` (context and removed
lines advance it, added lines do not), keeps each removed/added line's current
cursor position inside the file's allowed ranges, over files that have
allowed ranges at all; any violation rejects the whole patch with a reason
naming the offending file (and, for line violations, the offending cursor
line). -/
theorem c1_patchWithinEvidence_scope (patches : List FilePatch)
    (allowed : List (String × List LineRange)) :
    ((patchWithinEvidence patches allowed).ok = true ↔
      scopeWithinEvidence patches allowed) ∧
    ((patchWithinEvidence patches allowed).ok = true →
      (patchWithinEvidence patches allowed).reason = none) ∧
    ((patchWithinEvidence patches allowed).ok = false →
      ∃ fp ∈ patches,
        ((patchWithinEvidence patches allowed).reason =
            some ("Patch touches non-evidence file: " ++ fp.filePath)) ∨
        ∃ hk ∈ fp.hunks, ∃ (i : Nat) (l : String), hk.lines[i]? = some l ∧
          ¬ inRangeProp (cursorAt hk.oldStart hk.lines i)
              ((alistGet allowed fp.filePath).getD []) ∧
          ((strStartsWith l "-" = true ∧
            (patchWithinEvidence patches allowed).reason =
              some ("Patch removes line " ++
                toString (cursorAt hk.oldStart hk.lines i) ++
                " outside evidence in " ++ fp.filePath)) ∨
           (strStartsWith l "+" = true ∧
            (patchWithinEvidence patches allowed).reason =
              some ("Patch adds line outside evidence near " ++
                toString (cursorAt hk.oldStart hk.lines i) ++ " in " ++
                fp.filePath)))) := by
  refine ⟨patchWithinEvidence_ok_iff allowed patches, ?_, ?_⟩
  · intro hok
    rcases patchWithinEvidence_shape allowed patches with heq | ⟨hfalse, -⟩
    · rw [heq]
    · rw [hok] at hfalse
      exact Bool.noConfusion hfalse
  · intro hfalse
    rcases patchWithinEvidence_shape allowed patches with heq | ⟨-, hshape⟩
    · rw [heq] at hfalse
      exact Bool.noConfusion hfalse
    · exact hshape

/-- Witness for C1: a concrete in-scope patch is accepted with no reason. -/
theorem c1_patchWithinEvidence_scope_witness :
    (patchWithinEvidence [exScopePatch] exAllowedRanges).reason = none :=
  (c1_patchWithinEvidence_scope [exScopePatch] exAllowedRanges).2.1 rfl

theorem cycleStep_inv (graph : List (String × List String)) (fromFile : String) :
    ∀ (targets : List String) (seen : List String) (cycles : List CircularDependency),
      (∀ c ∈ cycles, cycleKey c.fromFile c.toFile ∈ seen) →
      List.Pairwise
        (fun c1 c2 => cycleKey c1.fromFile c1.toFile ≠ cycleKey c2.fromFile c2.toFile)
        cycles →
      (∀ c ∈ (targets.foldl (cycleStep graph fromFile) (seen, cycles)).2,
        cycleKey c.fromFile c.toFile ∈
          (targets.foldl (cycleStep graph fromFile) (seen, cycles)).1) ∧
      List.Pairwise
        (fun c1 c2 => cycleKey c1.fromFile c1.toFile ≠ cycleKey c2.fromFile c2.toFile)
        (targets.foldl (cycleStep graph fromFile) (seen, cycles)).2 := by
  intro targets
  induction targets with
  | nil => intro seen cycles hin hpw; exact ⟨hin, hpw⟩
  | cons tgt rest ih =>
    intro seen cycles hin hpw
    simp only [List.foldl_cons]
    by_cases hedge : ((alistGet graph tgt).getD []).contains fromFile = true
    · by_cases hseen : seen.contains (cycleKey fromFile tgt) = true
      · have hstep : cycleStep graph fromFile (seen, cycles) tgt = (seen, cycles) := by
          unfold cycleStep
          dsimp only
          rw [if_pos hedge, if_pos hseen]
        rw [hstep]
        exact ih seen cycles hin hpw
      · have hstep : cycleStep graph fromFile (seen, cycles) tgt =
            (seen ++ [cycleKey fromFile tgt],
             cycles ++ [{ fromFile := fromFile, toFile := tgt }]) := by
          unfold cycleStep
          dsimp only
          rw [if_pos hedge, if_neg hseen]
        rw [hstep]
        refine ih _ _ ?_ ?_
        · intro c hc
          rcases List.mem_append.mp hc with hc1 | hc2
          · exact List.mem_append.mpr (Or.inl (hin c hc1))
          · simp only [List.mem_singleton] at hc2
            subst hc2
            simp
        · rw [List.pairwise_append]
          refine ⟨hpw, List.pairwise_singleton .., ?_⟩
          intro c1 hc1 c2 hc2
          simp only [List.mem_singleton] at hc2
          subst hc2
          intro hkey
          have hmem : cycleKey fromFile tgt ∈ seen := hkey ▸ hin c1 hc1
          exact hseen (List.elem_iff.mpr hmem)
    · have hstep : cycleStep graph fromFile (seen, cycles) tgt = (seen, cycles) := by
        unfold cycleStep
        dsimp only
        rw [if_neg hedge]
      rw [hstep]
      exact ih seen cycles hin hpw

theorem cyclesGraph_inv (graph : List (String × List String)) :
    ∀ (entries : List (String × List String)) (seen : List String)
      (cycles : List CircularDependency),
      (∀ c ∈ cycles, cycleKey c.fromFile c.toFile ∈ seen) →
      List.Pairwise
        (fun c1 c2 => cycleKey c1.fromFile c1.toFile ≠ cycleKey c2.fromFile c2.toFile)
        cycles →
      List.Pairwise
        (fun c1 c2 => cycleKey c1.fromFile c1.toFile ≠ cycleKey c2.fromFile c2.toFile)
        (entries.foldl (fun acc entry => entry.2.foldl (cycleStep graph entry.1) acc)
          (seen, cycles)).2 := by
  intro entries
  induction entries with
  | nil => intro seen cycles _ hpw; exact hpw
  | cons entry rest ih =>
    intro seen cycles hin hpw
    simp only [List.foldl_cons]
    obtain ⟨hin2, hpw2⟩ := cycleStep_inv graph entry.1 entry.2 seen cycles hin hpw
    cases hsplit : entry.2.foldl (cycleStep graph entry.1) (seen, cycles) with
    | mk seen2 cycles2 =>
      rw [hsplit] at hin2 hpw2
      exact ih seen2 cycles2 hin2 hpw2

/-- C7: cycle detection is symmetric and pairwise-only — a three-file
transitive cycle with no reciprocal edge yields no reported cycle, two
mutually importing files yield exactly one, and in general every unordered
file pair appears at most once in the report. -/
theorem c7_cycles_pairwise :
    collectCircularDependencies cyc3Files ["src/a.ts", "src/b.ts", "src/c.ts"] = [] ∧
    collectCircularDependencies cyc2Files ["src/a.ts", "src/b.ts"] =
      [{ fromFile := "src/a.ts", toFile := "src/b.ts" }] ∧
    ∀ (files : List NormalizedFile) (filePaths : List String),
      List.Pairwise
        (fun c1 c2 => cycleKey c1.fromFile c1.toFile ≠ cycleKey c2.fromFile c2.toFile)
        (collectCircularDependencies files filePaths) := by
  refine ⟨by decide, by decide, ?_⟩
  intro files filePaths
  unfold collectCircularDependencies collectCyclesFromGraph
  exact cyclesGraph_inv (buildImportGraph files filePaths)
    (buildImportGraph files filePaths) [] [] (by simp) List.Pairwise.nil

/-- C8: the Function-Length Analyzer in `src` emits `{ file, name, length }`
records only — `AnalyzedFunction` has no `startLine`/`endLine` fields, though
`types.ts` declares them on `LongFunction` (with `endLine >= startLine` and
`length = endLine - startLine + 1`), the repository's own tests assert them,
and `findMaxLongFunctionInRange` reads them.  Evaluated at a file whose tree
holds one 57-line function declaration. -/
theorem c8_collectFunctionLengths_no_span_fields :
    collectFunctionLengths
      (TsNode.mk .sourceFile false 0 56
        [TsNode.mk (.functionDeclaration (some "longFn")) true 0 56 []])
      "src/long.ts" =
      [{ file := "src/long.ts", name := "longFn", length := 57 }] := by
  decide

set_option maxRecDepth 4000 in
/-- C3: the verification pass is not computed over the overlay — the `src`
`runCodeAnalysisAgent` accepts no overrides argument, so `attemptFix`'s
second analysis call re-reads every file from disk and equals the first
analysis, even though the validated patch's overlay content differs from disk
and an overlay-substituted analysis would differ (2 duplicate blocks on disk,
0 after the patch). -/
theorem c3_verification_pass_reads_disk :
    (∀ (overrides : List (String × String)),
      verificationPassAnalysis parseNone exDupFs exDupScan overrides =
        runCodeAnalysisAgent parseNone exDupFs exDupScan) ∧
    applyPatchToContent exDupContent exDupPatch = Except.ok exDupPatched ∧
    exDupPatched ≠ exDupContent ∧
    (runCodeAnalysisAgent parseNone exDupFs exDupScan).metrics.duplicateBlocks = 2 ∧
    (runCodeAnalysisAgent parseNone
        (alistSet exDupFs "src/dup-a.ts" exDupPatched) exDupScan).metrics.duplicateBlocks
      = 0 := by
  refine ⟨fun _ => rfl, rfl, by decide, rfl, rfl⟩

/-- `pushHunk` leaves the open-file flag unchanged. -/
theorem pushHunk_curOpen (st : DiffState) (hk : Hunk) :
    (pushHunk st hk).curOpen = st.curOpen := by
  unfold pushHunk
  cases st.rev <;> rfl

/-- `pushHunkLine` leaves the open-file flag unchanged. -/
theorem pushHunkLine_curOpen (st : DiffState) (l : String) :
    (pushHunkLine st l).curOpen = st.curOpen := by
  unfold pushHunkLine
  cases hrev : st.rev with
  | nil => rfl
  | cons p rest =>
    dsimp only
    cases p.hunks.getLast? <;> rfl

/-- Simulation: the parser loop errors exactly when the spec-side error
machine does, tracking only whether a file header is open. -/
theorem parseDiffGo_error_iff :
    ∀ (fuel : Nat) (ls : List String) (st : DiffState) (e : String),
      (parseDiffGo fuel ls st = Except.error e ↔ specDiffGo fuel ls st.curOpen = some e) := by
  intro fuel
  induction fuel with
  | zero =>
    intro ls st e
    cases ls with
    | nil =>
      simp only [parseDiffGo, specDiffGo]
      constructor
      · intro h; exact Except.noConfusion h
      · intro h; exact Option.noConfusion h
    | cons a rest =>
      simp only [parseDiffGo, specDiffGo]
      constructor
      · intro h; exact Except.noConfusion h
      · intro h; exact Option.noConfusion h
  | succ fuel ih =>
    intro ls st e
    cases ls with
    | nil =>
      simp only [parseDiffGo, specDiffGo]
      constructor
      · intro h; exact Except.noConfusion h
      · intro h; exact Option.noConfusion h
    | cons rawLine rest =>
      simp only [parseDiffGo, specDiffGo]
      by_cases h1 : strStartsWith (stripCR rawLine) "```" = true
      · rw [if_pos h1, if_pos h1]
        exact ih rest st e
      · rw [if_neg h1, if_neg h1]
        by_cases h2 : strStartsWith (stripCR rawLine) "diff --git" = true
        · rw [if_pos h2, if_pos h2]
          exact ih rest { st with curOpen := false, hunkOpen := false } e
        · rw [if_neg h2, if_neg h2]
          by_cases h3 : strStartsWith (stripCR rawLine) "index " = true
          · rw [if_pos h3, if_pos h3]
            exact ih rest st e
          · rw [if_neg h3, if_neg h3]
            by_cases h4 : strStartsWith (stripCR rawLine) "--- " = true
            · rw [if_pos h4, if_pos h4]
              cases hscan : scanForPlusPlus rest with
              | none =>
                constructor
                · intro h
                  rw [Except.error.injEq] at h
                  rw [h]
                · intro h
                  rw [Option.some.injEq] at h
                  rw [h]
              | some pr =>
                obtain ⟨next, rest2⟩ := pr
                exact ih rest2 _ e
            · rw [if_neg h4, if_neg h4]
              by_cases h5 : strStartsWith (stripCR rawLine) "@@ " = true
              · rw [if_pos h5, if_pos h5]
                by_cases h6 : st.curOpen = true
                · rw [if_neg (by simp [h6]), if_neg (by simp [h6])]
                  cases hph : parseHunkHeader (stripCR rawLine) with
                  | none =>
                    constructor
                    · intro h
                      rw [Except.error.injEq] at h
                      rw [h]
                    · intro h
                      rw [Option.some.injEq] at h
                      rw [h]
                  | some hk =>
                    have := ih rest (pushHunk { st with hunkOpen := true } hk) e
                    rw [pushHunk_curOpen] at this
                    exact this
                · rw [if_pos (by simp [h6]), if_pos (by simp [h6])]
                  constructor
                  · intro h
                    rw [Except.error.injEq] at h
                    rw [h]
                  · intro h
                    rw [Option.some.injEq] at h
                    rw [h]
              · rw [if_neg h5, if_neg h5]
                by_cases h7 : st.hunkOpen = true
                · rw [if_neg (by simp [h7])]
                  by_cases h8 : strStartsWith (stripCR rawLine)
                      "\\ No newline at end of file" = true
                  · rw [if_pos h8]
                    exact ih rest st e
                  · rw [if_neg h8]
                    have := ih rest (pushHunkLine st (stripCR rawLine)) e
                    rw [pushHunkLine_curOpen] at this
                    exact this
                · rw [if_pos (by simp [h7])]
                  exact ih rest st e

/-- Every spec-machine error is one of the three fixed messages. -/
theorem specDiffGo_mem :
    ∀ (fuel : Nat) (ls : List String) (b : Bool) (e : String),
      specDiffGo fuel ls b = some e →
      e = "Malformed diff header." ∨ e = "Hunk found before file header." ∨
      e = "Malformed hunk header." := by
  intro fuel
  induction fuel with
  | zero =>
    intro ls b e h
    cases ls <;> exact Option.noConfusion h
  | succ fuel ih =>
    intro ls b e h
    cases ls with
    | nil => exact Option.noConfusion h
    | cons raw rest =>
      simp only [specDiffGo] at h
      split_ifs at h with h1 h2 h3 h4 h5 h6
      · exact ih rest b e h
      · exact ih rest false e h
      · exact ih rest b e h
      · cases hs : scanForPlusPlus rest with
        | none =>
          rw [hs] at h
          exact Or.inl (Option.some.inj h).symm
        | some pr =>
          rw [hs] at h
          exact ih pr.2 true e h
      · exact Or.inr (Or.inl (Option.some.inj h).symm)
      · cases hph : parseHunkHeader (stripCR raw) with
        | none =>
          rw [hph] at h
          exact Or.inr (Or.inr (Option.some.inj h).symm)
        | some hk =>
          rw [hph] at h
          exact ih rest b e h
      · exact ih rest b e h

/-- C5 (amended): `parseUnifiedDiff` fails with a structured error, never
silently, exactly when the spec-side error machine `specDiffError` does: a
hunk header line with no open file header, a hunk header line in which the
`@@ -oldStart[,oldLines] +newStart[,newLines] @@` shape matches nowhere (at
any position, anchored only at the end of the line), or a `--- ` header line
not followed — after tolerating any lines other than `--- `, `@@ ` and
`diff --git` lines — by a `+++ ` line; every such error is one of the three
fixed messages. -/
theorem c5_diff_parser_error_cases :
    ∀ (diff : String) (e : String),
      (parseUnifiedDiff diff = Except.error e ↔ specDiffError diff = some e) ∧
      (parseUnifiedDiff diff = Except.error e →
        e = "Malformed diff header." ∨ e = "Hunk found before file header." ∨
        e = "Malformed hunk header.") := by
  intro diff e
  have hiff := parseDiffGo_error_iff (jsSplitLines diff).length (jsSplitLines diff)
    { rev := [], curOpen := false, hunkOpen := false } e
  refine ⟨hiff, fun h => ?_⟩
  exact specDiffGo_mem _ _ _ _ (hiff.mp h)

/-- C5 counterexample: the original claim is false on both counts.  In
`c5badDiffA` the line after `--- a/f.ts` is `garbage` — neither blank nor an
`index ` line — yet no error is raised (the claim requires a failure here);
in `c5badDiffB` the hunk header line does not have the expected
`@@ -old +new @@` shape (it only contains it as a suffix) yet no error is
raised either. -/
theorem c5_diff_parser_error_cases_counterexample :
    (strStartsWith "garbage" "index " = false ∧ "garbage" ≠ "" ∧
     strStartsWith "garbage" "+++ " = false ∧
     (jsSplitLines c5badDiffA)[0]? = some "--- a/f.ts" ∧
     (jsSplitLines c5badDiffA)[1]? = some "garbage" ∧
     (∃ ps, parseUnifiedDiff c5badDiffA = Except.ok ps)) ∧
    (strStartsWith "@@ junk @@ -1,1 +1,1 @@" "@@ -" = false ∧
     (jsSplitLines c5badDiffB)[2]? = some "@@ junk @@ -1,1 +1,1 @@" ∧
     (∃ ps, parseUnifiedDiff c5badDiffB = Except.ok ps)) := by
  refine ⟨⟨by decide, by decide, by decide, by rfl, by rfl, ⟨_, by rfl⟩⟩,
          ⟨by decide, by rfl, ⟨_, by rfl⟩⟩⟩

/-- C5 witness: on concrete malformed diffs the equivalence instantiates and
both sides produce the structured message — a hunk header with no preceding
file header, and a hunk header whose trailing comment contains a carriage
return, which the end-anchored regex cannot match (JS `.` matches no line
terminator). -/
theorem c5_diff_parser_error_cases_witness :
    (parseUnifiedDiff "@@ -1 +1 @@\n-x" = Except.error "Hunk found before file header." ∧
     specDiffError "@@ -1 +1 @@\n-x" = some "Hunk found before file header.") ∧
    (parseUnifiedDiff "--- a/f.ts\n+++ b/f.ts\n@@ -1 +1 @@ a\rb\n-x\n+y" =
       Except.error "Malformed hunk header." ∧
     specDiffError "--- a/f.ts\n+++ b/f.ts\n@@ -1 +1 @@ a\rb\n-x\n+y" =
       some "Malformed hunk header.") := by
  have h1 := (c5_diff_parser_error_cases "@@ -1 +1 @@\n-x"
    "Hunk found before file header.").1
  have h2 := (c5_diff_parser_error_cases "--- a/f.ts\n+++ b/f.ts\n@@ -1 +1 @@ a\rb\n-x\n+y"
    "Malformed hunk header.").1
  exact ⟨⟨h1.mpr (by rfl), by rfl⟩, ⟨h2.mpr (by rfl), by rfl⟩⟩

/-- C2 (amended): on both fixable branches of `attemptFix` (`longFunctions`
and `duplicateBlocks`), a failure in patch generation or diff parsing
(including the single retry) is caught per-issue and converted into a
rejected `FixSuggestion` carrying the failure message, and a scope-guard
rejection likewise yields a rejected `FixSuggestion`; but a failure while
reading an evidence snippet, or while reading or patching a touched file
after validation, escapes `attemptFix` uncaught, and any error escaping
`attemptFix` aborts `runFixItAgent`, abandoning the remaining issues, while a
caught (ok) outcome lets the loop continue over them. -/
theorem c2_fix_pipeline_error_policy :
    (∀ (gen : String → Except String String) (fs : FileSys) (key : String)
       (ra : List (String × String) → AnalysisResult) (issueId : Int)
       (issue : GuardedIssue) (an : AnalysisResult) (snips : List Snippet) (e : String),
       issue.evidenceComplete = true →
       issue.signal = "longFunctions" →
       issue.evidence ≠ [] →
       (issue.evidence.take 1).mapM (readSnippet fs) = Except.ok snips →
       generateAndParse gen (buildLongFunctionPrompt issue snips) = Except.error e →
       attemptFix gen fs (some key) ra issueId issue an =
         Except.ok (some (rejectedSuggestion issueId issue
           (alistKeys (buildAllowedRanges issue)) e))) ∧
    (∀ (gen : String → Except String String) (fs : FileSys) (key : String)
       (ra : List (String × String) → AnalysisResult) (issueId : Int)
       (issue : GuardedIssue) (an : AnalysisResult) (snips : List Snippet)
       (patchText : String) (patches : List FilePatch),
       issue.evidenceComplete = true →
       issue.signal = "longFunctions" →
       issue.evidence ≠ [] →
       (issue.evidence.take 1).mapM (readSnippet fs) = Except.ok snips →
       generateAndParse gen (buildLongFunctionPrompt issue snips) =
         Except.ok (patchText, patches) →
       (patchWithinEvidence patches (buildAllowedRanges issue)).ok = false →
       attemptFix gen fs (some key) ra issueId issue an =
         Except.ok (some (rejectedSuggestion issueId issue
           (alistKeys (buildAllowedRanges issue))
           ((patchWithinEvidence patches (buildAllowedRanges issue)).reason.getD
             "Patch rejected by evidence guard.")))) ∧
    (∀ (gen : String → Except String String) (fs : FileSys) (key : String)
       (ra : List (String × String) → AnalysisResult) (issueId : Int)
       (issue : GuardedIssue) (an : AnalysisResult) (e : String),
       issue.evidenceComplete = true →
       issue.signal = "longFunctions" →
       issue.evidence ≠ [] →
       (issue.evidence.take 1).mapM (readSnippet fs) = Except.error e →
       attemptFix gen fs (some key) ra issueId issue an = Except.error e) ∧
    (∀ (gen : String → Except String String) (fs : FileSys) (key : String)
       (ra : List (String × String) → AnalysisResult) (issueId : Int)
       (issue : GuardedIssue) (an : AnalysisResult) (snips : List Snippet)
       (patchText : String) (patches : List FilePatch) (e : String),
       issue.evidenceComplete = true →
       issue.signal = "longFunctions" →
       issue.evidence ≠ [] →
       (issue.evidence.take 1).mapM (readSnippet fs) = Except.ok snips →
       generateAndParse gen (buildLongFunctionPrompt issue snips) =
         Except.ok (patchText, patches) →
       (patchWithinEvidence patches (buildAllowedRanges issue)).ok = true →
       patches.foldlM
         (fun acc filePatch => do
           let content ← readFileE fs filePatch.filePath
           let applied ← applyPatchToContent content filePatch
           Except.ok (alistSet acc filePatch.filePath applied))
         ([] : List (String × String)) = Except.error e →
       attemptFix gen fs (some key) ra issueId issue an = Except.error e) ∧
    (∀ (gen : String → Except String String) (fs : FileSys) (key : String)
       (ra : List (String × String) → AnalysisResult) (issueId : Int)
       (issue : GuardedIssue) (an : AnalysisResult) (snips : List Snippet) (e : String),
       issue.evidenceComplete = true →
       issue.signal = "duplicateBlocks" →
       ¬ (selectDuplicateEvidence issue).length < 2 →
       (selectDuplicateEvidence issue).mapM (readSnippet fs) = Except.ok snips →
       generateAndParse gen (buildDuplicatePrompt issue snips) = Except.error e →
       attemptFix gen fs (some key) ra issueId issue an =
         Except.ok (some (rejectedSuggestion issueId issue
           (alistKeys (buildAllowedRanges issue)) e))) ∧
    (∀ (gen : String → Except String String) (fs : FileSys) (key : String)
       (ra : List (String × String) → AnalysisResult) (issueId : Int)
       (issue : GuardedIssue) (an : AnalysisResult) (snips : List Snippet)
       (patchText : String) (patches : List FilePatch),
       issue.evidenceComplete = true →
       issue.signal = "duplicateBlocks" →
       ¬ (selectDuplicateEvidence issue).length < 2 →
       (selectDuplicateEvidence issue).mapM (readSnippet fs) = Except.ok snips →
       generateAndParse gen (buildDuplicatePrompt issue snips) =
         Except.ok (patchText, patches) →
       (patchWithinEvidence patches (buildAllowedRanges issue)).ok = false →
       attemptFix gen fs (some key) ra issueId issue an =
         Except.ok (some (rejectedSuggestion issueId issue
           (alistKeys (buildAllowedRanges issue))
           ((patchWithinEvidence patches (buildAllowedRanges issue)).reason.getD
             "Patch rejected by evidence guard.")))) ∧
    (∀ (gen : String → Except String String) (fs : FileSys) (key : String)
       (ra : List (String × String) → AnalysisResult) (issueId : Int)
       (issue : GuardedIssue) (an : AnalysisResult) (e : String),
       issue.evidenceComplete = true →
       issue.signal = "duplicateBlocks" →
       ¬ (selectDuplicateEvidence issue).length < 2 →
       (selectDuplicateEvidence issue).mapM (readSnippet fs) = Except.error e →
       attemptFix gen fs (some key) ra issueId issue an = Except.error e) ∧
    (∀ (gen : String → Except String String) (fs : FileSys) (key : String)
       (ra : List (String × String) → AnalysisResult) (issueId : Int)
       (issue : GuardedIssue) (an : AnalysisResult) (snips : List Snippet)
       (patchText : String) (patches : List FilePatch) (e : String),
       issue.evidenceComplete = true →
       issue.signal = "duplicateBlocks" →
       ¬ (selectDuplicateEvidence issue).length < 2 →
       (selectDuplicateEvidence issue).mapM (readSnippet fs) = Except.ok snips →
       generateAndParse gen (buildDuplicatePrompt issue snips) =
         Except.ok (patchText, patches) →
       (patchWithinEvidence patches (buildAllowedRanges issue)).ok = true →
       patches.foldlM
         (fun acc filePatch => do
           let content ← readFileE fs filePatch.filePath
           let applied ← applyPatchToContent content filePatch
           Except.ok (alistSet acc filePatch.filePath applied))
         ([] : List (String × String)) = Except.error e →
       attemptFix gen fs (some key) ra issueId issue an = Except.error e) ∧
    (∀ (gen : String → Except String String) (fs : FileSys) (key : Option String)
       (ra : List (String × String) → AnalysisResult) (an : AnalysisResult)
       (index : Nat) (issue : GuardedIssue) (rest : List GuardedIssue) (e : String),
       attemptFix gen fs key ra ((index + 1 : Nat) : Int) issue an = Except.error e →
       runFixLoop gen fs key ra an index (issue :: rest) = Except.error e) ∧
    (∀ (gen : String → Except String String) (fs : FileSys) (key : Option String)
       (ra : List (String × String) → AnalysisResult) (an : AnalysisResult)
       (insights : GuardedInsights) (e : String),
       runFixLoop gen fs key ra an 0
         ((insights.issues.filter fun i => isFixableSignal i.signal).take MAX_FIXES)
         = Except.error e →
       runFixItAgent gen fs key ra an insights = Except.error e) ∧
    (∀ (gen : String → Except String String) (fs : FileSys) (key : Option String)
       (ra : List (String × String) → AnalysisResult) (an : AnalysisResult)
       (index : Nat) (issue : GuardedIssue) (rest : List GuardedIssue)
       (sug : Option FixSuggestion),
       attemptFix gen fs key ra ((index + 1 : Nat) : Int) issue an = Except.ok sug →
       runFixLoop gen fs key ra an index (issue :: rest) =
         (runFixLoop gen fs key ra an (index + 1) rest).map
           (fun tail => match sug with | none => tail | some s => s :: tail)) := by
  refine ⟨?_, ?_, ?_, ?_, ?_, ?_, ?_, ?_, ?_, ?_, ?_⟩
  · intro gen fs key ra issueId issue an snips e h1 h2 h3 h4 h5
    obtain ⟨ty, sig, conf, ev, ec, mr⟩ := issue
    dsimp only at h1 h2 h3 h4 h5
    subst h1
    subst h2
    cases ev with
    | nil => exact absurd rfl h3
    | cons a l =>
      simp only [attemptFix]
      rw [h4]
      show attemptFixOnPrompt gen fs ra issueId
          { type := ty, signal := "longFunctions", confidence := conf, evidence := a :: l,
            evidenceComplete := true, missingEvidenceReason := mr } an
          (buildLongFunctionPrompt
            { type := ty, signal := "longFunctions", confidence := conf, evidence := a :: l,
              evidenceComplete := true, missingEvidenceReason := mr } snips) [a] =
        Except.ok (some (rejectedSuggestion issueId
          { type := ty, signal := "longFunctions", confidence := conf, evidence := a :: l,
            evidenceComplete := true, missingEvidenceReason := mr }
          (alistKeys (buildAllowedRanges
            { type := ty, signal := "longFunctions", confidence := conf, evidence := a :: l,
              evidenceComplete := true, missingEvidenceReason := mr })) e))
      simp only [attemptFixOnPrompt]
      rw [h5]
  · intro gen fs key ra issueId issue an snips patchText patches h1 h2 h3 h4 h5 h6
    obtain ⟨ty, sig, conf, ev, ec, mr⟩ := issue
    dsimp only at h1 h2 h3 h4 h5 h6 ⊢
    subst h1
    subst h2
    cases ev with
    | nil => exact absurd rfl h3
    | cons a l =>
      simp only [attemptFix]
      rw [h4]
      show attemptFixOnPrompt gen fs ra issueId
          { type := ty, signal := "longFunctions", confidence := conf, evidence := a :: l,
            evidenceComplete := true, missingEvidenceReason := mr } an
          (buildLongFunctionPrompt
            { type := ty, signal := "longFunctions", confidence := conf, evidence := a :: l,
              evidenceComplete := true, missingEvidenceReason := mr } snips) [a] =
        Except.ok (some (rejectedSuggestion issueId
          { type := ty, signal := "longFunctions", confidence := conf, evidence := a :: l,
            evidenceComplete := true, missingEvidenceReason := mr }
          (alistKeys (buildAllowedRanges
            { type := ty, signal := "longFunctions", confidence := conf, evidence := a :: l,
              evidenceComplete := true, missingEvidenceReason := mr }))
          ((patchWithinEvidence patches (buildAllowedRanges
            { type := ty, signal := "longFunctions", confidence := conf, evidence := a :: l,
              evidenceComplete := true, missingEvidenceReason := mr })).reason.getD
            "Patch rejected by evidence guard.")))
      simp only [attemptFixOnPrompt]
      rw [h5]
      dsimp only
      rw [h6]
      rfl
  · intro gen fs key ra issueId issue an e h1 h2 h3 h4
    obtain ⟨ty, sig, conf, ev, ec, mr⟩ := issue
    dsimp only at h1 h2 h3 h4
    subst h1
    subst h2
    cases ev with
    | nil => exact absurd rfl h3
    | cons a l =>
      simp only [attemptFix]
      rw [h4]
      rfl
  · intro gen fs key ra issueId issue an snips patchText patches e h1 h2 h3 h4 h5 h6 h7
    obtain ⟨ty, sig, conf, ev, ec, mr⟩ := issue
    dsimp only at h1 h2 h3 h4 h5 h6 h7
    subst h1
    subst h2
    cases ev with
    | nil => exact absurd rfl h3
    | cons a l =>
      simp only [attemptFix]
      rw [h4]
      show attemptFixOnPrompt gen fs ra issueId
          { type := ty, signal := "longFunctions", confidence := conf, evidence := a :: l,
            evidenceComplete := true, missingEvidenceReason := mr } an
          (buildLongFunctionPrompt
            { type := ty, signal := "longFunctions", confidence := conf, evidence := a :: l,
              evidenceComplete := true, missingEvidenceReason := mr } snips) [a] =
        Except.error e
      simp only [attemptFixOnPrompt]
      rw [h5]
      dsimp only
      rw [h6]
      rw [h7]
      rfl
  · intro gen fs key ra issueId issue an snips e h1 h2 h3 h4 h5
    obtain ⟨ty, sig, conf, ev, ec, mr⟩ := issue
    dsimp only at h1 h2 h3 h4 h5
    subst h1
    subst h2
    simp only [attemptFix]
    rw [if_neg h3]
    rw [h4]
    show attemptFixOnPrompt gen fs ra issueId
        { type := ty, signal := "duplicateBlocks", confidence := conf, evidence := ev,
          evidenceComplete := true, missingEvidenceReason := mr } an
        (buildDuplicatePrompt
          { type := ty, signal := "duplicateBlocks", confidence := conf, evidence := ev,
            evidenceComplete := true, missingEvidenceReason := mr } snips)
        (selectDuplicateEvidence
          { type := ty, signal := "duplicateBlocks", confidence := conf, evidence := ev,
            evidenceComplete := true, missingEvidenceReason := mr }) =
      Except.ok (some (rejectedSuggestion issueId
        { type := ty, signal := "duplicateBlocks", confidence := conf, evidence := ev,
          evidenceComplete := true, missingEvidenceReason := mr }
        (alistKeys (buildAllowedRanges
          { type := ty, signal := "duplicateBlocks", confidence := conf, evidence := ev,
            evidenceComplete := true, missingEvidenceReason := mr })) e))
    simp only [attemptFixOnPrompt]
    rw [h5]
  · intro gen fs key ra issueId issue an snips patchText patches h1 h2 h3 h4 h5 h6
    obtain ⟨ty, sig, conf, ev, ec, mr⟩ := issue
    dsimp only at h1 h2 h3 h4 h5 h6 ⊢
    subst h1
    subst h2
    simp only [attemptFix]
    rw [if_neg h3]
    rw [h4]
    show attemptFixOnPrompt gen fs ra issueId
        { type := ty, signal := "duplicateBlocks", confidence := conf, evidence := ev,
          evidenceComplete := true, missingEvidenceReason := mr } an
        (buildDuplicatePrompt
          { type := ty, signal := "duplicateBlocks", confidence := conf, evidence := ev,
            evidenceComplete := true, missingEvidenceReason := mr } snips)
        (selectDuplicateEvidence
          { type := ty, signal := "duplicateBlocks", confidence := conf, evidence := ev,
            evidenceComplete := true, missingEvidenceReason := mr }) =
      Except.ok (some (rejectedSuggestion issueId
        { type := ty, signal := "duplicateBlocks", confidence := conf, evidence := ev,
          evidenceComplete := true, missingEvidenceReason := mr }
        (alistKeys (buildAllowedRanges
          { type := ty, signal := "duplicateBlocks", confidence := conf, evidence := ev,
            evidenceComplete := true, missingEvidenceReason := mr }))
        ((patchWithinEvidence patches (buildAllowedRanges
          { type := ty, signal := "duplicateBlocks", confidence := conf, evidence := ev,
            evidenceComplete := true, missingEvidenceReason := mr })).reason.getD
          "Patch rejected by evidence guard.")))
    simp only [attemptFixOnPrompt]
    rw [h5]
    dsimp only
    rw [h6]
    rfl
  · intro gen fs key ra issueId issue an e h1 h2 h3 h4
    obtain ⟨ty, sig, conf, ev, ec, mr⟩ := issue
    dsimp only at h1 h2 h3 h4
    subst h1
    subst h2
    simp only [attemptFix]
    rw [if_neg h3]
    rw [h4]
    rfl
  · intro gen fs key ra issueId issue an snips patchText patches e h1 h2 h3 h4 h5 h6 h7
    obtain ⟨ty, sig, conf, ev, ec, mr⟩ := issue
    dsimp only at h1 h2 h3 h4 h5 h6 h7
    subst h1
    subst h2
    simp only [attemptFix]
    rw [if_neg h3]
    rw [h4]
    show attemptFixOnPrompt gen fs ra issueId
        { type := ty, signal := "duplicateBlocks", confidence := conf, evidence := ev,
          evidenceComplete := true, missingEvidenceReason := mr } an
        (buildDuplicatePrompt
          { type := ty, signal := "duplicateBlocks", confidence := conf, evidence := ev,
            evidenceComplete := true, missingEvidenceReason := mr } snips)
        (selectDuplicateEvidence
          { type := ty, signal := "duplicateBlocks", confidence := conf, evidence := ev,
            evidenceComplete := true, missingEvidenceReason := mr }) =
      Except.error e
    simp only [attemptFixOnPrompt]
    rw [h5]
    dsimp only
    rw [h6]
    rw [h7]
    rfl
  · intro gen fs key ra an index issue rest e h
    simp only [runFixLoop, h]
    rfl
  · intro gen fs key ra an insights e h
    simp only [runFixItAgent, h]
    rfl
  · intro gen fs key ra an index issue rest sug h
    simp only [runFixLoop, h]
    cases hrec : runFixLoop gen fs key ra an (index + 1) rest with
    | error e2 => rfl
    | ok tail => cases sug <;> rfl

/-- C2 counterexample: the original claim is false — a patch-application
failure is not caught per-issue.  A generated diff with a trailing newline
parses and passes the scope guard, but its trailing empty hunk line makes
`applyPatchToContent` throw `Unexpected diff line.`, which escapes
`attemptFix` and aborts `runFixItAgent` instead of becoming a rejected
suggestion; the second (identical) issue is never processed, while the same
run with only a skippable issue completes. -/
theorem c2_fix_pipeline_error_policy_counterexample :
    attemptFix c2GenBad c2Fs (some "key") (fun _ => c2Analysis) 1 c2Issue c2Analysis
      = Except.error "Unexpected diff line." ∧
    runFixItAgent c2GenBad c2Fs (some "key") (fun _ => c2Analysis) c2Analysis
      { issues := [c2Issue, c2Issue] }
      = Except.error "Unexpected diff line." ∧
    (∃ r, runFixItAgent c2GenBad c2Fs (some "key") (fun _ => c2Analysis) c2Analysis
      { issues := [c2IssueIncomplete] } = Except.ok r) := by
  refine ⟨by rfl, by rfl, ⟨_, by rfl⟩⟩

/-- C2 witness: a failing generation call on a concrete `longFunctions` issue
and on a concrete `duplicateBlocks` issue becomes a rejected suggestion
carrying its message, and a concrete escaping application error aborts a
concrete fix loop. -/
theorem c2_fix_pipeline_error_policy_witness :
    attemptFix (fun _ => Except.error "Claude API error: 500") c2Fs (some "k")
        (fun _ => c2Analysis) 1 c2Issue c2Analysis =
      Except.ok (some (rejectedSuggestion 1 c2Issue
        (alistKeys (buildAllowedRanges c2Issue)) "Claude API error: 500")) ∧
    attemptFix (fun _ => Except.error "Claude API error: 500") c2Fs (some "k")
        (fun _ => c2Analysis) 2 c2DupIssue c2Analysis =
      Except.ok (some (rejectedSuggestion 2 c2DupIssue
        (alistKeys (buildAllowedRanges c2DupIssue)) "Claude API error: 500")) ∧
    runFixLoop c2GenBad c2Fs (some "key") (fun _ => c2Analysis) c2Analysis 0 [c2Issue] =
      Except.error "Unexpected diff line." := by
  refine ⟨?_, ?_, ?_⟩
  · exact (c2_fix_pipeline_error_policy).1 (fun _ => Except.error "Claude API error: 500")
      c2Fs "k" (fun _ => c2Analysis) 1 c2Issue c2Analysis _ "Claude API error: 500"
      rfl rfl (by decide) rfl rfl
  · exact (c2_fix_pipeline_error_policy).2.2.2.2.1
      (fun _ => Except.error "Claude API error: 500")
      c2Fs "k" (fun _ => c2Analysis) 2 c2DupIssue c2Analysis _ "Claude API error: 500"
      rfl rfl (by decide) rfl rfl
  · exact (c2_fix_pipeline_error_policy).2.2.2.2.2.2.2.2.1 c2GenBad c2Fs (some "key")
      (fun _ => c2Analysis) c2Analysis 0 c2Issue [] "Unexpected diff line." (by rfl)

theorem append_cons_inj (c : Char) :
    ∀ (as bs xs ys : List Char), c ∉ as → c ∉ bs →
      as ++ c :: xs = bs ++ c :: ys → as = bs ∧ xs = ys := by
  intro as
  induction as with
  | nil =>
    intro bs xs ys _ hb h
    cases bs with
    | nil =>
      simp only [List.nil_append] at h
      exact ⟨rfl, (List.cons.inj h).2⟩
    | cons b bs' =>
      simp only [List.nil_append, List.cons_append] at h
      exact absurd ((List.cons.inj h).1 ▸ List.mem_cons_self b bs') hb
  | cons a as' ih =>
    intro bs xs ys ha hb h
    cases bs with
    | nil =>
      simp only [List.cons_append, List.nil_append] at h
      exact absurd ((List.cons.inj h).1 ▸ List.mem_cons_self a as') ha
    | cons b bs' =>
      simp only [List.cons_append] at h
      obtain ⟨hab, h'⟩ := List.cons.inj h
      obtain ⟨h1, h2⟩ := ih bs' xs ys (fun hm => ha (List.mem_cons_of_mem a hm))
        (fun hm => hb (hab ▸ List.mem_cons_of_mem b hm)) h'
      exact ⟨by rw [hab, h1], h2⟩

theorem joinNL_single (a : List Char) : joinNL [a] = a := by
  simp [joinNL]

theorem joinNL_cons (a b : List Char) (t : List (List Char)) :
    joinNL (a :: b :: t) = a ++ '\n' :: joinNL (b :: t) := by
  simp [joinNL, List.intersperse]

theorem joinNL_inj : ∀ (L1 L2 : List (List Char)),
    (∀ l ∈ L1, l ≠ [] ∧ '\n' ∉ l) → (∀ l ∈ L2, l ≠ [] ∧ '\n' ∉ l) →
    joinNL L1 = joinNL L2 → L1 = L2 := by
  intro L1
  induction L1 with
  | nil =>
    intro L2 _ h2 h
    cases L2 with
    | nil => rfl
    | cons b u =>
      exfalso
      cases u with
      | nil =>
        rw [joinNL_single] at h
        exact (h2 b (List.mem_cons_self b [])).1 h.symm
      | cons c u' =>
        rw [joinNL_cons] at h
        cases b with
        | nil => exact (h2 [] (List.mem_cons_self [] _)).1 rfl
        | cons x xs => exact List.noConfusion h
  | cons a t ih =>
    intro L2 h1 h2 h
    cases L2 with
    | nil =>
      exfalso
      cases t with
      | nil =>
        rw [joinNL_single] at h
        exact (h1 a (List.mem_cons_self a [])).1 h
      | cons c t' =>
        rw [joinNL_cons] at h
        cases a with
        | nil => exact (h1 [] (List.mem_cons_self [] _)).1 rfl
        | cons x xs => exact List.noConfusion h
    | cons b u =>
      cases t with
      | nil =>
        cases u with
        | nil =>
          rw [joinNL_single, joinNL_single] at h
          rw [h]
        | cons d u' =>
          exfalso
          rw [joinNL_single, joinNL_cons] at h
          exact (h1 a (List.mem_cons_self a [])).2
            (h ▸ List.mem_append_right b (List.mem_cons_self '\n' _))
      | cons c t' =>
        cases u with
        | nil =>
          exfalso
          rw [joinNL_cons, joinNL_single] at h
          exact (h2 b (List.mem_cons_self b [])).2
            (h ▸ List.mem_append_right a (List.mem_cons_self '\n' _))
        | cons d u' =>
          rw [joinNL_cons, joinNL_cons] at h
          obtain ⟨hab, hrest⟩ := append_cons_inj '\n' a b _ _
            (h1 a (List.mem_cons_self a _)).2 (h2 b (List.mem_cons_self b _)).2 h
          have := ih (d :: u') (fun l hl => h1 l (List.mem_cons_of_mem a hl))
            (fun l hl => h2 l (List.mem_cons_of_mem b hl)) hrest
          rw [hab, this]

theorem toDigitsCore_eq_natDigits :
    ∀ (fuel n : Nat) (acc : List Char), n < fuel →
      Nat.toDigitsCore 10 fuel n acc = natDigits n ++ acc := by
  intro fuel
  induction fuel with
  | zero => intro n acc h; omega
  | succ fuel ih =>
    intro n acc h
    simp only [Nat.toDigitsCore]
    by_cases h0 : n / 10 = 0
    · rw [if_pos h0]
      have h10 : n < 10 := by omega
      rw [natDigits]
      rw [dif_pos h10]
      have : n % 10 = n := Nat.mod_eq_of_lt h10
      rw [this]
      rfl
    · rw [if_neg h0]
      have h10 : ¬ n < 10 := by
        intro hc
        exact h0 (Nat.div_eq_of_lt hc)
      have hlt : n / 10 < fuel := by
        have : n / 10 < n := Nat.div_lt_self (by omega) (by omega)
        omega
      rw [ih (n / 10) _ hlt]
      conv_rhs => rw [natDigits]
      rw [dif_neg h10]
      simp [List.append_assoc]

theorem toString_eq_natDigits (n : Nat) : toString n = String.mk (natDigits n) := by
  show Nat.repr n = _
  rw [Nat.repr]
  show (Nat.toDigitsCore 10 (n + 1) n []).asString = _
  rw [toDigitsCore_eq_natDigits (n + 1) n [] (by omega)]
  rw [List.append_nil]
  rfl

theorem digitVal_digitChar : ∀ m, m < 10 → digitVal (Nat.digitChar m) = m := by decide

theorem digitChar_ne_colon : ∀ m, m < 10 → Nat.digitChar m ≠ ':' := by decide

theorem digitChar_ne_nl : ∀ m, m < 10 → Nat.digitChar m ≠ '\n' := by decide

theorem natDigits_mem : ∀ (n : Nat), ∀ c ∈ natDigits n, ∃ m, m < 10 ∧ c = Nat.digitChar m := by
  intro n
  induction n using natDigits.induct with
  | case1 n h =>
    rw [natDigits, dif_pos h]
    intro c hc
    rw [List.mem_singleton] at hc
    exact ⟨n, h, hc⟩
  | case2 n h ih =>
    rw [natDigits, dif_neg h]
    intro c hc
    rcases List.mem_append.mp hc with hm | hm
    · exact ih c hm
    · rw [List.mem_singleton] at hm
      exact ⟨n % 10, Nat.mod_lt n (by omega), hm⟩

theorem natDigits_colon_free (n : Nat) : ':' ∉ natDigits n := by
  intro hc
  obtain ⟨m, hm, he⟩ := natDigits_mem n ':' hc
  exact digitChar_ne_colon m hm he.symm

theorem decode_natDigits :
    ∀ (n : Nat) (a : Nat),
      (natDigits n).foldl (fun acc c => acc * 10 + digitVal c) a =
        a * 10 ^ (natDigits n).length + n := by
  intro n
  induction n using natDigits.induct with
  | case1 n h =>
    intro a
    rw [natDigits, dif_pos h]
    simp only [List.foldl, List.length_singleton]
    rw [digitVal_digitChar n h]
    ring
  | case2 n h ih =>
    intro a
    rw [natDigits, dif_neg h]
    rw [List.foldl_append]
    rw [ih a]
    simp only [List.foldl, List.length_append, List.length_singleton]
    rw [digitVal_digitChar (n % 10) (Nat.mod_lt n (by omega))]
    have : n = 10 * (n / 10) + n % 10 := (Nat.div_add_mod n 10).symm
    rw [pow_succ]
    ring_nf
    omega

theorem natDigits_inj {m n : Nat} (h : natDigits m = natDigits n) : m = n := by
  have hm := decode_natDigits m 0
  rw [h] at hm
  rw [decode_natDigits n 0] at hm
  omega

theorem toString_nat_inj {m n : Nat} (h : toString m = toString n) : m = n := by
  rw [toString_eq_natDigits, toString_eq_natDigits] at h
  exact natDigits_inj (congrArg String.data h)

theorem toString_nat_colon_free (n : Nat) : ':' ∉ (toString n).toList := by
  rw [toString_eq_natDigits]
  exact natDigits_colon_free n

theorem strToList_append (a b : String) : (a ++ b).toList = a.toList ++ b.toList := by
  cases a
  cases b
  rfl

theorem strToList_inj {a b : String} (h : a.toList = b.toList) : a = b := by
  cases a
  cases b
  exact congrArg String.mk h

theorem occurrenceKey_inj (f1 f2 : String) (s1 e1 s2 e2 : Nat)
    (hf1 : ':' ∉ f1.toList) (hf2 : ':' ∉ f2.toList)
    (h : occurrenceKey f1 s1 e1 = occurrenceKey f2 s2 e2) :
    f1 = f2 ∧ s1 = s2 ∧ e1 = e2 := by
  have hl := congrArg String.toList h
  simp only [occurrenceKey, strToList_append, List.append_assoc] at hl
  have hcolon : (":" : String).toList = [':'] := rfl
  rw [hcolon] at hl
  simp only [List.singleton_append] at hl
  obtain ⟨hf, hrest⟩ := append_cons_inj ':' _ _ _ _ hf1 hf2 hl
  obtain ⟨hs, he⟩ := append_cons_inj ':' _ _ _ _
    (toString_nat_colon_free s1) (toString_nat_colon_free s2) hrest
  exact ⟨strToList_inj hf, toString_nat_inj (strToList_inj hs),
    toString_nat_inj (strToList_inj he)⟩

theorem alistGet_mem {β : Type} {m : List (String × β)} {k : String} {v : β}
    (h : alistGet m k = some v) : (k, v) ∈ m := by
  unfold alistGet at h
  cases hf : m.find? (fun p => p.fst == k) with
  | none => rw [hf] at h; exact Option.noConfusion h
  | some p =>
    rw [hf] at h
    have hm := List.mem_of_find?_eq_some hf
    have hp := List.find?_some hf
    rw [Option.map_some'] at h
    rw [Option.some.injEq] at h
    have : p.fst = k := by
      have := of_decide_eq_true hp
      exact of_decide_eq_true hp
    rw [← this, ← h]
    exact hm

theorem alistGet_eq_none {β : Type} {m : List (String × β)} {k : String} :
    alistGet m k = none ↔ ∀ p ∈ m, p.fst ≠ k := by
  unfold alistGet
  rw [Option.map_eq_none']
  rw [List.find?_eq_none]
  constructor
  · intro h p hp he
    have hk : (p.fst == k) = true := by rw [he]; exact beq_self_eq_true k
    exact (h p hp) hk
  · intro h p hp
    simpa using h p hp

theorem alistSet_absent {β : Type} {m : List (String × β)} {k : String} (v : β)
    (h : alistGet m k = none) : alistSet m k v = m ++ [(k, v)] := by
  induction m with
  | nil => rfl
  | cons p rest ih =>
    have hne := (alistGet_eq_none.mp h) p (List.mem_cons_self p rest)
    unfold alistSet
    rw [if_neg (by simpa using hne)]
    rw [List.cons_append]
    congr 1
    apply ih
    rw [alistGet_eq_none]
    intro q hq
    exact (alistGet_eq_none.mp h) q (List.mem_cons_of_mem p hq)

theorem alistSet_subset {β : Type} {m : List (String × β)} {k : String} {v : β} :
    ∀ p ∈ alistSet m k v, p = (k, v) ∨ p ∈ m := by
  induction m with
  | nil =>
    intro p hp
    rw [alistSet] at hp
    rw [List.mem_singleton] at hp
    exact Or.inl hp
  | cons q rest ih =>
    intro p hp
    rw [alistSet] at hp
    by_cases hk : q.fst == k
    · rw [if_pos hk] at hp
      rcases List.mem_cons.mp hp with h | h
      · left
        rw [h]
        have : q.fst = k := by simpa using hk
        rw [this]
      · exact Or.inr (List.mem_cons_of_mem q h)
    · rw [if_neg hk] at hp
      rcases List.mem_cons.mp hp with h | h
      · exact Or.inr (h ▸ List.mem_cons_self q rest)
      · rcases ih p h with h' | h'
        · exact Or.inl h'
        · exact Or.inr (List.mem_cons_of_mem q h')

theorem buildFileIndex_eq (files : List NormalizedFile)
    (hnd : (files.map NormalizedFile.path).Nodup) :
    buildFileIndex files = files.map (fun f => (f.path, f)) := by
  unfold buildFileIndex
  suffices h : ∀ (fs : List NormalizedFile) (acc : List (String × NormalizedFile)),
      (∀ f ∈ fs, ∀ p ∈ acc, p.fst ≠ f.path) → (fs.map NormalizedFile.path).Nodup →
      fs.foldl (fun m f => alistSet m f.path f) acc = acc ++ fs.map (fun f => (f.path, f)) by
    simpa using h files [] (by simp) hnd
  intro fs
  induction fs with
  | nil => intro acc _ _; simp
  | cons f fs' ih =>
    intro acc hfresh hnd'
    rw [List.map_cons, List.nodup_cons] at hnd'
    rw [List.foldl_cons]
    rw [alistSet_absent f (alistGet_eq_none.mpr
      (fun p hp => hfresh f (List.mem_cons_self f fs') p hp))]
    rw [ih (acc ++ [(f.path, f)]) ?_ hnd'.2]
    · simp [List.append_assoc]
    · intro g hg p hp hpe
      rcases List.mem_append.mp hp with h | h
      · exact hfresh g (List.mem_cons_of_mem f hg) p h hpe
      · rw [List.mem_singleton] at h
        rw [h] at hpe
        have hpe' : f.path = g.path := hpe
        have hmem : f.path ∈ List.map NormalizedFile.path fs' := by
          rw [hpe']
          exact List.mem_map_of_mem NormalizedFile.path hg
        exact hnd'.1 hmem

theorem alistGet_map_path (files : List NormalizedFile)
    (hnd : (files.map NormalizedFile.path).Nodup) :
    ∀ f ∈ files, alistGet (files.map (fun g => (g.path, g))) f.path = some f := by
  induction files with
  | nil => intro f hf; exact absurd hf (List.not_mem_nil f)
  | cons g gs ih =>
    intro f hf
    rw [List.map_cons, List.nodup_cons] at hnd
    rcases List.mem_cons.mp hf with h | h
    · rw [h]
      unfold alistGet
      rw [List.map_cons, List.find?_cons_of_pos _ (by simp)]
      rfl
    · have hne : g.path ≠ f.path := by
        intro he
        exact hnd.1 (he ▸ List.mem_map_of_mem NormalizedFile.path h)
      unfold alistGet
      rw [List.map_cons, List.find?_cons_of_neg _ (by simpa using hne)]
      exact ih hnd.2 f h

theorem alistGet_buildFileIndex {files : List NormalizedFile}
    (hnd : (files.map NormalizedFile.path).Nodup) {p : String} {f : NormalizedFile}
    (h : alistGet (buildFileIndex files) p = some f) : f ∈ files ∧ f.path = p := by
  rw [buildFileIndex_eq files hnd] at h
  have := alistGet_mem h
  rw [List.mem_map] at this
  obtain ⟨g, hg, he⟩ := this
  rw [Prod.mk.injEq] at he
  exact ⟨he.2 ▸ hg, by rw [← he.2, he.1]⟩

theorem idxOfLine_get {l : List Nat} (hp : List.Pairwise (· < ·) l) :
    ∀ (i : Nat) (v : Nat), l.get? i = some v → idxOfLine l v = some i := by
  induction l with
  | nil => intro i v h; rw [List.get?_eq_none.mpr (by simp)] at h; exact Option.noConfusion h
  | cons x xs ih =>
    intro i v h
    rw [List.pairwise_cons] at hp
    cases i with
    | zero =>
      rw [List.get?_cons_zero, Option.some.injEq] at h
      rw [idxOfLine, if_pos h]
    | succ i' =>
      rw [List.get?_cons_succ] at h
      have hv : v ∈ xs := List.get?_mem h
      have hlt : x < v := hp.1 v hv
      rw [idxOfLine, if_neg (by omega)]
      rw [ih hp.2 i' v h]
      rfl

theorem foldl_inv {α β : Type} (Inv : β → Prop) (f : β → α → β) :
    ∀ (l : List α) (b : β), Inv b → (∀ a ∈ l, ∀ b', Inv b' → Inv (f b' a)) →
      Inv (l.foldl f b) := by
  intro l
  induction l with
  | nil => intro b hb _; exact hb
  | cons a t ih =>
    intro b hb hstep
    rw [List.foldl_cons]
    exact ih (f b a) (hstep a (List.mem_cons_self a t) b hb)
      (fun x hx b' hb' => hstep x (List.mem_cons_of_mem a hx) b' hb')

theorem grouped_step_inv (files : List NormalizedFile)
    (m : List (String × List DuplicateCandidate)) (key : String) (x : DuplicateCandidate)
    (hm : ∀ p ∈ m, ∀ y ∈ p.snd, goodCand files p.fst y)
    (hx : goodCand files key x) :
    ∀ p ∈ alistSet m key ((alistGet m key).getD [] ++ [x]),
      ∀ y ∈ p.snd, goodCand files p.fst y := by
  intro p hp y hy
  rcases alistSet_subset p hp with h | h
  · rw [h] at hy ⊢
    rcases List.mem_append.mp hy with h' | h'
    · cases hg : alistGet m key with
      | none => rw [hg] at h'; exact absurd h' (List.not_mem_nil y)
      | some old =>
        rw [hg] at h'
        exact hm (key, old) (alistGet_mem hg) y h'
    · rw [List.mem_singleton] at h'
      rw [h']
      exact hx
  · exact hm p h y hy

theorem buildCandidates_inv (files : List NormalizedFile) :
    ∀ p ∈ buildCandidates files, ∀ y ∈ p.snd, goodCand files p.fst y := by
  unfold buildCandidates
  refine foldl_inv (fun (m : List (String × List DuplicateCandidate)) =>
    ∀ p ∈ m, ∀ y ∈ p.snd, goodCand files p.fst y) _ files [] ?_ ?_
  · intro p hp
    exact absurd hp (List.not_mem_nil p)
  · intro f hf m hm
    by_cases hlen : f.normalizedLines.length < DUPLICATE_MIN_LINES
    · rw [if_pos hlen]
      exact hm
    · rw [if_neg hlen]
      refine foldl_inv (fun (m : List (String × List DuplicateCandidate)) =>
          ∀ p ∈ m, ∀ y ∈ p.snd, goodCand files p.fst y) _
        (List.range (f.normalizedLines.length - DUPLICATE_MIN_LINES + 1)) m hm ?_
      intro start hstart m' hm'
      apply grouped_step_inv files m' _ _ hm'
      rw [List.mem_range] at hstart
      exact ⟨f, hf, rfl, by dsimp only; omega, rfl⟩

theorem extendLoop_spec (fi : List (String × NormalizedFile))
    (occs : List DuplicateCandidate) (bf : NormalizedFile) (bs : Nat) :
    ∀ (fuel offset : Nat),
      offset ≤ extendLoop fi occs bf bs fuel offset offset ∧
      extendLoop fi occs bf bs fuel offset offset ≤ offset + fuel ∧
      (∀ j, offset ≤ j → j < extendLoop fi occs bf bs fuel offset offset →
        ∃ e, bf.normalizedLines.get? (bs + j) = some e ∧
          ∀ occ ∈ occs, occAt fi occ j = some e) ∧
      (extendLoop fi occs bf bs fuel offset offset < offset + fuel →
        bf.normalizedLines.get? (bs + extendLoop fi occs bf bs fuel offset offset) = none ∨
        ∃ e, bf.normalizedLines.get? (bs + extendLoop fi occs bf bs fuel offset offset)
            = some e ∧
          ∃ occ ∈ occs, occAt fi occ (extendLoop fi occs bf bs fuel offset offset)
            ≠ some e) := by
  intro fuel
  induction fuel with
  | zero =>
    intro offset
    have hz : extendLoop fi occs bf bs 0 offset offset = offset := rfl
    rw [hz]
    refine ⟨Nat.le_refl _, by omega, ?_, ?_⟩
    · intro j h1 h2
      omega
    · intro h
      omega
  | succ fuel ih =>
    intro offset
    rw [extendLoop]
    cases hget : bf.normalizedLines.get? (bs + offset) with
    | none =>
      dsimp only
      refine ⟨Nat.le_refl _, by omega, ?_, ?_⟩
      · intro j h1 h2
        omega
      · intro _
        exact Or.inl hget
    | some expected =>
      dsimp only
      by_cases hall : (occs.all fun occ =>
          match alistGet fi occ.file with
          | none => false
          | some f =>
            match f.normalizedLines.get? (occ.startIndex + offset) with
            | none => false
            | some l => l == expected) = true
      · rw [if_pos hall]
        obtain ⟨ih1, ih2, ih3, ih4⟩ := ih (offset + 1)
        refine ⟨by omega, by omega, ?_, ?_⟩
        · intro j h1 h2
          by_cases hj : j = offset
          · subst hj
            refine ⟨expected, hget, ?_⟩
            intro occ hocc
            have := List.all_eq_true.mp hall occ hocc
            unfold occAt
            cases halist : alistGet fi occ.file with
            | none => rw [halist] at this; exact absurd this (by simp)
            | some f =>
              rw [halist] at this
              dsimp only
              dsimp only at this
              cases hg2 : f.normalizedLines.get? (occ.startIndex + j) with
              | none => rw [hg2] at this; exact absurd this (by simp)
              | some l =>
                rw [hg2] at this
                rw [Option.some.injEq]
                exact eq_of_beq this
          · exact ih3 j (by omega) h2
        · intro h
          exact ih4 (by omega)
      · rw [if_neg hall]
        refine ⟨Nat.le_refl _, by omega, ?_, ?_⟩
        · intro j h1 h2
          omega
        · intro _
          right
          refine ⟨expected, hget, ?_⟩
          rw [List.all_eq_true] at hall
          push_neg at hall
          obtain ⟨occ, hocc, hfail⟩ := hall
          refine ⟨occ, hocc, ?_⟩
          unfold occAt
          cases halist : alistGet fi occ.file with
          | none => simp
          | some f =>
            rw [halist] at hfail
            dsimp only
            dsimp only at hfail
            cases hg2 : f.normalizedLines.get? (occ.startIndex + offset) with
            | none => simp
            | some l =>
              rw [hg2] at hfail
              intro hc
              rw [Option.some.injEq] at hc
              exact hfail (by rw [hc]; exact beq_self_eq_true expected)

theorem files_path_inj {files : List NormalizedFile}
    (hnd : (files.map NormalizedFile.path).Nodup) :
    ∀ f1 ∈ files, ∀ f2 ∈ files, f1.path = f2.path → f1 = f2 := by
  induction files with
  | nil => intro f1 h1; exact absurd h1 (List.not_mem_nil f1)
  | cons g gs ih =>
    rw [List.map_cons, List.nodup_cons] at hnd
    intro f1 h1 f2 h2 he
    rcases List.mem_cons.mp h1 with h1' | h1' <;> rcases List.mem_cons.mp h2 with h2' | h2'
    · rw [h1', h2']
    · exfalso
      apply hnd.1
      have hgp : g.path = f2.path := by rw [← h1', he]
      rw [hgp]
      exact List.mem_map_of_mem NormalizedFile.path h2'
    · exfalso
      apply hnd.1
      have hgp : g.path = f1.path := by rw [← h2', ← he]
      rw [hgp]
      exact List.mem_map_of_mem NormalizedFile.path h1'
    · exact ih hnd.2 f1 h1' f2 h2' he

theorem lineNumbers_get_inj {l : List Nat} (hp : List.Pairwise (· < ·) l)
    {i j v : Nat} (hi : l.get? i = some v) (hj : l.get? j = some v) : i = j := by
  have h1 := idxOfLine_get hp i v hi
  have h2 := idxOfLine_get hp j v hj
  rw [h1] at h2
  exact Option.some.inj h2

theorem nextNormLine_eq {files : List NormalizedFile}
    (hnd : (files.map NormalizedFile.path).Nodup)
    (hpw : ∀ f ∈ files, List.Pairwise (· < ·) f.lineNumbers)
    {f : NormalizedFile} {si len : Nat} {o : DuplicateOccurrence}
    (hf : f ∈ files) (hfile : o.file = f.path)
    (hsl : f.lineNumbers.get? si = some o.startLine) :
    nextNormLine files o len = f.normalizedLines.get? (si + len) := by
  unfold nextNormLine
  rw [hfile, buildFileIndex_eq files hnd, alistGet_map_path files hnd f hf]
  dsimp only
  rw [idxOfLine_get (hpw f hf) si o.startLine hsl]

theorem map_toList_inj : ∀ {L1 L2 : List String},
    L1.map String.toList = L2.map String.toList → L1 = L2 := by
  intro L1
  induction L1 with
  | nil =>
    intro L2 h
    cases L2 with
    | nil => rfl
    | cons b u => exact List.noConfusion h
  | cons a t ih =>
    intro L2 h
    cases L2 with
    | nil => exact List.noConfusion h
    | cons b u =>
      rw [List.map_cons, List.map_cons] at h
      obtain ⟨hh, ht⟩ := List.cons.inj h
      rw [strToList_inj hh, ih ht]

theorem strIntercalate_inj {L1 L2 : List String}
    (h1 : ∀ l ∈ L1, l.toList ≠ [] ∧ '\n' ∉ l.toList)
    (h2 : ∀ l ∈ L2, l.toList ≠ [] ∧ '\n' ∉ l.toList)
    (h : strIntercalate "\n" L1 = strIntercalate "\n" L2) : L1 = L2 := by
  have hj : joinNL (L1.map String.toList) = joinNL (L2.map String.toList) := by
    have := congrArg String.data h
    exact this
  have hmap := joinNL_inj (L1.map String.toList) (L2.map String.toList)
    (by
      intro l hl
      rw [List.mem_map] at hl
      obtain ⟨x, hx, he⟩ := hl
      rw [← he]
      exact h1 x hx)
    (by
      intro l hl
      rw [List.mem_map] at hl
      obtain ⟨x, hx, he⟩ := hl
      rw [← he]
      exact h2 x hx)
    hj
  exact map_toList_inj hmap

theorem addOccurrence_mono (fi : List (String × NormalizedFile)) (len : Nat)
    (e : DupEntry) (occ : DuplicateCandidate) :
    (addOccurrence fi len e occ).block.length = e.block.length ∧
    ∃ Δ, (addOccurrence fi len e occ).block.occurrences = e.block.occurrences ++ Δ := by
  unfold addOccurrence
  split
  · exact ⟨rfl, [], by simp⟩
  · split
    · exact ⟨rfl, [], by simp⟩
    · dsimp only
      split
      · split
        · exact ⟨rfl, [], by simp⟩
        · exact ⟨rfl, _, rfl⟩
      · exact ⟨rfl, [], by simp⟩

theorem foldl_addOccurrence_mono (fi : List (String × NormalizedFile)) (len : Nat) :
    ∀ (g : List DuplicateCandidate) (e : DupEntry),
      (g.foldl (addOccurrence fi len) e).block.length = e.block.length ∧
      ∃ Δ, (g.foldl (addOccurrence fi len) e).block.occurrences =
        e.block.occurrences ++ Δ := by
  intro g
  induction g with
  | nil => intro e; exact ⟨rfl, [], by simp⟩
  | cons occ g' ih =>
    intro e
    rw [List.foldl_cons]
    obtain ⟨hl1, Δ1, hΔ1⟩ := addOccurrence_mono fi len e occ
    obtain ⟨hl2, Δ2, hΔ2⟩ := ih (addOccurrence fi len e occ)
    refine ⟨by rw [hl2, hl1], Δ1 ++ Δ2, ?_⟩
    rw [hΔ2, hΔ1, List.append_assoc]

theorem alistGet_fileIndex_of_path {files : List NormalizedFile}
    (hnd : (files.map NormalizedFile.path).Nodup) {f : NormalizedFile} {p : String}
    (hf : f ∈ files) (hp : p = f.path) :
    alistGet (buildFileIndex files) p = some f := by
  rw [hp, buildFileIndex_eq files hnd]
  exact alistGet_map_path files hnd f hf

theorem addOccurrence_char (files : List NormalizedFile)
    (hln : ∀ f ∈ files, f.lineNumbers.length = f.normalizedLines.length)
    (hnd : (files.map NormalizedFile.path).Nodup)
    {len : Nat} {KL : List String} (hlen1 : 1 ≤ len)
    (e : DupEntry) (occ : DuplicateCandidate)
    (hg : goodOccL files len KL occ) :
    ∃ (o : DuplicateOccurrence) (f : NormalizedFile), f ∈ files ∧
      o.file = occ.file ∧ occ.file = f.path ∧
      f.lineNumbers.get? occ.startIndex = some o.startLine ∧
      occPos files len KL o ∧
      ((e.occurrenceKeys.contains (occKeyOf o) = true ∧
        addOccurrence (buildFileIndex files) len e occ = e) ∨
       (addOccurrence (buildFileIndex files) len e occ =
         ⟨{ e.block with occurrences := e.block.occurrences ++ [o] },
          e.occurrenceKeys ++ [occKeyOf o]⟩)) := by
  obtain ⟨f, hf, hfile, hbound, hwin⟩ := hg
  have hfl := hln f hf
  have hsi : occ.startIndex < f.lineNumbers.length := by omega
  have hend : occ.startIndex + len - 1 < f.lineNumbers.length := by omega
  have halist : alistGet (buildFileIndex files) occ.file = some f :=
    alistGet_fileIndex_of_path hnd hf hfile
  have hsl : f.lineNumbers.get? occ.startIndex =
      some (f.lineNumbers.get ⟨occ.startIndex, hsi⟩) := List.get?_eq_get hsi
  refine ⟨{ file := occ.file,
            startLine := f.lineNumbers.get ⟨occ.startIndex, hsi⟩,
            endLine := f.lineNumbers.get ⟨occ.startIndex + len - 1, hend⟩ },
          f, hf, rfl, hfile, hsl, ?_, ?_⟩
  · exact ⟨f, hf, occ.startIndex, hfile, hsl, hbound, hwin⟩
  · unfold addOccurrence
    rw [halist]
    dsimp only
    rw [hsl]
    dsimp only
    rw [dif_pos hend]
    by_cases hc : e.occurrenceKeys.contains
        (occurrenceKey occ.file (f.lineNumbers.get ⟨occ.startIndex, hsi⟩)
          (f.lineNumbers.get ⟨occ.startIndex + len - 1, hend⟩)) = true
    · rw [if_pos hc]
      exact Or.inl ⟨hc, rfl⟩
    · rw [if_neg hc]
      exact Or.inr rfl

theorem occAt_eq {files : List NormalizedFile}
    (hnd : (files.map NormalizedFile.path).Nodup)
    {f : NormalizedFile} {occ : DuplicateCandidate} {j : Nat}
    (hf : f ∈ files) (hfile : occ.file = f.path) :
    occAt (buildFileIndex files) occ j = f.normalizedLines.get? (occ.startIndex + j) := by
  unfold occAt
  rw [alistGet_fileIndex_of_path hnd hf hfile]

theorem fold_add_main (files : List NormalizedFile)
    (hln : ∀ f ∈ files, f.lineNumbers.length = f.normalizedLines.length)
    (hnd : (files.map NormalizedFile.path).Nodup)
    (hpw : ∀ f ∈ files, List.Pairwise (· < ·) f.lineNumbers)
    (hcolon : ∀ f ∈ files, ':' ∉ f.path.toList)
    {len : Nat} {KL : List String} (hlen1 : 1 ≤ len) :
    ∀ (g : List DuplicateCandidate) (e : DupEntry),
      (∀ occ ∈ g, goodOccL files len KL occ) →
      entryOk files len KL e →
      entryOk files len KL (g.foldl (addOccurrence (buildFileIndex files) len) e) ∧
      (∀ occ ∈ g,
        ∃ o ∈ (g.foldl (addOccurrence (buildFileIndex files) len) e).block.occurrences,
          nextNormLine files o len = occAt (buildFileIndex files) occ len) := by
  intro g
  induction g with
  | nil =>
    intro e _ hOk
    exact ⟨hOk, fun occ hocc => absurd hocc (List.not_mem_nil occ)⟩
  | cons occ g' ih =>
    intro e hgood hOk
    have hgocc := hgood occ (List.mem_cons_self occ g')
    obtain ⟨o, f, hf, hofile, hfilef, hsl, hoccPos, hcase⟩ :=
      addOccurrence_char files hln hnd hlen1 e occ hgocc
    have hnext_o : nextNormLine files o len = occAt (buildFileIndex files) occ len := by
      rw [occAt_eq hnd hf hfilef]
      exact nextNormLine_eq hnd hpw hf (hofile.trans hfilef) hsl
    rw [List.foldl_cons]
    rcases hcase with ⟨hc, heq⟩ | heq
    · rw [heq]
      obtain ⟨hOk', hm2'⟩ := ih e (fun x hx => hgood x (List.mem_cons_of_mem occ hx)) hOk
      refine ⟨hOk', ?_⟩
      intro x hx
      rcases List.mem_cons.mp hx with hx' | hx'
      · rw [hx']
        have hkmem : occKeyOf o ∈ e.occurrenceKeys := by
          rw [← List.elem_iff]
          exact hc
        rw [hOk.2.2] at hkmem
        rw [List.mem_map] at hkmem
        obtain ⟨o1, ho1, hkey⟩ := hkmem
        obtain ⟨f1, hf1, si1, ho1file, ho1sl, ho1bound, ho1win⟩ := hOk.2.1 o1 ho1
        obtain ⟨hfeq, hsleq, _⟩ := occurrenceKey_inj o1.file o.file o1.startLine o1.endLine
          o.startLine o.endLine
          (by rw [ho1file]; exact hcolon f1 hf1)
          (by rw [hofile.trans hfilef]; exact hcolon f hf)
          hkey
        have hff : f1 = f := files_path_inj hnd f1 hf1 f hf
          (by rw [← ho1file, hfeq, hofile, hfilef])
        rw [hff] at ho1sl ho1file
        have hsi1 : si1 = occ.startIndex := by
          apply lineNumbers_get_inj (hpw f hf) ho1sl
          rw [← hsleq] at hsl
          exact hsl
        obtain ⟨hl2, Δ, hΔ⟩ := foldl_addOccurrence_mono (buildFileIndex files) len g' e
        refine ⟨o1, by rw [hΔ]; exact List.mem_append_left Δ ho1, ?_⟩
        rw [nextNormLine_eq hnd hpw hf ho1file ho1sl, hsi1]
        rw [occAt_eq hnd hf hfilef]
      · exact hm2' x hx' 
    · rw [heq]
      have hOk' : entryOk files len KL
          ⟨{ e.block with occurrences := e.block.occurrences ++ [o] },
           e.occurrenceKeys ++ [occKeyOf o]⟩ := by
        refine ⟨hOk.1, ?_, ?_⟩
        · intro x hx
          rcases List.mem_append.mp hx with hx' | hx'
          · exact hOk.2.1 x hx'
          · rw [List.mem_singleton] at hx'
            rw [hx']
            exact hoccPos
        · dsimp only
          rw [List.map_append, hOk.2.2]
          rfl
      obtain ⟨hOk'', hm2'⟩ := ih _ (fun x hx => hgood x (List.mem_cons_of_mem occ hx)) hOk'
      refine ⟨hOk'', ?_⟩
      intro x hx
      rcases List.mem_cons.mp hx with hx' | hx'
      · rw [hx']
        obtain ⟨hl2, Δ, hΔ⟩ := foldl_addOccurrence_mono (buildFileIndex files) len g'
          ⟨{ e.block with occurrences := e.block.occurrences ++ [o] },
           e.occurrenceKeys ++ [occKeyOf o]⟩
        refine ⟨o, ?_, hnext_o⟩
        rw [hΔ]
        apply List.mem_append_left
        exact List.mem_append_right _ (List.mem_singleton.mpr rfl)
      · exact hm2' x hx'

theorem window_eq_of_pointwise {A B : List String} {si bs len : Nat}
    (hA : si + len ≤ A.length) (hB : bs + len ≤ B.length)
    (h : ∀ j, j < len → A.get? (si + j) = B.get? (bs + j)) :
    (A.drop si).take len = (B.drop bs).take len := by
  apply List.ext_get?
  intro j
  by_cases hj : j < len
  · rw [List.get?_take hj, List.get?_take hj, List.get?_drop, List.get?_drop]
    exact h j hj
  · rw [List.get?_eq_none.mpr, List.get?_eq_none.mpr]
    · rw [List.length_take, List.length_drop]
      omega
    · rw [List.length_take, List.length_drop]
      omega

theorem processGroup_inv (files : List NormalizedFile)
    (hln : ∀ f ∈ files, f.lineNumbers.length = f.normalizedLines.length)
    (hpw : ∀ f ∈ files, List.Pairwise (· < ·) f.lineNumbers)
    (hnd : (files.map NormalizedFile.path).Nodup)
    (hlines : ∀ f ∈ files, ∀ l ∈ f.normalizedLines, l.toList ≠ [] ∧ '\n' ∉ l.toList)
    (hcolon : ∀ f ∈ files, ':' ∉ f.path.toList)
    (dmap : List (String × DupEntry)) (blockKey : String)
    (occs : List DuplicateCandidate)
    (hcand : ∀ occ ∈ occs, goodCand files blockKey occ)
    (hdmap : ∀ p ∈ dmap, entryInv files p.fst p.snd) :
    ∀ p ∈ processGroup (buildFileIndex files) dmap blockKey occs,
      entryInv files p.fst p.snd := by
  by_cases hn : occs.length < DUPLICATE_MIN_OCCURRENCES
  · unfold processGroup
    rw [if_pos hn]
    exact hdmap
  cases occs with
  | nil =>
    unfold processGroup
    rw [if_neg hn]
    exact hdmap
  | cons baseline rest =>
    cases hbf : alistGet (buildFileIndex files) baseline.file with
    | none =>
      unfold processGroup
      rw [if_neg hn]
      dsimp only
      rw [hbf]
      exact hdmap
    | some bf =>
      obtain ⟨hbfmem, hbfpath⟩ := alistGet_buildFileIndex hnd hbf
      have hd10 : DUPLICATE_MIN_LINES = 10 := rfl
      have hd50 : DUPLICATE_MAX_LINES = 50 := rfl
      obtain ⟨E1, E2, E3, E4⟩ := extendLoop_spec (buildFileIndex files) (baseline :: rest)
        bf baseline.startIndex (DUPLICATE_MAX_LINES - DUPLICATE_MIN_LINES)
        DUPLICATE_MIN_LINES
      set len := extendLoop (buildFileIndex files) (baseline :: rest) bf baseline.startIndex
        (DUPLICATE_MAX_LINES - DUPLICATE_MIN_LINES) DUPLICATE_MIN_LINES DUPLICATE_MIN_LINES
        with hlendef
      set KL := (bf.normalizedLines.drop baseline.startIndex).take len with hKLdef
      set EXK := strIntercalate "\n" KL with hEXKdef
      set entry0 := (alistGet dmap EXK).getD
        ⟨⟨hashString EXK, len, []⟩, []⟩ with hentry0
      set E' := (baseline :: rest).foldl
        (addOccurrence (buildFileIndex files) len) entry0 with hE'def
      have hpg : processGroup (buildFileIndex files) dmap blockKey (baseline :: rest) =
          alistSet dmap EXK E' := by
        unfold processGroup
        rw [if_neg hn]
        dsimp only
        rw [hbf]
      rw [hpg]
      -- facts about the baseline file and window
      obtain ⟨fb, hfb, hfilefb, hb10, hwin10b⟩ := hcand baseline (List.mem_cons_self baseline rest)
      have hfbbf : fb = bf := files_path_inj hnd fb hfb bf hbfmem (by rw [← hfilefb, hbfpath])
      rw [hfbbf] at hb10 hwin10b
      have hbound : baseline.startIndex + len ≤ bf.normalizedLines.length := by
        rcases Nat.eq_or_lt_of_le E1 with h10 | h10
        · omega
        · obtain ⟨e, he, _⟩ := E3 (len - 1) (by omega) (by omega)
          obtain ⟨hlt, _⟩ := List.get?_eq_some.mp he
          omega
      have hKLlen : KL.length = len := by
        rw [hKLdef, List.length_take, List.length_drop]
        omega
      have hKLwf : ∀ l ∈ KL, l.toList ≠ [] ∧ '\n' ∉ l.toList := by
        intro l hl
        rw [hKLdef] at hl
        exact hlines bf hbfmem l (List.mem_of_mem_drop (List.mem_of_mem_take hl))
      -- every candidate of the group carries the full extended window
      have hgoodL : ∀ occ ∈ baseline :: rest, goodOccL files len KL occ := by
        intro occ hocc
        obtain ⟨f, hf, hfilef, h10, hwin10⟩ := hcand occ hocc
        have hw10eq : (f.normalizedLines.drop occ.startIndex).take DUPLICATE_MIN_LINES =
            (bf.normalizedLines.drop baseline.startIndex).take DUPLICATE_MIN_LINES := by
          apply strIntercalate_inj
          · intro l hl
            exact hlines f hf l (List.mem_of_mem_drop (List.mem_of_mem_take hl))
          · intro l hl
            exact hlines bf hbfmem l (List.mem_of_mem_drop (List.mem_of_mem_take hl))
          · rw [hwin10, hwin10b]
        have hoccbound : occ.startIndex + len ≤ f.normalizedLines.length := by
          rcases Nat.eq_or_lt_of_le E1 with h10' | h10'
          · omega
          · obtain ⟨e, he, hall⟩ := E3 (len - 1) (by omega) (by omega)
            have := hall occ hocc
            rw [occAt_eq hnd hf hfilef] at this
            obtain ⟨hlt, _⟩ := List.get?_eq_some.mp this
            omega
        refine ⟨f, hf, hfilef, hoccbound, ?_⟩
        rw [hKLdef]
        apply window_eq_of_pointwise hoccbound hbound
        intro j hj
        by_cases hj10 : j < DUPLICATE_MIN_LINES
        · have := congrArg (fun l => List.get? l j) hw10eq
          dsimp only at this
          rw [List.get?_take hj10, List.get?_take hj10, List.get?_drop, List.get?_drop]
            at this
          exact this
        · obtain ⟨e, he, hall⟩ := E3 j (by omega) hj
          have h1 := hall occ hocc
          rw [occAt_eq hnd hf hfilef] at h1
          rw [h1, he]
      -- the start entry satisfies the structural invariant
      have hOk0 : entryOk files len KL entry0 ∧
          DUPLICATE_MIN_LINES ≤ entry0.block.length := by
        rw [hentry0]
        cases halistd : alistGet dmap EXK with
        | none =>
          refine ⟨⟨rfl, ?_, rfl⟩, by rw [Option.getD_none]; exact E1⟩
          intro o ho
          exact absurd ho (List.not_mem_nil o)
        | some old =>
          obtain ⟨KLold, hkeyold, hKLoldwf, hmin, hmax, hOkOld, hBlkOld⟩ :=
            hdmap (EXK, old) (alistGet_mem halistd)
          have hKLeq : KLold = KL := by
            apply strIntercalate_inj hKLoldwf hKLwf
            rw [← hkeyold, hEXKdef]
          rw [hKLeq] at hOkOld
          rw [Option.getD_some]
          refine ⟨?_, ?_⟩
          · rw [show len = KL.length from hKLlen.symm]
            exact hOkOld
          · exact hmin
      -- run the accumulation
      obtain ⟨hOkF, hm2⟩ := fold_add_main files hln hnd hpw hcolon (by omega)
        (baseline :: rest) entry0 hgoodL hOk0.1
      rw [← hE'def] at hOkF hm2
      -- final length
      have hElen : E'.block.length = len := hOkF.1
      -- assemble the invariant of the touched binding
      intro p hp
      rcases alistSet_subset p hp with hpe | hpe
      · rw [hpe]
        refine ⟨KL, hEXKdef, hKLwf, ?_, ?_, ?_, ?_⟩
        · rw [hElen]; exact E1
        · rw [hElen]; exact E2
        · rw [show KL.length = len from hKLlen]
          exact hOkF
        · -- blocked: the loop break yields a blocker among the final occurrences
          intro hlt50
          rw [hElen] at hlt50
          have hbreak := E4 (by omega)
          rcases hbreak with hnone | ⟨e, hsome, occ1, hocc1, hne⟩
          · left
            obtain ⟨o, ho, hno⟩ := hm2 baseline (List.mem_cons_self baseline rest)
            refine ⟨o, ho, ?_⟩
            rw [hElen, hno, occAt_eq hnd hbfmem hbfpath.symm, hnone]
          · right
            obtain ⟨o1, ho1, hno1⟩ := hm2 baseline (List.mem_cons_self baseline rest)
            obtain ⟨o2, ho2, hno2⟩ := hm2 occ1 hocc1
            refine ⟨o1, ho1, o2, ho2, ?_⟩
            rw [hElen, hno1, hno2, occAt_eq hnd hbfmem hbfpath.symm, hsome]
            intro hc
            exact hne (by rw [← hc])
      · exact hdmap p hpe

/-- C6 (amended): duplicate detection is extension-maximal below the
`DUPLICATE_MAX_LINES` cap.  For well-formed analyzer outputs (per file,
`lineNumbers` strictly increasing and aligned with `normalizedLines`,
normalized lines nonempty and newline-free, and file paths distinct and
colon-free), every reported block of length under 50 admits no normalized
line that all of its occurrences could be extended by; blocks of length
exactly 50 are capped by the loop bound and carry no such guarantee. -/
theorem c6_duplicate_blocks_maximality :
    ∀ (files : List NormalizedFile),
      (∀ f ∈ files, f.lineNumbers.length = f.normalizedLines.length) →
      (∀ f ∈ files, List.Pairwise (· < ·) f.lineNumbers) →
      ((files.map NormalizedFile.path).Nodup) →
      (∀ f ∈ files, ∀ l ∈ f.normalizedLines, l.toList ≠ [] ∧ '\n' ∉ l.toList) →
      (∀ f ∈ files, ':' ∉ f.path.toList) →
      ∀ b ∈ collectDuplicateBlocks files,
        (DUPLICATE_MIN_LINES ≤ b.length ∧ b.length ≤ DUPLICATE_MAX_LINES) ∧
        (b.length < DUPLICATE_MAX_LINES → ¬ extendableBlock files b) := by
  intro files h1 h2 h3 h4 h5 b hb
  simp only [collectDuplicateBlocks] at hb
  rw [List.mem_filter] at hb
  obtain ⟨hbm, hbocc⟩ := hb
  rw [List.mem_map] at hbm
  obtain ⟨pe, hpe, hpb⟩ := hbm
  have hinv : ∀ p ∈ (buildCandidates files).foldl
      (fun m q => processGroup (buildFileIndex files) m q.1 q.2) [],
      entryInv files p.1 p.2 := by
    refine foldl_inv (fun (m : List (String × DupEntry)) =>
        ∀ p ∈ m, entryInv files p.1 p.2) _ (buildCandidates files) [] ?_ ?_
    · intro p hp
      exact absurd hp (List.not_mem_nil p)
    · intro q hq m hm
      exact processGroup_inv files h1 h2 h3 h4 h5 m q.1 q.2
        (buildCandidates_inv files q hq) hm
  obtain ⟨KL, hkey, hKLwf, hmin, hmax, hOk, hBlk⟩ := hinv pe hpe
  constructor
  · rw [← hpb]
    exact ⟨hmin, hmax⟩
  · intro hlt
    rw [← hpb] at hlt ⊢
    rintro ⟨s, hall⟩
    rcases hBlk hlt with ⟨o, ho, hnone⟩ | ⟨o1, ho1, o2, ho2, hne⟩
    · have := hall o ho
      rw [hnone] at this
      exact Option.noConfusion this
    · exact hne ((hall o1 ho1).trans (hall o2 ho2).symm)

set_option maxRecDepth 10000 in
/-- C6 counterexample: the original claim is false at the 50-line cap.  Two
files holding the same 51 distinct lines produce a reported block of length
`DUPLICATE_MAX_LINES = 50` whose two occurrences both continue with the same
next normalized line, so its length could be increased by one more line
without breaking equality across its occurrences. -/
theorem c6_duplicate_blocks_maximality_counterexample :
    ∃ b ∈ collectDuplicateBlocks c6Files,
      b.length = DUPLICATE_MAX_LINES ∧
      b.occurrences.length = 2 ∧
      extendableBlock c6Files b := by
  refine ⟨{ hash := "3238012e", length := 50,
            occurrences := [{ file := "src/a.ts", startLine := 1, endLine := 50 },
                            { file := "src/b.ts", startLine := 1, endLine := 50 }] },
          ?_, rfl, rfl, ⟨c6Line 50, by decide⟩⟩
  have h : (collectDuplicateBlocks c6Files).head? = some
      { hash := "3238012e", length := 50,
        occurrences := [{ file := "src/a.ts", startLine := 1, endLine := 50 },
                        { file := "src/b.ts", startLine := 1, endLine := 50 }] } := by rfl
  cases hl : collectDuplicateBlocks c6Files with
  | nil => rw [hl] at h; exact Option.noConfusion h
  | cons x xs =>
    rw [hl] at h
    rw [List.head?_cons] at h
    rw [Option.some.injEq] at h
    rw [← h]
    exact List.mem_cons_self x xs

/-- C6 witness: on two concrete files sharing a 12-line block, the reported
length-12 block is not extendable, by the amended theorem with every
hypothesis checked concretely. -/
theorem c6_duplicate_blocks_maximality_witness :
    c6wBlock ∈ collectDuplicateBlocks c6wFiles ∧ c6wBlock.length = 12 ∧
    ¬ extendableBlock c6wFiles c6wBlock := by
  refine ⟨by decide, rfl,
    (c6_duplicate_blocks_maximality c6wFiles (by decide) (by decide) (by decide) (by decide) (by decide)
      c6wBlock (by decide)).2 (by decide)⟩

end CodeRoast
